import Mathlib

/-!
# Relay, start coordination and flow control of the GStreamer appsrc/appsink tutorial

A shallow embedding of the relay loops of `audio1.cpp`, `video3.cpp` and `av1.cpp`
(`codeThreadProcessA`, `codeThreadProcessV`) with their audio copy and video transform,
of `playElf`, of the `startFeed` / `stopFeed` callbacks, of the frame thread of
`video2.cpp` (`codeThreadSrcV`) with its callbacks, and of the bus threads
(`busProcessMsg`, `codeThreadBus`).

The programs are multi-threaded and communicate through `std::atomic_bool` flags
(sequentially consistent loads and stores) and one mutex.  A thread is therefore a
program counter plus its local variables, every load or store of a shared flag is one
step, and a run of a program is a list of events (the schedule): which thread, or which
callback, takes the next step.  Everything a thread does on the outside world is
appended to a trace of effects.
-/

namespace GstApp

/-! ## Data model -/

/-- Media type of a relay: `A` is the audio thread, `V` the video thread. -/
inductive Media
  | A
  | V
deriving DecidableEq, Repr

/-- The three relay programs. -/
inductive Prog
  | audio1
  | video3
  | av1
deriving DecidableEq, Repr

/-- The element handles stored in `GoblinData` (the `source` argument of the callbacks). -/
inductive GstElement
  | goblinPipeline
  | goblinSinkV
  | goblinSinkA
  | elfPipeline
  | elfSrcV
  | elfSrcA
deriving DecidableEq, Repr

/-- Return values of `gst_element_set_state`. -/
inductive GstStateChangeReturn
  | FAILURE
  | SUCCESS
  | ASYNC
  | NO_PREROLL
deriving DecidableEq, Repr

/-- Return values of `gst_app_src_push_buffer`: accepted, back-pressured (flushing) or
rejected. -/
inductive GstFlowReturn
  | OK
  | FLUSHING
  | ERROR
deriving DecidableEq, Repr

/-- The value `GST_CLOCK_TIME_NONE` of the GStreamer headers: all 64 bits set. -/
def GST_CLOCK_TIME_NONE : Nat := 2 ^ 64 - 1

/-- The fields of a `GstCaps` the programs look at (`width`, `height`, `framerate` of the
first structure, each possibly absent), and the rest of the description. -/
structure GstCaps where
  width : Option Nat
  height : Option Nat
  framerate : Option (Nat × Nat)
  descr : List Nat
deriving DecidableEq, Repr

/-- A `GstBuffer`: its bytes, `pts`, `duration`, and whether `gst_buffer_map` succeeds. -/
structure GstBuffer where
  data : List Nat
  pts : Nat
  duration : Nat
  mappable : Bool
deriving DecidableEq, Repr

/-- A `GstSample`: `gst_sample_get_caps` (may be NULL) and `gst_sample_get_buffer`. -/
structure GstSample where
  caps : Option GstCaps
  buffer : GstBuffer
deriving DecidableEq, Repr

/-- The shared flags of `GoblinData`.  `av1.cpp` has all of them; `audio1.cpp` has only
`flagRunA` and `flagElfStarted`, `video3.cpp` only `flagRunV` and `flagElfStarted`.
`mutexElfStart` is the thread holding the mutex, if any. -/
structure GoblinData where
  flagRunV : Bool
  flagRunA : Bool
  flagElfStarted : Bool
  flagInitA : Bool
  flagInitV : Bool
  mutexElfStart : Option Media
deriving DecidableEq, Repr

/-- The initial `GoblinData`: every flag `false`, the mutex free. -/
def GoblinData.init : GoblinData :=
  ⟨false, false, false, false, false, none⟩

/-- The run flag of a media type: `flagRunA` or `flagRunV`. -/
def GoblinData.flagRun (d : GoblinData) : Media → Bool
  | .A => d.flagRunA
  | .V => d.flagRunV

/-- The format flag of a media type: `flagInitA` or `flagInitV`. -/
def GoblinData.flagInit (d : GoblinData) : Media → Bool
  | .A => d.flagInitA
  | .V => d.flagInitV

/-- Store to `flagRunA` or `flagRunV`. -/
def GoblinData.setFlagRun (d : GoblinData) (m : Media) (b : Bool) : GoblinData :=
  match m with
  | .A => { d with flagRunA := b }
  | .V => { d with flagRunV := b }

/-- Store to `flagInitA` or `flagInitV`. -/
def GoblinData.setFlagInit (d : GoblinData) (m : Media) (b : Bool) : GoblinData :=
  match m with
  | .A => { d with flagInitA := b }
  | .V => { d with flagInitV := b }

/-- Everything a thread does to the outside world.  Each effect carries the media type of
the relay thread that performs it. -/
inductive Effect
  /-- `this_thread::sleep_for(std::chrono::milliseconds(10))` -/
  | sleep (m : Media)
  /-- `gst_app_sink_is_eos` and its answer -/
  | isEos (m : Media) (r : Bool)
  /-- `gst_app_sink_pull_sample` and its result (`none` is a null sample) -/
  | pullSample (m : Media) (s : Option GstSample)
  /-- `g_object_set(elfSrc, "caps", capsElf, nullptr)` -/
  | setCaps (m : Media) (c : GstCaps)
  /-- `gst_element_set_state(data.elfPipeline, GST_STATE_PLAYING)` and its return value -/
  | setStatePlaying (m : Media) (ret : GstStateChangeReturn)
  /-- `gst_sample_unref(sample)` -/
  | sampleUnref (m : Media)
  /-- `gst_buffer_map(bufferIn, &mapIn, GST_MAP_READ)` and its result -/
  | bufferMap (m : Media) (ok : Bool)
  /-- a read of `bufferIn->pts` or `bufferIn->duration` -/
  | bufferRead (m : Media)
  /-- `gst_buffer_unmap(bufferIn, &mapIn)` -/
  | bufferUnmap (m : Media)
  /-- `gst_app_src_push_buffer(elfSrc, bufferOut)` and its return value -/
  | pushBuffer (m : Media) (b : GstBuffer) (ret : GstFlowReturn)
  /-- `gst_app_src_end_of_stream(elfSrc)` -/
  | endOfStream (m : Media)
deriving DecidableEq, Repr

/-- The relay thread that performs an effect. -/
def Effect.media : Effect → Media
  | .sleep m => m
  | .isEos m _ => m
  | .pullSample m _ => m
  | .setCaps m _ => m
  | .setStatePlaying m _ => m
  | .sampleUnref m => m
  | .bufferMap m _ => m
  | .bufferRead m => m
  | .bufferUnmap m => m
  | .pushBuffer m _ _ => m
  | .endOfStream m => m

/-- What the playback pipeline answers: the return value of the one
`gst_element_set_state(elfPipeline, PLAYING)` call, and the return value of the `k`-th
`gst_app_src_push_buffer` call of each relay. -/
structure Env where
  startRet : GstStateChangeReturn
  pushRet : Media → Nat → GstFlowReturn

/-! ## Buffers and the two transforms -/

/-- Whether a number fits a C `int`; the `int` product `imW * imH * 3` is undefined
beyond, and a size assigned to an `int` is narrowed (`toInt`). -/
def fitsInt (n : Nat) : Bool := decide (n < 2 ^ 31)

/-- The buffer `gst_buffer_new_and_alloc(size)` returns: `size` bytes, `pts` and `duration`
both `GST_CLOCK_TIME_NONE`. -/
def gst_buffer_new_and_alloc (size : Nat) : GstBuffer :=
  ⟨List.replicate size 0, GST_CLOCK_TIME_NONE, GST_CLOCK_TIME_NONE, true⟩

/-- The conversion of a size to a C `int` (`int bufferSize = mapIn.size`, a narrowing of
`gsize` that no check precedes): the size modulo `2 ^ 32`, read as a signed 32-bit
number. -/
def toInt (n : Nat) : Int :=
  if n % 2 ^ 32 < 2 ^ 31 then ((n % 2 ^ 32 : Nat) : Int)
  else ((n % 2 ^ 32 : Nat) : Int) - 2 ^ 32

/-- The call `memcpy(dst, src, n)`: the first `n` bytes of `dst` are replaced by the first
`n` bytes of `src`.  The array `dst` keeps its size: bytes that `src` does not have or that
`dst` has no room for are not copied. -/
def memcpy (dst src : List Nat) (n : Nat) : List Nat :=
  let bytes := (src.take n).take dst.length
  bytes ++ dst.drop bytes.length

/-- The output buffer of the audio relays (audio1.cpp 187-197, av1.cpp 279-289):
`int bufferSize = mapIn.size`, a new buffer of `bufferSize` bytes, `bufferSize` input
bytes copied into it, `pts` and `duration` assigned from the input buffer.  (A negative
`bufferSize` never gets here, see `processSample`.) -/
def audioBufferOut (bufferIn : GstBuffer) : GstBuffer :=
  let bufferSize := (toInt bufferIn.data.length).toNat
  let bufferOut := gst_buffer_new_and_alloc bufferSize
  let bufferOut := { bufferOut with data := memcpy bufferOut.data bufferIn.data bufferSize }
  let bufferOut := { bufferOut with pts := bufferIn.pts }
  { bufferOut with duration := bufferIn.duration }

/-- Membership of pixel `(x, y)` in `Rect2i(imW/3, imH/3, imW/3, imH/3)`. -/
def inRect (imW imH x y : Nat) : Bool :=
  decide (imW / 3 ≤ x) && decide (x < imW / 3 + imW / 3) &&
    decide (imH / 3 ≤ y) && decide (y < imH / 3 + imH / 3)

/-- The function `cv::bitwise_not` on one byte. -/
def bitwise_not (b : Nat) : Nat := 255 - b % 256

/-- The frame after `bitwise_not(frameMid, frameMid)`: `frame` is an `imH x imW` matrix of
3-byte pixels stored row by row, `frameMid` its sub-matrix
`Rect2i(imW/3, imH/3, imW/3, imH/3)`; byte `i` belongs to pixel `i / 3`, in column
`(i / 3) % imW` and row `(i / 3) / imW`. -/
def negateMiddle (imW imH : Nat) (frame : List Nat) : List Nat :=
  frame.enum.map fun ib =>
    if inRect imW imH ((ib.1 / 3) % imW) ((ib.1 / 3) / imW) then bitwise_not ib.2 else ib.2

/-- The byte arrays a relay iteration works on, by address: the mapped bytes of the input
buffer, the pixel arrays of the `cv::Mat` frames, the mapped bytes of the output buffer. -/
structure Memory where
  arrays : List (List Nat)
deriving DecidableEq, Repr

/-- The bytes at an address. -/
def Memory.read (mem : Memory) (a : Nat) : List Nat := mem.arrays.getD a []

/-- The bytes at an address are replaced. -/
def Memory.write (mem : Memory) (a : Nat) (bytes : List Nat) : Memory :=
  ⟨mem.arrays.set a bytes⟩

/-- A new array, at an address not in use. -/
def Memory.alloc (mem : Memory) (bytes : List Nat) : Memory × Nat :=
  (⟨mem.arrays ++ [bytes]⟩, mem.arrays.length)

/-- A `cv::Mat` header of 3-byte pixels (`CV_8UC3`): its size and the address of its pixel
array.  A header does not own its pixels: `Mat(imH, imW, CV_8UC3, ptr)` and a sub-matrix
`Mat(frame, rect)` are headers on an existing array. -/
structure Mat where
  rows : Nat
  cols : Nat
  data : Nat
deriving DecidableEq, Repr

/-- The call `Mat::clone()`: a header on a new array that holds a copy of the
`rows * cols * 3` bytes of the pixels. -/
def Mat.clone (mem : Memory) (m : Mat) : Memory × Mat :=
  let (mem, a) := mem.alloc ((mem.read m.data).take (m.rows * m.cols * 3))
  (mem, { m with data := a })

/-- The statements of the video transform (video3.cpp 182-193, av1.cpp 209-220) on the
memory, `mapIn` being the address of the mapped input bytes; the result is the memory and
the output buffer.  `frame` is a clone of the header on the mapped input; `frameMid` is a
header on the pixels of `frame`, restricted to `Rect2i(imW/3, imH/3, imW/3, imH/3)`, and
`bitwise_not(frameMid, frameMid)` writes through it; the output buffer is allocated with
`bufferSize` bytes and filled by `memcpy`. -/
def videoTransform (imW imH : Nat) (mem : Memory) (mapIn : Nat) : Memory × GstBuffer :=
  let (mem, frame) := Mat.clone mem ⟨imH, imW, mapIn⟩
  let frameMid : Mat := ⟨imH / 3, imW / 3, frame.data⟩
  let mem := mem.write frameMid.data (negateMiddle imW imH (mem.read frameMid.data))
  let bufferSize := frame.cols * frame.rows * 3
  let bufferOut := gst_buffer_new_and_alloc bufferSize
  let (mem, mapOut) := mem.alloc bufferOut.data
  let mem := mem.write mapOut (memcpy (mem.read mapOut) (mem.read frame.data) bufferSize)
  (mem, { bufferOut with data := mem.read mapOut })

/-- The output buffer of the video relays (video3.cpp 180-196, av1.cpp 207-223): the input
buffer is mapped, the transform runs on the memory that holds its bytes, and only `pts`
is assigned to the output buffer. -/
def videoBufferOut (imW imH : Nat) (bufferIn : GstBuffer) : GstBuffer :=
  let (mem, mapIn) := Memory.alloc ⟨[]⟩ bufferIn.data
  let pts := bufferIn.pts
  let (_, bufferOut) := videoTransform imW imH mem mapIn
  { bufferOut with pts := pts }

/-! ## The relay threads -/

/-- Program counter of a relay thread (`codeThreadProcessA` / `codeThreadProcessV`). -/
inductive Pc
  /-- `while (data.flagX && ...`: the load of the first flag of the idle-wait condition -/
  | whileGate
  /-- `... && !data.flagRun)`: the load of the run flag -/
  | whileRun
  /-- body of the idle-wait loop: the 10 ms sleep -/
  | sleep
  /-- `if (gst_app_sink_is_eos(...)) break;` -/
  | isEos
  /-- `gst_app_sink_pull_sample`, `if (sample == nullptr) break;` -/
  | pullSample
  /-- video only: `gst_sample_get_caps` and the asserts on width, height, framerate -/
  | getCaps
  /-- `if (!data.flagX)`: the load that guards the first-sample block -/
  | ifGate
  /-- `gst_caps_copy`, `g_object_set(elfSrc, "caps", ...)`, `gst_caps_unref` -/
  | setCaps
  /-- av1: `data.flagInitX = true` -/
  | storeInit
  /-- av1: `if (!data.flagElfStarted && ...`: load of `flagElfStarted` -/
  | ifStarted
  /-- av1: `... && data.flagInitA && ...`: load of `flagInitA` -/
  | ifInitA
  /-- av1: `... && data.flagInitV)`: load of `flagInitV` -/
  | ifInitV
  /-- av1, playElf: `lock_guard<mutex> lock(data.mutexElfStart)` -/
  | lockMutex
  /-- av1, playElf: `if (!data.flagElfStarted)` under the mutex -/
  | ifStarted2
  /-- `gst_element_set_state(data.elfPipeline, GST_STATE_PLAYING)` and the assert on it -/
  | setState
  /-- `data.flagElfStarted = true` -/
  | storeStarted
  /-- av1, playElf returns: the `lock_guard` releases the mutex -/
  | unlockMutex
  /-- map the input buffer, build the output buffer, push it (and unref the sample) -/
  | process
  /-- after the loop: `gst_app_src_end_of_stream` -/
  | endOfStream
  /-- the thread function has returned -/
  | done
  /-- an assertion has thrown -/
  | failed
deriving DecidableEq, Repr

/-- A relay thread: program counter and local variables.  `source` is what the appsink of
the capture pipeline will still deliver: `gst_app_sink_is_eos` is true when it is
exhausted, an entry `none` is a pull that returns a null sample.  `pushed` counts the
calls of `gst_app_src_push_buffer` made so far. -/
structure Relay where
  pc : Pc
  source : List (Option GstSample)
  sample : Option GstSample
  imW : Nat
  imH : Nat
  pushed : Nat
deriving DecidableEq, Repr

/-- A relay thread at the top of its loop. -/
def Relay.init (source : List (Option GstSample)) : Relay :=
  ⟨.whileGate, source, none, 0, 0, 0⟩

/-- Result of one step of a thread. -/
structure Out where
  data : GoblinData
  relay : Relay
  effects : List Effect
  threw : Bool

/-- The flag read by the idle-wait loop and by the first-sample block: `flagElfStarted` in
audio1.cpp (144, 163) and video3.cpp (128, 160), `flagInitA` / `flagInitV` in av1.cpp
(155, 188, 235, 255). -/
def gateFlag (p : Prog) (m : Media) (d : GoblinData) : Bool :=
  match p with
  | .av1 => d.flagInit m
  | _ => d.flagElfStarted

/-- Effects of the part of an iteration after the first-sample block, and whether the
iteration gets to its end.  Audio (audio1.cpp 180-200, av1.cpp 272-292): map, copy, unmap,
read pts and duration, push, unref; the size is narrowed to `int bufferSize` without a
check, and when that is negative `gst_buffer_new_and_alloc` is asked for more than
`2 ^ 63` bytes, returns no buffer, and the thread does not survive the `memcpy` through
the output that was never mapped.  Video (video3.cpp 174-197, av1.cpp 202-224):
video3 unrefs the sample first, av1 never does; map, size assert, read pts, unmap,
negate, push. -/
def processSample (p : Prog) (env : Env) (m : Media) (r : Relay) : List Effect × Bool :=
  match r.sample with
  | none => ([.bufferMap m false], false)
  | some sample =>
    let bufferIn := sample.buffer
    match m with
    | .A =>
      if !bufferIn.mappable then ([.bufferMap .A false], false)
      else if toInt bufferIn.data.length < 0 then ([.bufferMap .A true], false)
      else
        ([.bufferMap .A true, .bufferUnmap .A, .bufferRead .A, .bufferRead .A,
          .pushBuffer .A (audioBufferOut bufferIn) (env.pushRet .A r.pushed),
          .sampleUnref .A], true)
    | .V =>
      let unref : List Effect := if p = .video3 then [.sampleUnref .V] else []
      if !bufferIn.mappable then (unref ++ [.bufferMap .V false], false)
      else if !fitsInt (r.imW * r.imH * 3) then (unref ++ [.bufferMap .V true], false)
      else if bufferIn.data.length ≠ r.imW * r.imH * 3 then
        (unref ++ [.bufferMap .V true], false)
      else
        (unref ++ [.bufferMap .V true, .bufferRead .V, .bufferUnmap .V,
          .pushBuffer .V (videoBufferOut r.imW r.imH bufferIn) (env.pushRet .V r.pushed)],
          true)

/-- One step of the relay thread of media type `m` in program `p`. -/
def relayStep (p : Prog) (env : Env) (m : Media) (d : GoblinData) (r : Relay) : Out :=
  match r.pc with
  | .whileGate =>
    if gateFlag p m d then ⟨d, { r with pc := .whileRun }, [], false⟩
    else ⟨d, { r with pc := .isEos }, [], false⟩
  | .whileRun =>
    if d.flagRun m then ⟨d, { r with pc := .isEos }, [], false⟩
    else ⟨d, { r with pc := .sleep }, [], false⟩
  | .sleep => ⟨d, { r with pc := .whileGate }, [.sleep m], false⟩
  | .isEos =>
    if r.source.isEmpty then ⟨d, { r with pc := .endOfStream }, [.isEos m true], false⟩
    else ⟨d, { r with pc := .pullSample }, [.isEos m false], false⟩
  | .pullSample =>
    match r.source with
    | [] => ⟨d, { r with pc := .endOfStream }, [.pullSample m none], false⟩
    | none :: rest =>
      ⟨d, { r with pc := .endOfStream, source := rest }, [.pullSample m none], false⟩
    | some sample :: rest =>
      ⟨d, { r with pc := (if m = .V then .getCaps else .ifGate), source := rest,
                   sample := some sample }, [.pullSample m (some sample)], false⟩
  | .getCaps =>
    match r.sample.bind (fun s => s.caps) with
    | none => ⟨d, { r with pc := .failed }, [], true⟩
    | some caps =>
      match caps.width, caps.height, caps.framerate with
      | some w, some h, some _ => ⟨d, { r with pc := .ifGate, imW := w, imH := h }, [], false⟩
      | _, _, _ => ⟨d, { r with pc := .failed }, [], true⟩
  | .ifGate =>
    if gateFlag p m d then ⟨d, { r with pc := .process }, [], false⟩
    else ⟨d, { r with pc := .setCaps }, [], false⟩
  | .setCaps =>
    match r.sample.bind (fun s => s.caps) with
    | none => ⟨d, { r with pc := .failed }, [], true⟩
    | some caps =>
      ⟨d, { r with pc := (if p = .av1 then .storeInit else .setState) },
        [.setCaps m caps], false⟩
  | .storeInit => ⟨d.setFlagInit m true, { r with pc := .ifStarted }, [], false⟩
  | .ifStarted =>
    if d.flagElfStarted then ⟨d, { r with pc := .process }, [], false⟩
    else ⟨d, { r with pc := .ifInitA }, [], false⟩
  | .ifInitA =>
    if d.flagInitA then ⟨d, { r with pc := .ifInitV }, [], false⟩
    else ⟨d, { r with pc := .process }, [], false⟩
  | .ifInitV =>
    if d.flagInitV then ⟨d, { r with pc := .lockMutex }, [], false⟩
    else ⟨d, { r with pc := .process }, [], false⟩
  | .lockMutex =>
    if d.mutexElfStart = none then
      ⟨{ d with mutexElfStart := some m }, { r with pc := .ifStarted2 }, [], false⟩
    else ⟨d, r, [], false⟩
  | .ifStarted2 =>
    if d.flagElfStarted then ⟨d, { r with pc := .unlockMutex }, [], false⟩
    else ⟨d, { r with pc := .setState }, [], false⟩
  | .setState =>
    if env.startRet = .FAILURE then
      ⟨d, { r with pc := .failed }, [.setStatePlaying m env.startRet], true⟩
    else ⟨d, { r with pc := .storeStarted }, [.setStatePlaying m env.startRet], false⟩
  | .storeStarted =>
    ⟨{ d with flagElfStarted := true },
      { r with pc := (if p = .av1 then .unlockMutex else .process) }, [], false⟩
  | .unlockMutex => ⟨{ d with mutexElfStart := none }, { r with pc := .process }, [], false⟩
  | .process =>
    match processSample p env m r with
    | (effs, true) =>
      ⟨d, { r with pc := .whileGate, sample := none, pushed := r.pushed + 1 }, effs, false⟩
    | (effs, false) => ⟨d, { r with pc := .failed }, effs, true⟩
  | .endOfStream => ⟨d, { r with pc := .done }, [.endOfStream m], false⟩
  | .done => ⟨d, r, [], false⟩
  | .failed => ⟨d, r, [], false⟩

/-! ## The callbacks -/

/-- The `need-data` callback.  audio1.cpp 121-127 and video3.cpp 204-210 ignore `source`;
av1.cpp 300-314 picks the flag by `source` and asserts `source == data->elfSrcA`
otherwise.  `none` is a failed assertion. -/
def startFeed (p : Prog) (source : GstElement) (d : GoblinData) : Option GoblinData :=
  match p with
  | .audio1 => some (if !d.flagRunA then { d with flagRunA := true } else d)
  | .video3 => some (if !d.flagRunV then { d with flagRunV := true } else d)
  | .av1 =>
    if source = .elfSrcV then
      some (if !d.flagRunV then { d with flagRunV := true } else d)
    else if source = .elfSrcA then
      some (if !d.flagRunA then { d with flagRunA := true } else d)
    else none

/-- The `enough-data` callback (audio1.cpp 131-137, video3.cpp 214-220, av1.cpp 318-332). -/
def stopFeed (p : Prog) (source : GstElement) (d : GoblinData) : Option GoblinData :=
  match p with
  | .audio1 => some (if d.flagRunA then { d with flagRunA := false } else d)
  | .video3 => some (if d.flagRunV then { d with flagRunV := false } else d)
  | .av1 =>
    if source = .elfSrcV then
      some (if d.flagRunV then { d with flagRunV := false } else d)
    else if source = .elfSrcA then
      some (if d.flagRunA then { d with flagRunA := false } else d)
    else none

/-! ## Programs as transition systems -/

/-- State of a running program: the shared flags, the relay threads, the effects so far,
and whether an uncaught exception has terminated the process. -/
structure Sys where
  data : GoblinData
  relayA : Relay
  relayV : Relay
  trace : List Effect
  terminated : Bool
deriving DecidableEq, Repr

/-- The state in which `main` starts the threads. -/
def Sys.init (srcA srcV : List (Option GstSample)) : Sys :=
  ⟨GoblinData.init, Relay.init srcA, Relay.init srcV, [], false⟩

/-- The relay thread of a media type. -/
def Sys.relay (s : Sys) : Media → Relay
  | .A => s.relayA
  | .V => s.relayV

/-- The relay threads `main` starts: audio1 the audio one, video3 the video one, av1
both. -/
def hasRelay : Prog → Media → Bool
  | .audio1, .A => true
  | .video3, .V => true
  | .av1, _ => true
  | _, _ => false

/-- What the scheduler can pick next: a step of a relay thread, or a callback. -/
inductive Event
  | relay (m : Media)
  | startFeed (source : GstElement)
  | stopFeed (source : GstElement)
deriving DecidableEq, Repr

/-- The state after a step `o` of the relay thread of media type `m`. -/
def Sys.apply (s : Sys) (m : Media) (o : Out) : Sys :=
  match m with
  | .A => { s with data := o.data, relayA := o.relay, trace := s.trace ++ o.effects,
                   terminated := o.threw }
  | .V => { s with data := o.data, relayV := o.relay, trace := s.trace ++ o.effects,
                   terminated := o.threw }

/-- One event.  Nothing moves once the process has terminated. -/
def step (p : Prog) (env : Env) (e : Event) (s : Sys) : Sys :=
  if s.terminated then s
  else
    match e with
    | .relay m =>
      if hasRelay p m then s.apply m (relayStep p env m s.data (s.relay m)) else s
    | .startFeed source =>
      match startFeed p source s.data with
      | some d => { s with data := d }
      | none => { s with terminated := true }
    | .stopFeed source =>
      match stopFeed p source s.data with
      | some d => { s with data := d }
      | none => { s with terminated := true }

/-- A run: the events of a schedule, one after the other. -/
def run (p : Prog) (env : Env) (es : List Event) (s : Sys) : Sys :=
  es.foldl (fun s e => step p env e s) s

/-! ## Observations on traces -/

/-- Number of `gst_element_set_state(elfPipeline, PLAYING)` calls in a trace. -/
def startCount : List Effect → Nat
  | [] => 0
  | .setStatePlaying _ _ :: t => startCount t + 1
  | _ :: t => startCount t

/-- The buffers handed to `gst_app_src_push_buffer` by the relay of media type `m`, in
order. -/
def pushedBuffers (m : Media) : List Effect → List GstBuffer
  | [] => []
  | .pushBuffer m1 b _ :: t => if m1 = m then b :: pushedBuffers m t else pushedBuffers m t
  | _ :: t => pushedBuffers m t

/-- The effects of the relay of media type `m` in a trace. -/
def relayTrace (m : Media) (tr : List Effect) : List Effect :=
  tr.filter fun e => decide (e.media = m)

/-! ## The start coordination of av1: program points -/

/-- The thread is inside the locked part of `playElf` (it holds `mutexElfStart`). -/
def Pc.inPlayElf : Pc → Bool
  | .ifStarted2 | .setState | .storeStarted | .unlockMutex => true
  | _ => false

/-- The thread has loaded `flagInitA` as `true` in the start check of av1. -/
def Pc.sawInitA : Pc → Bool
  | .ifInitV | .lockMutex | .ifStarted2 | .setState | .storeStarted => true
  | _ => false

/-- The thread has loaded `flagInitV` as `true` in the start check of av1. -/
def Pc.sawInitV : Pc → Bool
  | .lockMutex | .ifStarted2 | .setState | .storeStarted => true
  | _ => false

/-- The thread is inside the start check of av1: after its `flagInit = true` store and
before the `gst_element_set_state` call (`if (!flagElfStarted && flagInitA && flagInitV)`
and `playElf` up to the call). -/
def Pc.startPending : Pc → Bool
  | .ifStarted | .ifInitA | .ifInitV | .lockMutex | .ifStarted2 | .setState => true
  | _ => false

/-- The thread is in the first-sample block before its `flagInit = true` store. -/
def Pc.beforeInit : Pc → Bool
  | .setCaps | .storeInit => true
  | _ => false

/-- The thread is in the first-sample block of av1 after its `flagInit = true` store. -/
def Pc.afterInit : Pc → Bool
  | .ifStarted | .ifInitA | .ifInitV | .lockMutex | .ifStarted2 | .setState
  | .storeStarted | .unlockMutex => true
  | _ => false

/-- The idle-wait loop: condition and body. -/
def Pc.inWait : Pc → Bool
  | .whileGate | .whileRun | .sleep => true
  | _ => false

/-- Number of buffers the relay of media type `m` has pushed in a trace. -/
def pushCount (m : Media) (tr : List Effect) : Nat := (pushedBuffers m tr).length

/-- The other relay thread. -/
def Media.other : Media → Media
  | .A => .V
  | .V => .A

/-- What holds of one relay thread of av1 in every reachable state: `cnt` is the number of
start calls so far, `pushes` the number of buffers this relay has pushed. -/
structure Av1RelayInv (m : Media) (d : GoblinData) (pc : Pc) (cnt pushes : Nat) : Prop where
  holds_mutex : pc.inPlayElf = true → d.mutexElfStart = some m
  saw_initA : pc.sawInitA = true → d.flagInitA = true
  saw_initV : pc.sawInitV = true → d.flagInitV = true
  at_setState : pc = .setState → cnt = 0
  at_storeStarted : pc = .storeStarted → cnt = 1
  at_unlockMutex : pc = .unlockMutex → cnt = 1
  before_init : pc.beforeInit = true → d.flagInit m = false
  no_push_before_init : d.flagInit m = false → pushes = 0
  after_init : pc.afterInit = true → pushes = 0 ∧ d.flagInit m = true
  at_process : pc = .process → d.flagInit m = true

/-- The invariant of av1 behind the exactly-once start, seen from the relay thread `m`:
`pc`, `pushes` are its own program counter and push count, `pc1`, `pushes1` those of the
other relay thread, `cnt` the number of start calls so far. -/
structure Av1Abs (m : Media) (d : GoblinData) (pc pc1 : Pc) (cnt pushes pushes1 : Nat)
    (terminated : Bool) : Prop where
  self : Av1RelayInv m d pc cnt pushes
  other : Av1RelayInv m.other d pc1 cnt pushes1
  started_init : d.flagElfStarted = true → d.flagInitA = true ∧ d.flagInitV = true
  at_most_once : cnt ≤ 1
  started_count : d.flagElfStarted = true → cnt = 1
  count_started : 1 ≤ cnt →
    d.flagElfStarted = true ∨ pc = .storeStarted ∨ pc1 = .storeStarted ∨ terminated = true
  pending : d.flagInitA = true → d.flagInitV = true → cnt = 0 →
    pc.startPending = true ∨ pc1.startPending = true
  count_init : 1 ≤ cnt → d.flagInitA = true ∧ d.flagInitV = true
  mutex_self : d.mutexElfStart = some m → pc.inPlayElf = true ∨ terminated = true
  mutex_other : d.mutexElfStart = some m.other → pc1.inPlayElf = true ∨ terminated = true

/-- The invariant of av1 behind the exactly-once start. -/
def Av1Inv (s : Sys) : Prop :=
  Av1Abs .A s.data s.relayA.pc s.relayV.pc (startCount s.trace) (pushCount .A s.trace)
    (pushCount .V s.trace) s.terminated

/-! ## Example inputs -/

/-- A playback pipeline that starts and accepts every buffer. -/
def envOk : Env := ⟨.SUCCESS, fun _ _ => .OK⟩

/-- Caps of an audio sample. -/
def capsAudio : GstCaps := ⟨none, none, none, [44100, 2]⟩

/-- Caps of a 3 x 3 video frame. -/
def capsVideo : GstCaps := ⟨some 3, some 3, some (30, 1), []⟩

/-- The `k`-th audio sample of the examples: two bytes, `pts = 10 * k`, `duration = 10`. -/
def sampleA (k : Nat) : GstSample := ⟨some capsAudio, ⟨[k, k + 1], 10 * k, 10, true⟩⟩

/-- The `k`-th video sample of the examples: a 3 x 3 frame of bytes `k`, `pts = 40 * k`,
`duration = 40`. -/
def sampleV (k : Nat) : GstSample :=
  ⟨some capsVideo, ⟨List.replicate 27 k, 40 * k, 40, true⟩⟩

/-- The schedule in which the relay thread of media type `m` takes `k` steps in a row. -/
def steps (m : Media) (k : Nat) : List Event := List.replicate k (.relay m)

/-! ## playElf as a function -/

/-- Outcome of a call that runs to its end: the flags after it, its effects, and whether
an assertion threw. -/
structure Call where
  data : GoblinData
  effects : List Effect
  threw : Bool
deriving DecidableEq

/-- The function `playElf` (av1.cpp 136-146), called by the relay thread of media type `m`
and run to its end with no step of another thread in between: under the mutex, if
`flagElfStarted` is false the pipeline is set to PLAYING, the return value is asserted
not to be `GST_STATE_CHANGE_FAILURE`, and `flagElfStarted` is set. -/
def playElf (env : Env) (m : Media) (data : GoblinData) : Call :=
  if !data.flagElfStarted then
    if env.startRet = .FAILURE then ⟨data, [.setStatePlaying m env.startRet], true⟩
    else ⟨{ data with flagElfStarted := true }, [.setStatePlaying m env.startRet], false⟩
  else ⟨data, [], false⟩

/-- The two call sites of `playElf` (av1.cpp 197-198, 267-268):
`if (!data.flagElfStarted && data.flagInitA && data.flagInitV) playElf(data);`. -/
def playElfIfReady (env : Env) (m : Media) (data : GoblinData) : Call :=
  if !data.flagElfStarted && data.flagInitA && data.flagInitV then playElf env m data
  else ⟨data, [], false⟩

/-! ## Leaving the loop -/

/-- The two effects after which a relay leaves its loop: `gst_app_sink_is_eos` answering
true, and a null sample. -/
def Effect.isExit : Effect → Bool
  | .isEos _ true => true
  | .pullSample _ none => true
  | _ => false

/-- The effect is a `gst_app_src_end_of_stream` call. -/
def Effect.isEndOfStream : Effect → Bool
  | .endOfStream _ => true
  | _ => false

/-- A trace of effects made inside the loop: no exit effect and no end-of-stream call. -/
def loopOnly (rt : List Effect) : Prop :=
  ∀ e ∈ rt, e.isExit = false ∧ e.isEndOfStream = false

/-- Shape of the effects of a relay thread, by program point: inside the loop no exit
effect and no end-of-stream call has been made; at the end-of-stream call the last effect
is the exit effect; after it the end-of-stream call follows the exit effect and is
last. -/
def EosInv (m : Media) (r : Relay) (rt : List Effect) : Prop :=
  match r.pc with
  | .done => ∃ pre x, rt = pre ++ [x, .endOfStream m] ∧ x.isExit = true ∧ loopOnly pre
  | .endOfStream => ∃ pre x, rt = pre ++ [x] ∧ x.isExit = true ∧ loopOnly pre
  | _ => loopOnly rt

/-! ## What a relay pushes -/

/-- The samples a source delivers before end-of-stream or its first null sample. -/
def delivered : List (Option GstSample) → List GstSample
  | [] => []
  | none :: _ => []
  | some s :: rest => s :: delivered rest

/-- The `width` field of the caps of a sample (0 when absent). -/
def GstSample.width (s : GstSample) : Nat :=
  ((s.caps.bind fun c => c.width).getD 0)

/-- The `height` field of the caps of a sample (0 when absent). -/
def GstSample.height (s : GstSample) : Nat :=
  ((s.caps.bind fun c => c.height).getD 0)

/-- The buffer a relay builds from a sample: the audio copy, or the video frame with the
width and height of the sample's caps. -/
def bufferOut (m : Media) (s : GstSample) : GstBuffer :=
  match m with
  | .A => audioBufferOut s.buffer
  | .V => videoBufferOut s.width s.height s.buffer

/-- The buffer the thread builds at `process` from the sample it holds, with the width and
height it has read into its local variables. -/
def Relay.bufferOut (m : Media) (r : Relay) (s : GstSample) : GstBuffer :=
  match m with
  | .A => audioBufferOut s.buffer
  | .V => videoBufferOut r.imW r.imH s.buffer

/-- The thread holds a pulled sample at this program point. -/
def Pc.holdsSample : Pc → Bool
  | .getCaps | .ifGate | .setCaps | .storeInit | .ifStarted | .ifInitA | .ifInitV
  | .lockMutex | .ifStarted2 | .setState | .storeStarted | .unlockMutex | .process => true
  | _ => false

/-- The thread has read width and height from the caps of the sample it holds. -/
def Pc.hasDims : Pc → Bool
  | .ifGate | .setCaps | .storeInit | .ifStarted | .ifInitA | .ifInitV
  | .lockMutex | .ifStarted2 | .setState | .storeStarted | .unlockMutex | .process => true
  | _ => false

/-- Relation between the buffers a relay has pushed (`rt` are its effects), the sample it
holds, what its source will still deliver, and what the source delivers in all (`src0` is
the source at the start). -/
def DataInv (m : Media) (src0 : List (Option GstSample)) (r : Relay) (rt : List Effect) :
    Prop :=
  match r.pc with
  | .endOfStream => pushedBuffers m rt = (delivered src0).map (bufferOut m)
  | .done => pushedBuffers m rt = (delivered src0).map (bufferOut m)
  | .failed => ∃ rest, pushedBuffers m rt ++ rest = (delivered src0).map (bufferOut m)
  | pc =>
    pushedBuffers m rt ++ (r.sample.toList ++ delivered r.source).map (bufferOut m) =
        (delivered src0).map (bufferOut m) ∧
      (pc.holdsSample = false → r.sample = none) ∧
      (pc.holdsSample = true → r.sample ≠ none) ∧
      (m = .V → pc.hasDims = true →
        ∀ s, r.sample = some s → s.caps.bind (fun c => c.width) = some r.imW ∧
          s.caps.bind (fun c => c.height) = some r.imH)

/-! ## The effects on the playback pipeline -/

/-- The effect acts on the playback pipeline: caps assignment, start, push,
end-of-stream. -/
def Effect.onSink : Effect → Bool
  | .setCaps _ _ | .setStatePlaying _ _ | .pushBuffer _ _ _ | .endOfStream _ => true
  | _ => false

/-- The effects of a trace on the playback pipeline, in order. -/
def sinkTrace (tr : List Effect) : List Effect := tr.filter Effect.onSink

/-- No assertion of an iteration fails on this sample, and no size is narrowed.  Audio:
the caps are asserted non-null in the first-sample block only (`first`), the buffer must
map and its size fit `int bufferSize`.  Video: the caps must have width, height and framerate, the buffer must
map and have `imW * imH * 3` bytes, a size that fits `int`. -/
def relayable (m : Media) (first : Bool) (s : GstSample) : Bool :=
  match m with
  | .A => (!first || s.caps.isSome) && s.buffer.mappable && fitsInt s.buffer.data.length
  | .V =>
    match s.caps with
    | none => false
    | some c =>
      c.width.isSome && c.height.isSome && c.framerate.isSome && s.buffer.mappable &&
        fitsInt (s.width * s.height * 3) && decide (s.buffer.data.length = s.width * s.height * 3)

/-- The pushes of the samples `samples` by the relay of media type `m`, the first of them
being the `k`-th push of that relay. -/
def pushes (env : Env) (m : Media) : Nat → List GstSample → List Effect
  | _, [] => []
  | k, s :: rest => .pushBuffer m (bufferOut m s) (env.pushRet m k) :: pushes env m (k + 1) rest

/-- The single relay of audio1 or video3 with its source. -/
def Sys.initFor (m : Media) (source : List (Option GstSample)) : Sys :=
  match m with
  | .A => Sys.init source []
  | .V => Sys.init [] source

/-- The appsrc of the playback pipeline for a media type. -/
def elfSrc : Media → GstElement
  | .A => .elfSrcA
  | .V => .elfSrcV

/-- Steps of the first iteration of the single relay: 8 in audio1, 9 in video3 (which
reads the caps of every sample). -/
def firstIterSteps : Media → Nat
  | .A => 8
  | .V => 9

/-- Steps of a later iteration with the run flag set: 6 in audio1, 7 in video3. -/
def iterSteps : Media → Nat
  | .A => 6
  | .V => 7

/-- A state of audio1 or video3: the flags, the single relay thread, the trace. -/
def Sys.single (m : Media) (d : GoblinData) (r : Relay) (tr : List Effect) : Sys :=
  match m with
  | .A => ⟨d, r, Relay.init [], tr, false⟩
  | .V => ⟨d, Relay.init [], r, tr, false⟩

/-- The program whose single relay has media type `m`: audio1 or video3. -/
def singleProg : Media → Prog
  | .A => .audio1
  | .V => .video3

/-! ## Flow control -/

/-- The event is a `startFeed` call that sets the run flag of media type `m` in program
`p` (audio1 and video3 have one run flag and ignore `source`). -/
def startsFeed (p : Prog) (m : Media) : Event → Bool
  | .startFeed source =>
    match p, m with
    | .audio1, .A => true
    | .video3, .V => true
    | .av1, .A => decide (source ≠ .elfSrcV ∧ source = .elfSrcA)
    | .av1, .V => decide (source = .elfSrcV)
    | _, _ => false
  | _ => false

/-- The thread is past the idle-wait of its iteration and has not pushed yet. -/
def Pc.canPush : Pc → Bool
  | .whileGate | .whileRun | .sleep | .endOfStream | .done | .failed => false
  | _ => true

/-- Number of pushes the thread can still make without passing its idle-wait: 1 when it
is past the idle-wait of its iteration, 0 otherwise. -/
def Pc.pushBudget (pc : Pc) : Nat := if pc.canPush then 1 else 0

/-- What holds while the run flag of media type `m` stays clear after the idle-wait flag
has been set: the flags stay so, and the relay has made at most `bound` pushes, one less
while it is past the idle-wait of its iteration. -/
def PausedInv (p : Prog) (m : Media) (bound : Nat) (s : Sys) : Prop :=
  gateFlag p m s.data = true ∧ s.data.flagRun m = false ∧
    pushCount m s.trace + (s.relay m).pc.pushBudget ≤ bound

/-! ## The caps assignment -/

/-- Number of non-null samples the relay of media type `m` has pulled in a trace. -/
def pullCount (m : Media) (tr : List Effect) : Nat :=
  tr.countP fun e =>
    match e with
    | .pullSample m1 (some _) => decide (m1 = m)
    | _ => false

/-- Number of caps assignments the relay of media type `m` has made in a trace. -/
def capsCount (m : Media) (tr : List Effect) : Nat :=
  tr.countP fun e =>
    match e with
    | .setCaps m1 _ => decide (m1 = m)
    | _ => false

/-- Where a relay thread stands with its caps assignment, by program point: `g` is the
flag that guards the first-sample block (`gateFlag`), `np` the number of samples pulled,
`nc` the number of caps assignments made. -/
def CapsInv (p : Prog) (g : Bool) (pc : Pc) (np nc : Nat) : Prop :=
  match pc with
  | .whileGate | .whileRun | .sleep | .isEos | .pullSample =>
    if g then nc = 1 ∧ 1 ≤ np else np = 0 ∧ nc = 0
  | .getCaps | .ifGate => if g then nc = 1 ∧ 2 ≤ np else np = 1 ∧ nc = 0
  | .setCaps => g = false ∧ np = 1 ∧ nc = 0
  | .storeInit => p = .av1 ∧ g = false ∧ np = 1 ∧ nc = 1
  | .ifStarted | .ifInitA | .ifInitV | .lockMutex | .ifStarted2 | .unlockMutex =>
    p = .av1 ∧ g = true ∧ nc = 1 ∧ 1 ≤ np
  | .setState | .storeStarted =>
    nc = 1 ∧ 1 ≤ np ∧ if p = .av1 then g = true else g = false ∧ np = 1
  | .process => g = true ∧ nc = 1 ∧ 1 ≤ np
  | .endOfStream | .done | .failed => nc ≤ 1

/-- What holds of an existing relay while its run flag has never been set: before the flag
that guards its first-sample block is set it has pushed nothing, afterwards at most one
buffer, none while it is still past the idle-wait of that iteration. -/
def NeverFedInv (p : Prog) (m : Media) (s : Sys) : Prop :=
  s.data.flagRun m = false ∧
    CapsInv p (gateFlag p m s.data) (s.relay m).pc (pullCount m s.trace) (capsCount m s.trace) ∧
    (gateFlag p m s.data = false → pushCount m s.trace = 0) ∧
    (gateFlag p m s.data = true → pushCount m s.trace + (s.relay m).pc.pushBudget ≤ 1)

/-! ## Pulled samples and the return value of a push -/

/-- The non-null samples the relay of media type `m` has pulled in a trace, in order. -/
def pulledSamples (m : Media) : List Effect → List GstSample
  | [] => []
  | .pullSample m1 (some s) :: t =>
    if m1 = m then s :: pulledSamples m t else pulledSamples m t
  | _ :: t => pulledSamples m t

/-- Relation between the buffers a relay has pushed and the samples it has pulled (`rt` are
its effects), while no assertion of the thread has failed: the pushed buffers, followed by
the buffer of the sample the thread holds, are the buffers of the pulled samples, in
order; the thread holds a sample exactly between its pull and its push. -/
def PullInv (m : Media) (r : Relay) (rt : List Effect) : Prop :=
  match r.pc with
  | .failed => True
  | pc =>
    pushedBuffers m rt ++ r.sample.toList.map (bufferOut m) =
        (pulledSamples m rt).map (bufferOut m) ∧
      (pc.holdsSample = false → r.sample = none) ∧
      (pc.holdsSample = true → r.sample ≠ none) ∧
      (m = .V → pc.hasDims = true →
        ∀ s, r.sample = some s → s.caps.bind (fun c => c.width) = some r.imW ∧
          s.caps.bind (fun c => c.height) = some r.imH)

/-- An effect with the return value of a push forgotten. -/
def Effect.eraseRet : Effect → Effect
  | .pushBuffer m b _ => .pushBuffer m b .OK
  | e => e

/-- Two states that differ at most in the return values of the pushes in their traces:
same flags, same threads (program counters and local variables), same termination, same
effects up to those return values. -/
def SameFlow (s1 s2 : Sys) : Prop :=
  s1.data = s2.data ∧ s1.relayA = s2.relayA ∧ s1.relayV = s2.relayV ∧
    s1.terminated = s2.terminated ∧
    s1.trace.map Effect.eraseRet = s2.trace.map Effect.eraseRet

/-! ## A rejecting sink, and leaving the loop on a null sample -/

/-- A playback pipeline that starts and rejects every buffer. -/
def envReject : Env := ⟨.SUCCESS, fun _ _ => .ERROR⟩

/-- Where a relay thread stands after it has left its loop with the exit effect `x` (`rt0`
are its effects up to then): before its end-of-stream call, or returned after it. -/
def ExitInv (m : Media) (x : Effect) (rt0 : List Effect) (r : Relay) (rt : List Effect) :
    Prop :=
  (r.pc = .endOfStream ∧ rt = rt0 ++ [x]) ∨
    (r.pc = .done ∧ rt = rt0 ++ [x, .endOfStream m])

/-! ## The caps a relay assigns -/

/-- The caps the relay of media type `m` has assigned to its appsrc in a trace, in
order. -/
def assignedCaps (m : Media) : List Effect → List GstCaps
  | [] => []
  | .setCaps m1 c :: t => if m1 = m then c :: assignedCaps m t else assignedCaps m t
  | _ :: t => assignedCaps m t

/-- The sample a relay thread holds is the last one it has pulled (`rt` are its
effects). -/
def LastInv (m : Media) (r : Relay) (rt : List Effect) : Prop :=
  r.pc.holdsSample = true →
    ∃ smp, r.sample = some smp ∧ (pulledSamples m rt).getLast? = some smp

/-- Every caps assignment made so far has the caps of the first pulled sample, and a
relay that has left its loop after a pull has made its one assignment. -/
def FirstCapsInv (m : Media) (s : Sys) : Prop :=
  (∀ c ∈ assignedCaps m s.trace,
      ∃ smp, (pulledSamples m s.trace).head? = some smp ∧ smp.caps = some c) ∧
    (((s.relay m).pc = .endOfStream ∨ (s.relay m).pc = .done) →
      1 ≤ pullCount m s.trace → capsCount m s.trace = 1)

/-! ## The callbacks of video2 -/

/-- The `GoblinData` of video2.cpp (37-47): the pipeline and appsrc handles, the video
file name, and the run flag. -/
structure Video2.GoblinData where
  pipeline : Nat
  srcVideo : Nat
  fileName : String
  flagRunV : Bool
deriving DecidableEq, Repr

/-- The `need-data` callback of video2.cpp (186-192): sets `flagRunV` if it is clear;
`source` and `size` are not used. -/
def Video2.startFeed (_source : Nat) (_size : Nat) (data : Video2.GoblinData) :
    Video2.GoblinData :=
  if !data.flagRunV then { data with flagRunV := true } else data

/-- The `enough-data` callback of video2.cpp (196-202): clears `flagRunV` if it is set;
`source` is not used. -/
def Video2.stopFeed (_source : Nat) (data : Video2.GoblinData) : Video2.GoblinData :=
  if data.flagRunV then { data with flagRunV := false } else data

/-! ## The FlowGate of the specification -/

/-- The tri-state value of the FlowGate of the specification. -/
inductive FlowGate
  | PRIMING
  | RUNNING
  | PAUSED
deriving DecidableEq, Repr

/-- The FlowGate value of a media type read from the globals, following the words of the
specification: PRIMING when the playback graph is not yet started (`flagElfStarted` is
false), RUNNING when it is started and the run flag is true, PAUSED when it is started and
the run flag is false. -/
def specFlowGate (d : GoblinData) (m : Media) : FlowGate :=
  if !d.flagElfStarted then .PRIMING
  else if d.flagRun m then .RUNNING
  else .PAUSED

/-! ## The bus threads -/

/-- The type of a bus message (`GST_MESSAGE_TYPE`): the six types `busProcessMsg` names,
and every other type of `GstMessageType` by its value. -/
inductive GstMessageType
  | GST_MESSAGE_ERROR
  | GST_MESSAGE_EOS
  | GST_MESSAGE_STATE_CHANGED
  | GST_MESSAGE_STEP_START
  | GST_MESSAGE_STREAM_STATUS
  | GST_MESSAGE_ELEMENT
  | other (value : Nat)
deriving DecidableEq, Repr

/-- A bus message: its type and its source object (`GST_MESSAGE_SRC`). -/
structure GstMessage where
  mType : GstMessageType
  src : GstElement
deriving DecidableEq, Repr

/-- How a call of `busProcessMsg` ends: `exit(status)`, or a returned `bool`. -/
inductive BusResult
  | exit (status : Nat)
  | returned (res : Bool)
deriving DecidableEq, Repr

/-- The function `busProcessMsg` (audio1.cpp 52-98, the same in video3.cpp, av1.cpp and
fun2.cpp): the `switch` on the message type.  ERROR exits with status 1, EOS returns
false, every other case breaks out of the `switch` to `return true`.  What is printed is
left out; the source of a STATE_CHANGED message decides only what is printed. -/
def busProcessMsg (pipeline : GstElement) (msg : GstMessage) : BusResult :=
  match msg.mType with
  | .GST_MESSAGE_ERROR => .exit 1
  | .GST_MESSAGE_EOS => .returned false
  | .GST_MESSAGE_STATE_CHANGED =>
    if msg.src = pipeline then .returned true else .returned true
  | .GST_MESSAGE_STEP_START => .returned true
  | .GST_MESSAGE_STREAM_STATUS => .returned true
  | .GST_MESSAGE_ELEMENT => .returned true
  | .other _ => .returned true

/-- How a bus thread ends on a finite sequence of messages: it returns after EOS, the
process exits, the assertion on a null message throws, or the thread waits in
`gst_bus_timed_pop` (timeout `GST_CLOCK_TIME_NONE`) for a message that does not come. -/
inductive BusEnd
  | finished
  | exited (status : Nat)
  | threw
  | waiting
deriving DecidableEq, Repr

/-- A run of a bus thread: the messages it has passed to `busProcessMsg`, in order, and
how it ends. -/
structure BusRun where
  processed : List GstMessage
  result : BusEnd
deriving DecidableEq, Repr

/-- The function `codeThreadBus` (audio1.cpp 102-117) on what `gst_bus_timed_pop` returns
call after call (`none` is a null message): the message is asserted non-null and
processed, and the loop ends when `busProcessMsg` returns false. -/
def codeThreadBus (pipeline : GstElement) : List (Option GstMessage) → BusRun
  | [] => ⟨[], .waiting⟩
  | none :: _ => ⟨[], .threw⟩
  | some msg :: rest =>
    match busProcessMsg pipeline msg with
    | .exit status => ⟨[msg], .exited status⟩
    | .returned false => ⟨[msg], .finished⟩
    | .returned true =>
      let r := codeThreadBus pipeline rest
      ⟨msg :: r.processed, r.result⟩

/-! ## Releasing the pulled samples -/

/-- Number of `gst_sample_unref` calls the relay of media type `m` has made in a trace. -/
def unrefCount (m : Media) (tr : List Effect) : Nat :=
  tr.countP fun e =>
    match e with
    | .sampleUnref m1 => decide (m1 = m)
    | _ => false

/-- Whether the loop of the relay of media type `m` in program `p` has a
`gst_sample_unref` call: the audio loops have it (audio1.cpp 200, av1.cpp 292), of the
video loops only that of video3.cpp (175), not `codeThreadProcessV` of av1.cpp. -/
def releasesSample (p : Prog) (m : Media) : Bool :=
  match m with
  | .A => true
  | .V => decide (p = .video3)

/-- The releases of a relay thread that has raised no assertion error (`rt` are its
effects): one for every pushed buffer, or none at all in a loop without the call. -/
def UnrefInv (p : Prog) (m : Media) (r : Relay) (rt : List Effect) : Prop :=
  r.pc ≠ .failed → unrefCount m rt = if releasesSample p m then pushCount m rt else 0

/-- A schedule of av1 for one audio sample and one video frame: the first iteration of the
audio relay (10 steps), the first iteration of the video relay, which starts the playback
pipeline (16 steps), the two `need-data` callbacks, and the 4 steps that take each relay
through end-of-stream to its return. -/
def releaseSchedule : List Event :=
  steps .A 10 ++ steps .V 16 ++ [.startFeed .elfSrcV, .startFeed .elfSrcA] ++ steps .V 4 ++
    steps .A 4

/-! ## The pixels of the middle rectangle -/

/-- Number of pixels `(x, y)` of an `imW x imH` frame inside
`Rect2i(imW/3, imH/3, imW/3, imH/3)`. -/
def middlePixels (imW imH : Nat) : Nat :=
  ((Finset.range imW ×ˢ Finset.range imH).filter
    fun p => inRect imW imH p.1 p.2 = true).card

/-! ## The thread of video2 -/

/-- A `cv::Mat` video frame: `cols`, `rows` and its bytes (3 per pixel, row by row). -/
structure Video2.Frame where
  cols : Nat
  rows : Nat
  data : List Nat
deriving DecidableEq, Repr

/-- The test `frame.empty()`: no data, or no elements. -/
def Video2.Frame.empty (frame : Video2.Frame) : Bool :=
  frame.data.isEmpty || frame.cols * frame.rows == 0

/-- A frame with 3 bytes for every pixel. -/
def Video2.Frame.wellFormed (frame : Video2.Frame) : Bool :=
  frame.data.length == frame.cols * frame.rows * 3

/-- The frame `video.read` leaves when the video has no more frames. -/
def Video2.noFrame : Video2.Frame := ⟨0, 0, []⟩

/-- The `cv::VideoCapture` of video2.cpp (125-131) as far as the thread looks at it:
`isOpened()`, the properties `(int) get(CAP_PROP_FRAME_WIDTH)`, `(int) get(CAP_PROP_FRAME_HEIGHT)`,
whether `fps > 0`, the value `int(lround(fps))`, and the frames `read` will deliver. -/
structure Video2.VideoCapture where
  isOpened : Bool
  imW : Int
  imH : Int
  fpsPositive : Bool
  fpsRounded : Int
  frames : List Video2.Frame
deriving DecidableEq, Repr

/-- What the thread of video2 does to the outside world. -/
inductive Video2.Effect
  /-- `g_object_set(data.srcVideo, "caps", capsVideo, nullptr)` -/
  | setCaps (c : GstCaps)
  /-- `gst_element_set_state(data.pipeline, GST_STATE_PLAYING)` and its return value -/
  | setStatePlaying (ret : GstStateChangeReturn)
  /-- `this_thread::sleep_for(chrono::milliseconds(10))` -/
  | sleep
  /-- `video.read(frame)` and the frame it leaves -/
  | videoRead (frame : Video2.Frame)
  /-- `gst_app_src_push_buffer(srcVideo, buffer)` and its return value -/
  | pushBuffer (b : GstBuffer) (ret : GstFlowReturn)
  /-- `gst_app_src_end_of_stream(srcVideo)` -/
  | endOfStream
deriving DecidableEq, Repr

/-- What the pipeline of video2 answers, and the time stamp of a frame:
`stamp frameCount` is the value `uint64_t(frameCount / fps * GST_SECOND)`, computed in
`double` by the source and not modelled further. -/
structure Video2.Env where
  startRet : GstStateChangeReturn
  pushRet : Nat → GstFlowReturn
  stamp : Nat → Nat

/-- Program counter of `codeThreadSrcV`. -/
inductive Video2.Pc
  /-- open the video, assert on it and its properties, assign the caps (125-141) -/
  | openVideo
  /-- `MY_ASSERT(gst_element_set_state(data.pipeline, GST_STATE_PLAYING))` (144) -/
  | setState
  /-- `if (!data.flagRunV)`: the load of the run flag (151) -/
  | ifRun
  /-- the 10 ms sleep and `continue` (152-154) -/
  | sleep
  /-- `video.read(frame)`, the test for an empty frame, and the rest of the iteration -/
  | readFrame
  /-- after the loop: `gst_app_src_end_of_stream` (181) -/
  | endOfStream
  /-- the thread function has returned -/
  | done
  /-- an assertion has thrown -/
  | failed
deriving DecidableEq, Repr

/-- The thread `codeThreadSrcV`: program counter, the frames the video will still deliver,
and `frameCount`. -/
structure Video2.Thread where
  pc : Video2.Pc
  frames : List Video2.Frame
  frameCount : Nat
deriving DecidableEq, Repr

/-- Result of one step of the thread of video2. -/
structure Video2.Out where
  thread : Video2.Thread
  effects : List Video2.Effect
  threw : Bool

/-- The caps of video2.cpp 137-139:
`video/x-raw,format=BGR,width=imW,height=imH,framerate=int(lround(fps))/1`. -/
def Video2.capsVideo (video : Video2.VideoCapture) : GstCaps :=
  ⟨some video.imW.toNat, some video.imH.toNat, some (video.fpsRounded.toNat, 1), []⟩

/-- The buffer of an iteration (video2.cpp 163-172): `cols * rows * 3` bytes copied from
the frame, `pts` the stamp of `frameCount`. -/
def Video2.frameBuffer (env : Video2.Env) (frameCount : Nat) (frame : Video2.Frame) :
    GstBuffer :=
  let bufferSize := frame.cols * frame.rows * 3
  let buffer := gst_buffer_new_and_alloc bufferSize
  let buffer := { buffer with data := memcpy buffer.data frame.data bufferSize }
  { buffer with pts := env.stamp frameCount }

/-- One step of `codeThreadSrcV` (video2.cpp 120-182).  The sizes `int bufferSize` and
`++frameCount` are undefined beyond `int`; the thread stops there, as after a failed
assertion. -/
def Video2.threadStep (env : Video2.Env) (video : Video2.VideoCapture)
    (data : Video2.GoblinData) (t : Video2.Thread) : Video2.Out :=
  match t.pc with
  | .openVideo =>
    if !video.isOpened then ⟨{ t with pc := .failed }, [], true⟩
    else if !(decide (video.imW > 0) && decide (video.imH > 0) && video.fpsPositive) then
      ⟨{ t with pc := .failed }, [], true⟩
    else ⟨{ t with pc := .setState }, [.setCaps (Video2.capsVideo video)], false⟩
  | .setState =>
    if env.startRet = .FAILURE then
      ⟨{ t with pc := .failed }, [.setStatePlaying env.startRet], true⟩
    else ⟨{ t with pc := .ifRun }, [.setStatePlaying env.startRet], false⟩
  | .ifRun =>
    if !data.flagRunV then ⟨{ t with pc := .sleep }, [], false⟩
    else ⟨{ t with pc := .readFrame }, [], false⟩
  | .sleep => ⟨{ t with pc := .ifRun }, [.sleep], false⟩
  | .readFrame =>
    match t.frames with
    | [] => ⟨{ t with pc := .endOfStream }, [.videoRead Video2.noFrame], false⟩
    | frame :: rest =>
      if frame.empty then
        ⟨{ t with pc := .endOfStream, frames := rest }, [.videoRead frame], false⟩
      else if !fitsInt (frame.cols * frame.rows * 3) then
        ⟨{ t with pc := .failed, frames := rest }, [.videoRead frame], true⟩
      else if !fitsInt (t.frameCount + 1) then
        ⟨{ t with pc := .failed, frames := rest },
          [.videoRead frame,
            .pushBuffer (Video2.frameBuffer env t.frameCount frame)
              (env.pushRet t.frameCount)], true⟩
      else
        ⟨{ t with pc := .ifRun, frames := rest, frameCount := t.frameCount + 1 },
          [.videoRead frame,
            .pushBuffer (Video2.frameBuffer env t.frameCount frame)
              (env.pushRet t.frameCount)], false⟩
  | .endOfStream => ⟨{ t with pc := .done }, [.endOfStream], false⟩
  | .done => ⟨t, [], false⟩
  | .failed => ⟨t, [], false⟩

/-- State of video2: the flag, the thread, the effects so far, and whether the process
has terminated. -/
structure Video2.Sys where
  data : Video2.GoblinData
  thread : Video2.Thread
  trace : List Video2.Effect
  terminated : Bool
deriving DecidableEq, Repr

/-- The state in which `main` of video2 starts the thread: `data` with its handles and
file name set and `flagRunV` false, the thread at its first statement. -/
def Video2.Sys.init (data : Video2.GoblinData) (video : Video2.VideoCapture) : Video2.Sys :=
  ⟨{ data with flagRunV := false }, ⟨.openVideo, video.frames, 0⟩, [], false⟩

/-- What the scheduler of video2 can pick next: a step of the thread, or a callback
(`size` is the argument of the `need-data` signal). -/
inductive Video2.Event
  | thread
  | startFeed (size : Nat)
  | stopFeed
deriving DecidableEq, Repr

/-- One event of video2.  Nothing moves once the process has terminated. -/
def Video2.step (env : Video2.Env) (video : Video2.VideoCapture) (e : Video2.Event)
    (s : Video2.Sys) : Video2.Sys :=
  if s.terminated then s
  else
    match e with
    | .thread =>
      let o := Video2.threadStep env video s.data s.thread
      { s with thread := o.thread, trace := s.trace ++ o.effects, terminated := o.threw }
    | .startFeed size => { s with data := Video2.startFeed s.data.srcVideo size s.data }
    | .stopFeed => { s with data := Video2.stopFeed s.data.srcVideo s.data }

/-- A run of video2: the events of a schedule, one after the other. -/
def Video2.run (env : Video2.Env) (video : Video2.VideoCapture) (es : List Video2.Event)
    (s : Video2.Sys) : Video2.Sys :=
  es.foldl (fun s e => Video2.step env video e s) s

/-- The buffers pushed in a trace of video2, in order. -/
def Video2.pushedBuffers : List Video2.Effect → List GstBuffer
  | [] => []
  | .pushBuffer b _ :: t => b :: Video2.pushedBuffers t
  | _ :: t => Video2.pushedBuffers t

/-- Number of end-of-stream calls in a trace of video2. -/
def Video2.eosCount (tr : List Video2.Effect) : Nat :=
  tr.countP fun e => decide (e = .endOfStream)

/-- The thread is in its frame loop or before it. -/
def Video2.Pc.beforeExit : Video2.Pc → Bool
  | .openVideo | .setState | .ifRun | .sleep | .readFrame => true
  | _ => false

/-- What holds of the thread of video2 in every reachable state (`frames0` are the frames
of the video, `tr` the effects so far): as long as nothing has failed, `frameCount` is the
number of buffers pushed, the `k`-th pushed buffer is the buffer of the `k`-th frame of
the video stamped with `k`, in the loop the frames still to come are those from
`frameCount` on and no end-of-stream call has been made, and after the loop exactly one
is made, at return. -/
def Video2.Inv (env : Video2.Env) (frames0 : List Video2.Frame) (t : Video2.Thread)
    (tr : List Video2.Effect) : Prop :=
  t.pc ≠ .failed →
    (Video2.pushedBuffers tr).length = t.frameCount ∧
    (∀ k b, (Video2.pushedBuffers tr)[k]? = some b →
      ∃ frame, frames0[k]? = some frame ∧ frame.empty = false ∧
        b = Video2.frameBuffer env k frame) ∧
    (t.pc.beforeExit = true → t.frames = frames0.drop t.frameCount ∧ Video2.eosCount tr = 0) ∧
    (t.pc = .endOfStream → Video2.eosCount tr = 0) ∧
    (t.pc = .done → Video2.eosCount tr = 1)

/-- The caps of video2 are assigned first: a trace is empty before the video is opened
(or when opening it has failed), and begins with the caps assignment afterwards. -/
def Video2.CapsFirst (video : Video2.VideoCapture) (t : Video2.Thread)
    (tr : List Video2.Effect) : Prop :=
  (tr = [] ∧ (t.pc = .openVideo ∨ t.pc = .failed)) ∨
    (∃ rest, tr = .setCaps (Video2.capsVideo video) :: rest ∧ t.pc ≠ .openVideo)

/-- A pipeline of video2 that starts and accepts every buffer, for a video of 1 frame per
second: `frameCount / 1.0 * GST_SECOND` is exact in `double` for every `int` frameCount,
so frame `k` is stamped `k * 1000000000`. -/
def Video2.envOk : Video2.Env := ⟨.SUCCESS, fun _ => .OK, fun k => k * 1000000000⟩

/-- A video of two 1 x 1 frames, at 1 frame per second. -/
def Video2.videoTwoFrames : Video2.VideoCapture :=
  ⟨true, 1, 1, true, 1, [⟨1, 1, [1, 2, 3]⟩, ⟨1, 1, [4, 5, 6]⟩]⟩

/-- The `GoblinData` of the examples. -/
def Video2.dataMain : Video2.GoblinData := ⟨1, 2, "video.avi", false⟩

/-- A schedule of video2 for a video of two frames: the setup (2 steps), the `need-data`
callback, two iterations that push (2 steps each), the iteration that reads the empty
frame, and the end-of-stream call. -/
def Video2.scheduleTwoFrames : List Video2.Event :=
  [.thread, .thread, .startFeed 4096] ++ List.replicate 7 .thread

/-! ## Caps before the start -/

/-- The effect is a start of the playback pipeline. -/
def Effect.isStart : Effect → Bool
  | .setStatePlaying _ _ => true
  | _ => false

/-- In a trace of program `p`, before every start of the playback pipeline every relay
of `p` has assigned caps to its appsrc. -/
def CapsBeforeStart (p : Prog) (tr : List Effect) : Prop :=
  ∀ pre e post, tr = pre ++ e :: post → e.isStart = true →
    ∀ m1, hasRelay p m1 = true → 1 ≤ capsCount m1 pre

/-! ## Use of a buffer after the release of its sample -/

/-- The effect is an access to the buffer of the pulled sample: `gst_buffer_map`, a read
of `pts` or `duration`, `gst_buffer_unmap`. -/
def Effect.usesBuffer : Effect → Bool
  | .bufferMap _ _ | .bufferRead _ | .bufferUnmap _ => true
  | _ => false

/-- The effect is a `gst_sample_unref` call. -/
def Effect.isUnref : Effect → Bool
  | .sampleUnref _ => true
  | _ => false

/-- Whether, in the effects of one iteration, an access to the buffer of the sample comes
after the release of the sample. -/
def useAfterRelease : List Effect → Bool
  | [] => false
  | e :: t => (e.isUnref && t.any Effect.usesBuffer) || useAfterRelease t

/-! ## A source that yields no sample -/

/-- The effects of a relay whose source yields no sample, up to its end-of-stream call:
`gst_app_sink_is_eos` answers true, or it answers false and the pull returns null. -/
def noSampleTrace (m : Media) (src0 : List (Option GstSample)) : List Effect :=
  if src0.isEmpty then [.isEos m true] else [.isEos m false, .pullSample m none]

/-- Steps a relay whose source yields no sample still has to take to its return. -/
def Pc.exitRank : Pc → Nat
  | .whileGate => 4
  | .isEos => 3
  | .pullSample => 2
  | .endOfStream => 1
  | _ => 0

/-- What holds in av1 of the relay of media type `m` whose source `src0` yields no sample:
its format flag stays false, and the thread is on its way from the top of the loop
through the end-of-stream test (and the null pull) to the end-of-stream call and the
return, with exactly the effects of that way. -/
def NoSampleInv (m : Media) (src0 : List (Option GstSample)) (s : Sys) : Prop :=
  s.data.flagInit m = false ∧
    match (s.relay m).pc with
    | .whileGate => (s.relay m).source = src0 ∧ relayTrace m s.trace = []
    | .isEos => (s.relay m).source = src0 ∧ relayTrace m s.trace = []
    | .pullSample =>
      (s.relay m).source = src0 ∧ src0 ≠ [] ∧ relayTrace m s.trace = [.isEos m false]
    | .endOfStream => relayTrace m s.trace = noSampleTrace m src0
    | .done => relayTrace m s.trace = noSampleTrace m src0 ++ [.endOfStream m]
    | _ => False

/-! # Theorems

## Sizes and copies -/

theorem toInt_of_fitsInt (n : Nat) (h : fitsInt n = true) : toInt n = (n : Int) := by
  simp only [fitsInt, decide_eq_true_eq] at h
  have h1 : n % 2 ^ 32 = n := Nat.mod_eq_of_lt (by omega)
  unfold toInt
  rw [h1, if_pos h]

theorem toInt_not_neg (n : Nat) (h : fitsInt n = true) : ¬ toInt n < 0 := by
  rw [toInt_of_fitsInt n h]
  omega

/-- The copy does not change the size of its destination. -/
theorem memcpy_length (dst src : List Nat) (n : Nat) :
    (memcpy dst src n).length = dst.length := by
  simp only [memcpy, List.length_append, List.length_take, List.length_drop]
  omega

/-- The buffer `gst_buffer_new_and_alloc(size)` has `size` bytes. -/
theorem alloc_length (size : Nat) : (gst_buffer_new_and_alloc size).data.length = size := by
  simp [gst_buffer_new_and_alloc]

/-- A copy of `n` bytes into a destination of at least `n` bytes, from at least `n` bytes:
the first `n` bytes are those of the origin, the others stay. -/
theorem memcpy_bytes (dst src : List Nat) (n : Nat) (hd : n ≤ dst.length)
    (hs : n ≤ src.length) : memcpy dst src n = src.take n ++ dst.drop n := by
  have h1 : (src.take n).take dst.length = src.take n :=
    List.take_of_length_le (by rw [List.length_take]; omega)
  simp only [memcpy, h1, List.length_take, Nat.min_eq_left hs]

theorem memcpy_full (src : List Nat) :
    memcpy (gst_buffer_new_and_alloc src.length).data src src.length = src := by
  rw [memcpy_bytes _ _ _ (by rw [alloc_length]) (Nat.le_refl _),
    List.take_length, List.drop_of_length_le (by rw [alloc_length]), List.append_nil]

theorem run_nil (p : Prog) (env : Env) (s : Sys) : run p env [] s = s := rfl

theorem run_cons (p : Prog) (env : Env) (e : Event) (es : List Event) (s : Sys) :
    run p env (e :: es) s = run p env es (step p env e s) := rfl

theorem run_append (p : Prog) (env : Env) (es1 es2 : List Event) (s : Sys) :
    run p env (es1 ++ es2) s = run p env es2 (run p env es1 s) := by
  simp [run, List.foldl_append]

/-- An invariant of single events is an invariant of runs. -/
theorem run_invariant (p : Prog) (env : Env) (I : Sys → Prop)
    (hstep : ∀ e s, I s → I (step p env e s)) (es : List Event) (s : Sys) (h : I s) :
    I (run p env es s) := by
  induction es generalizing s with
  | nil => exact h
  | cons e es ih => exact ih _ (hstep e s h)

theorem startCount_append (t1 t2 : List Effect) :
    startCount (t1 ++ t2) = startCount t1 + startCount t2 := by
  induction t1 with
  | nil => simp [startCount]
  | cons e t ih => cases e <;> simp [startCount, ih] <;> omega

theorem pushedBuffers_append (m : Media) (t1 t2 : List Effect) :
    pushedBuffers m (t1 ++ t2) = pushedBuffers m t1 ++ pushedBuffers m t2 := by
  induction t1 with
  | nil => simp [pushedBuffers]
  | cons e t ih => 
    cases e <;> simp [pushedBuffers, ih]
    split <;> simp

theorem startCount_processSample (p : Prog) (env : Env) (m : Media) (r : Relay) :
    startCount (processSample p env m r).1 = 0 := by
  unfold processSample
  cases r.sample with
  | none => simp [startCount]
  | some sample =>
    cases m <;> simp only <;> (repeat' split) <;> simp [startCount, startCount_append]

theorem pushCount_append (m : Media) (t1 t2 : List Effect) :
    pushCount m (t1 ++ t2) = pushCount m t1 + pushCount m t2 := by
  simp [pushCount, pushedBuffers_append]

theorem pushCount_processSample_other (p : Prog) (env : Env) (m m1 : Media) (r : Relay)
    (h : m1 ≠ m) : pushCount m1 (processSample p env m r).1 = 0 := by
  unfold processSample
  cases r.sample with
  | none => simp [pushCount, pushedBuffers]
  | some sample =>
    cases m <;> cases m1 <;> simp only <;> (repeat' split) <;>
      simp_all [pushCount, pushedBuffers, pushedBuffers_append]

theorem Pc.inPlayElf_iff (pc : Pc) : pc.inPlayElf = true ↔
    pc = .ifStarted2 ∨ pc = .setState ∨ pc = .storeStarted ∨ pc = .unlockMutex := by
  cases pc <;> simp [Pc.inPlayElf]

theorem Pc.sawInitA_iff (pc : Pc) : pc.sawInitA = true ↔
    pc = .ifInitV ∨ pc = .lockMutex ∨ pc = .ifStarted2 ∨ pc = .setState ∨
      pc = .storeStarted := by
  cases pc <;> simp [Pc.sawInitA]

theorem Pc.sawInitV_iff (pc : Pc) : pc.sawInitV = true ↔
    pc = .lockMutex ∨ pc = .ifStarted2 ∨ pc = .setState ∨ pc = .storeStarted := by
  cases pc <;> simp [Pc.sawInitV]

theorem Pc.startPending_iff (pc : Pc) : pc.startPending = true ↔
    pc = .ifStarted ∨ pc = .ifInitA ∨ pc = .ifInitV ∨ pc = .lockMutex ∨ pc = .ifStarted2 ∨
      pc = .setState := by
  cases pc <;> simp [Pc.startPending]

theorem Pc.beforeInit_iff (pc : Pc) : pc.beforeInit = true ↔
    pc = .setCaps ∨ pc = .storeInit := by
  cases pc <;> simp [Pc.beforeInit]

theorem Pc.afterInit_iff (pc : Pc) : pc.afterInit = true ↔
    pc = .ifStarted ∨ pc = .ifInitA ∨ pc = .ifInitV ∨ pc = .lockMutex ∨ pc = .ifStarted2 ∨
      pc = .setState ∨ pc = .storeStarted ∨ pc = .unlockMutex := by
  cases pc <;> simp [Pc.afterInit]

theorem pushCount_nil (m : Media) : pushCount m [] = 0 := rfl

theorem pushCount_one (m m1 : Media) (b : GstBuffer) (ret : GstFlowReturn) :
    pushCount m [.pushBuffer m1 b ret] = if m1 = m then 1 else 0 := by
  simp only [pushCount, pushedBuffers]
  split <;> rfl

theorem relayStep_process (p : Prog) (env : Env) (m : Media) (d : GoblinData) (r : Relay)
    (h : r.pc = .process) :
    relayStep p env m d r =
      if (processSample p env m r).2 then
        ⟨d, { r with pc := .whileGate, sample := none, pushed := r.pushed + 1 },
          (processSample p env m r).1, false⟩
      else ⟨d, { r with pc := .failed }, (processSample p env m r).1, true⟩ := by
  simp only [relayStep, h]
  rcases processSample p env m r with ⟨effs, ok⟩
  cases ok <;> simp

/-- One step of a relay thread of av1 keeps the invariant. -/
theorem av1Abs_relayStep (env : Env) (m : Media) (d : GoblinData) (r : Relay) (pc1 : Pc)
    (cnt pushes pushes1 : Nat) (h : Av1Abs m d r.pc pc1 cnt pushes pushes1 false) :
    Av1Abs m (relayStep .av1 env m d r).data (relayStep .av1 env m d r).relay.pc pc1
      (cnt + startCount (relayStep .av1 env m d r).effects)
      (pushes + pushCount m (relayStep .av1 env m d r).effects)
      (pushes1 + pushCount m.other (relayStep .av1 env m d r).effects)
      (relayStep .av1 env m d r).threw := by
  obtain ⟨⟨a1, a2, a3, a4, a5, a10, a6, a7, a8, a9⟩,
      ⟨v1, v2, v3, v4, v5, v10, v6, v7, v8, v9⟩, g1, g2, g3, g4, g5, g6, g7, g8⟩ := h
  have hm : m ≠ m.other := by cases m <;> simp [Media.other]
  have hps := pushCount_processSample_other .av1 env m m.other r hm.symm
  have hsc := startCount_processSample .av1 env m r
  simp only [Pc.inPlayElf_iff, Pc.sawInitA_iff, Pc.sawInitV_iff, Pc.startPending_iff,
    Pc.beforeInit_iff, Pc.afterInit_iff] at a1 a2 a3 a6 a8 g5 g7 g8 v1 v2 v3 v6 v8
  -- mutual exclusion: while this thread holds the mutex the other one is outside playElf
  have hex : d.mutexElfStart = some m →
      ¬ (pc1 = .ifStarted2 ∨ pc1 = .setState ∨ pc1 = .storeStarted ∨ pc1 = .unlockMutex) := by
    intro h1 h2
    have h3 := v1 h2
    rw [h1] at h3
    exact hm (Option.some.inj h3)
  simp only [Bool.false_eq_true, or_false] at g7 g8
  cases hpc : r.pc <;> rw [hpc] at a1 a2 a3 a4 a5 a10 a6 a8 a9 g4 g5 g7 <;>
    simp only [true_implies, reduceCtorEq, false_implies, or_false, false_or, true_or, or_true,
      Bool.false_eq_true, implies_true] at a1 a2 a3 a4 a5 a10 a6 a8 a9 g4 g5 g7 <;>
    (try rw [relayStep_process _ _ _ _ _ hpc]) <;>
    (try simp only [relayStep, hpc, gateFlag, ↓reduceIte]) <;>
    (repeat' split) <;>
    (refine ⟨⟨?_, ?_, ?_, ?_, ?_, ?_, ?_, ?_, ?_, ?_⟩,
        ⟨?_, ?_, ?_, ?_, ?_, ?_, ?_, ?_, ?_, ?_⟩, ?_, ?_, ?_, ?_, ?_, ?_, ?_, ?_⟩ <;>
      (try simp only [hpc, hps, hsc, startCount, Nat.add_zero, pushCount_nil, pushCount_one,
          true_implies, Pc.inPlayElf_iff, Pc.sawInitA_iff, Pc.sawInitV_iff,
          Pc.startPending_iff, Pc.beforeInit_iff, Pc.afterInit_iff, reduceCtorEq,
          false_implies, or_false, false_or, true_or, or_true, Bool.false_eq_true,
          implies_true]) <;>
      first
        | done | assumption | omega | exact a8.1 | exact a8.2 | (intros; omega)
        | exact ⟨a2, a3⟩
        | exact g3 (by assumption)
        | (intro _; exact ⟨a2, a3⟩)
        | (intro h; exact absurd h (by assumption))
        | (intro _ h; exact absurd h (by assumption))
        | (intro _ _ hc; have := g3 (by assumption); omega)
        | (intro h; rw [a9] at h; cases h)
        | exact Bool.eq_false_iff.mpr (by assumption)
        | (intro h; exact hex a1 h)
        | (intro h; exact hex a1 (Or.inr (Or.inl h)))
        | (intro h; have h1 := v1 h; have h2 : d.mutexElfStart = none := by assumption
           rw [h2] at h1; cases h1)
        | (rcases Nat.eq_zero_or_pos cnt with h0 | h0
           · exact h0
           · rcases g4 h0 with h1 | h1
             · exact absurd h1 (by assumption)
             · exact absurd (Or.inr (Or.inr (Or.inl h1))) (hex a1))
        | (cases m <;> simp only [GoblinData.setFlagInit, GoblinData.flagInit, Media.other] at * <;>
            first
              | assumption | omega | (intros; omega)
              | (intro _; trivial)
              | exact ⟨a7 a6, trivial⟩
              | (intro h; exact ⟨trivial, (g1 h).2⟩)
              | (intro h; exact ⟨(g1 h).1, trivial⟩)
              | (intro h; exact ⟨trivial, (g6 h).2⟩)
              | (intro h; exact ⟨(g6 h).1, trivial⟩)))

theorem Media.other_other (m : Media) : m.other.other = m := by
  cases m <;> rfl

/-- The invariant of av1 seen from the other relay thread. -/
theorem Av1Abs.swap {m : Media} {d : GoblinData} {pc pc1 : Pc} {cnt p p1 : Nat} {t : Bool}
    (h : Av1Abs m d pc pc1 cnt p p1 t) : Av1Abs m.other d pc1 pc cnt p1 p t := by
  obtain ⟨hs, ho, g1, g2, g3, g4, g5, g6, g7, g8⟩ := h
  refine ⟨ho, ?_, g1, g2, g3, ?_, ?_, g6, g8, ?_⟩
  · rw [Media.other_other]; exact hs
  · intro hc
    rcases g4 hc with h1 | h1 | h1 | h1
    · exact Or.inl h1
    · exact Or.inr (Or.inr (Or.inl h1))
    · exact Or.inr (Or.inl h1)
    · exact Or.inr (Or.inr (Or.inr h1))
  · intro hA hV hc
    exact (g5 hA hV hc).symm
  · rw [Media.other_other]; exact g7

/-- The invariant of av1 does not look at the run flags. -/
theorem Av1Abs.frame {m : Media} {d d1 : GoblinData} {pc pc1 : Pc} {cnt p p1 : Nat}
    (h : Av1Abs m d pc pc1 cnt p p1 false) (t : Bool)
    (hmu : d1.mutexElfStart = d.mutexElfStart) (hst : d1.flagElfStarted = d.flagElfStarted)
    (hA : d1.flagInitA = d.flagInitA) (hV : d1.flagInitV = d.flagInitV) :
    Av1Abs m d1 pc pc1 cnt p p1 t := by
  have hf : ∀ m1, d1.flagInit m1 = d.flagInit m1 := by
    intro m1; cases m1 <;> simp [GoblinData.flagInit, hA, hV]
  obtain ⟨⟨a1, a2, a3, a4, a5, a10, a6, a7, a8, a9⟩,
      ⟨v1, v2, v3, v4, v5, v10, v6, v7, v8, v9⟩, g1, g2, g3, g4, g5, g6, g7, g8⟩ := h
  refine ⟨⟨?_, ?_, ?_, a4, a5, a10, ?_, ?_, ?_, ?_⟩,
    ⟨?_, ?_, ?_, v4, v5, v10, ?_, ?_, ?_, ?_⟩,
    ?_, g2, ?_, ?_, ?_, ?_, ?_, ?_⟩ <;> simp only [hmu, hst, hA, hV, hf] <;>
    first | assumption | skip
  · intro hc
    rcases g4 hc with h1 | h1 | h1 | h1
    · exact Or.inl h1
    · exact Or.inr (Or.inl h1)
    · exact Or.inr (Or.inr (Or.inl h1))
    · cases h1
  · intro hh
    rcases g7 hh with h1 | h1
    · exact Or.inl h1
    · cases h1
  · intro hh
    rcases g8 hh with h1 | h1
    · exact Or.inl h1
    · cases h1

theorem startFeed_frame (p : Prog) (source : GstElement) (d d1 : GoblinData)
    (h : startFeed p source d = some d1) :
    d1.mutexElfStart = d.mutexElfStart ∧ d1.flagElfStarted = d.flagElfStarted ∧
      d1.flagInitA = d.flagInitA ∧ d1.flagInitV = d.flagInitV := by
  unfold startFeed at h
  cases p <;> simp only at h <;> (repeat' split at h) <;>
    first | (cases Option.some.inj h; exact ⟨rfl, rfl, rfl, rfl⟩) | cases h

theorem stopFeed_frame (p : Prog) (source : GstElement) (d d1 : GoblinData)
    (h : stopFeed p source d = some d1) :
    d1.mutexElfStart = d.mutexElfStart ∧ d1.flagElfStarted = d.flagElfStarted ∧
      d1.flagInitA = d.flagInitA ∧ d1.flagInitV = d.flagInitV := by
  unfold stopFeed at h
  cases p <;> simp only at h <;> (repeat' split at h) <;>
    first | (cases Option.some.inj h; exact ⟨rfl, rfl, rfl, rfl⟩) | cases h

theorem av1Inv_init (srcA srcV : List (Option GstSample)) : Av1Inv (Sys.init srcA srcV) := by
  refine ⟨⟨?_, ?_, ?_, ?_, ?_, ?_, ?_, ?_, ?_, ?_⟩,
        ⟨?_, ?_, ?_, ?_, ?_, ?_, ?_, ?_, ?_, ?_⟩, ?_, ?_, ?_, ?_, ?_, ?_, ?_, ?_⟩ <;>
    simp [Sys.init, Relay.init, GoblinData.init, startCount, pushCount, pushedBuffers,
      Pc.inPlayElf, Pc.sawInitA, Pc.sawInitV, Pc.beforeInit, Pc.afterInit, GoblinData.flagInit]

theorem av1Inv_step (env : Env) (e : Event) (s : Sys) (h : Av1Inv s) :
    Av1Inv (step .av1 env e s) := by
  unfold step
  split
  · exact h
  · rename_i hterm
    have hterm : s.terminated = false := by simpa using hterm
    unfold Av1Inv at h
    rw [hterm] at h
    cases e with
    | relay m =>
      cases m
      · simp only [hasRelay, if_true, Sys.relay, Sys.apply, Av1Inv, startCount_append,
          pushCount_append]
        exact av1Abs_relayStep env .A s.data s.relayA _ _ _ _ h
      · simp only [hasRelay, if_true, Sys.relay, Sys.apply, Av1Inv, startCount_append,
          pushCount_append]
        exact (av1Abs_relayStep env .V s.data s.relayV _ _ _ _ h.swap).swap
    | startFeed source =>
      simp only
      split
      · rename_i d1 hd
        obtain ⟨h1, h2, h3, h4⟩ := startFeed_frame _ _ _ _ hd
        exact h.frame _ h1 h2 h3 h4
      · exact h.frame _ rfl rfl rfl rfl
    | stopFeed source =>
      simp only
      split
      · rename_i d1 hd
        obtain ⟨h1, h2, h3, h4⟩ := stopFeed_frame _ _ _ _ hd
        exact h.frame _ h1 h2 h3 h4
      · exact h.frame _ rfl rfl rfl rfl

/-- Every reachable state of av1 satisfies the invariant. -/
theorem av1Inv_run (env : Env) (es : List Event) (srcA srcV : List (Option GstSample)) :
    Av1Inv (run .av1 env es (Sys.init srcA srcV)) :=
  run_invariant .av1 env Av1Inv (av1Inv_step env) es _ (av1Inv_init srcA srcV)

/-! ## Effects of one relay thread -/

theorem processSample_media (p : Prog) (env : Env) (m : Media) (r : Relay) :
    ∀ e ∈ (processSample p env m r).1, e.media = m := by
  unfold processSample
  cases r.sample with
  | none => simp [Effect.media]
  | some sample =>
    cases m <;> simp only <;> (repeat' split) <;> simp [Effect.media]

theorem relayStep_media (p : Prog) (env : Env) (m : Media) (d : GoblinData) (r : Relay) :
    ∀ e ∈ (relayStep p env m d r).effects, e.media = m := by
  cases hpc : r.pc <;> (try rw [relayStep_process _ _ _ _ _ hpc]) <;>
    (try simp only [relayStep, hpc]) <;> (repeat' split) <;>
    (try simp [Effect.media]) <;> exact processSample_media p env m r

theorem relayTrace_append (m : Media) (t1 t2 : List Effect) :
    relayTrace m (t1 ++ t2) = relayTrace m t1 ++ relayTrace m t2 := by
  simp [relayTrace]

theorem relayTrace_own (m : Media) (effs : List Effect) (h : ∀ e ∈ effs, e.media = m) :
    relayTrace m effs = effs := by
  simp only [relayTrace, List.filter_eq_self]
  intro e he
  simp [h e he]

theorem relayTrace_other (m m1 : Media) (effs : List Effect) (h : ∀ e ∈ effs, e.media = m1)
    (hm : m1 ≠ m) : relayTrace m effs = [] := by
  simp only [relayTrace, List.filter_eq_nil_iff]
  intro e he
  simp [h e he, hm]

/-- What one event does to the relay thread of media type `m` and to its effects: either
nothing, or one step of that thread. -/
theorem step_relay (p : Prog) (env : Env) (e : Event) (s : Sys) (m : Media) :
    ((step p env e s).relay m = s.relay m ∧
      relayTrace m (step p env e s).trace = relayTrace m s.trace) ∨
    (∃ d, (step p env e s).relay m = (relayStep p env m d (s.relay m)).relay ∧
      relayTrace m (step p env e s).trace =
        relayTrace m s.trace ++ (relayStep p env m d (s.relay m)).effects) := by
  unfold step
  split
  · exact Or.inl ⟨rfl, rfl⟩
  · cases e with
    | relay m1 =>
      by_cases hr : hasRelay p m1 = true
      · simp only [hr, if_true]
        by_cases hm : m1 = m
        · subst hm
          right
          refine ⟨s.data, ?_, ?_⟩
          · cases m1 <;> simp [Sys.apply, Sys.relay]
          · have := relayTrace_own m1 _ (relayStep_media p env m1 s.data (s.relay m1))
            cases m1 <;> simp [Sys.apply, relayTrace_append, this]
        · left
          have := relayTrace_other m m1 _ (relayStep_media p env m1 s.data (s.relay m1)) hm
          cases m1 <;> cases m <;> simp_all [Sys.apply, Sys.relay, relayTrace_append]
      · simp only [hr]
        exact Or.inl ⟨rfl, rfl⟩
    | startFeed source =>
      simp only
      split <;> exact Or.inl ⟨rfl, rfl⟩
    | stopFeed source =>
      simp only
      split <;> exact Or.inl ⟨rfl, rfl⟩

/-- A property of a relay thread and its own effects that every step of the thread keeps
holds in every state of every run. -/
theorem relay_invariant (p : Prog) (env : Env) (m : Media)
    (I : Relay → List Effect → Prop)
    (hstep : ∀ d r rt, I r rt →
      I (relayStep p env m d r).relay (rt ++ (relayStep p env m d r).effects))
    (es : List Event) (s : Sys) (h0 : I (s.relay m) (relayTrace m s.trace)) :
    I ((run p env es s).relay m) (relayTrace m (run p env es s).trace) := by
  refine run_invariant p env (fun s => I (s.relay m) (relayTrace m s.trace)) ?_ es s h0
  intro e s h
  rcases step_relay p env e s m with ⟨h1, h2⟩ | ⟨d, h1, h2⟩
  · simp only [h1, h2]; exact h
  · simp only [h1, h2]; exact hstep d _ _ h

/-! ## Pushed buffers and delivered samples -/

theorem pushedBuffers_processSample (p : Prog) (env : Env) (m : Media) (r : Relay) :
    pushedBuffers m (processSample p env m r).1 =
      if (processSample p env m r).2 then
        r.sample.toList.map (r.bufferOut m)
      else [] := by
  unfold processSample
  cases r.sample with
  | none => simp [pushedBuffers]
  | some sample =>
    cases m <;> simp only <;> (repeat' split) <;>
      simp_all [pushedBuffers, pushedBuffers_append, Relay.bufferOut]

theorem processSample_ok_sample (p : Prog) (env : Env) (m : Media) (r : Relay)
    (h : (processSample p env m r).2 = true) : r.sample ≠ none := by
  intro hs
  simp [processSample, hs] at h

/-- Every step of a relay thread keeps the relation between pushed and delivered. -/
theorem dataInv_step (p : Prog) (env : Env) (m : Media) (src0 : List (Option GstSample))
    (d : GoblinData) (r : Relay) (rt : List Effect) (h : DataInv m src0 r rt) :
    DataInv m src0 (relayStep p env m d r).relay (rt ++ (relayStep p env m d r).effects) := by
  have hps := pushedBuffers_processSample p env m r
  generalize ho : relayStep p env m d r = o
  unfold DataInv at h
  cases hpc : r.pc <;> rw [hpc] at h <;> simp only at h <;>
    (try rw [relayStep_process _ _ _ _ _ hpc] at ho) <;>
    (try simp only [relayStep, hpc] at ho) <;> (repeat' split at ho) <;>
    subst ho <;> simp only [DataInv, List.append_nil, hpc] <;>
    (try simp only [Pc.holdsSample, Pc.hasDims, pushedBuffers, pushedBuffers_append,
      List.append_nil, reduceCtorEq, false_implies, true_implies, implies_true, and_true,
      true_and, Bool.false_eq_true, Bool.true_eq_false, not_false_eq_true, ne_eq,
      not_true_eq_false, Option.toList_none, Option.toList_some, List.nil_append,
      List.singleton_append, delivered] at h ⊢) <;>
    (try exact h)
  case isEos.isTrue =>
    rename_i hs
    obtain ⟨h1, h2⟩ := h
    rw [List.isEmpty_iff] at hs
    rw [h2, hs] at h1
    simpa [delivered] using h1
  case pullSample.h_1 =>
    rename_i hs
    obtain ⟨h1, h2⟩ := h
    rw [h2, hs] at h1
    simpa [delivered] using h1
  case pullSample.h_2 =>
    rename_i rest hs
    obtain ⟨h1, h2⟩ := h
    rw [h2, hs] at h1
    simpa [delivered] using h1
  case pullSample.h_3.isTrue =>
    rename_i smp rest hs hm
    obtain ⟨h1, h2⟩ := h
    rw [h2, hs] at h1
    simpa [delivered] using h1
  case pullSample.h_3.isFalse =>
    rename_i smp rest hs hm
    obtain ⟨h1, h2⟩ := h
    rw [h2, hs] at h1
    exact ⟨by simpa [delivered] using h1, fun hv => absurd hv hm⟩
  case getCaps.h_1 => exact ⟨_, h.1⟩
  case getCaps.h_2.h_1 =>
    rename_i x1 caps hc x2 x3 x4 w hh fr hw hhh hfr
    refine ⟨h.1, h.2, ?_⟩
    intro _ smp hsmp
    rw [hsmp] at hc
    have hc1 : smp.caps = some caps := hc
    rw [hc1]
    exact ⟨hw, hhh⟩
  case getCaps.h_2.h_2 => exact ⟨_, h.1⟩
  case setCaps.h_1 => exact ⟨_, h.1⟩
  case setState.isTrue => exact ⟨_, h.1⟩
  case process.isTrue =>
    rename_i hok
    obtain ⟨h1, h2, h3⟩ := h
    rw [hps, if_pos hok]
    cases hsmp : r.sample with
    | none => exact absurd hsmp h2
    | some smp =>
      rw [hsmp] at h1
      have hb : r.bufferOut m smp = bufferOut m smp := by
        cases m
        · rfl
        · obtain ⟨hw, hh⟩ := h3 rfl smp hsmp
          simp [Relay.bufferOut, bufferOut, GstSample.width, GstSample.height, hw, hh]
      simp only [hsmp, Option.toList_some, List.map_cons, List.map_nil, hb]
      simpa using h1
  case process.isFalse =>
    rename_i hok
    rw [hps, if_neg hok]
    exact ⟨_, by simpa using h.1⟩

theorem pushedBuffers_relayTrace (m : Media) (tr : List Effect) :
    pushedBuffers m (relayTrace m tr) = pushedBuffers m tr := by
  induction tr with
  | nil => rfl
  | cons e t ih =>
    unfold relayTrace at ih ⊢
    rw [List.filter_cons]
    by_cases hm : e.media = m
    · rw [if_pos (by simpa using hm)]
      cases e <;> simp only [pushedBuffers, ih]
    · rw [if_neg (by simpa using hm)]
      cases e <;> simp only [pushedBuffers, ih]
      rw [if_neg (by simpa [Effect.media] using hm)]

theorem dataInv_run (p : Prog) (env : Env) (m : Media) (srcA srcV : List (Option GstSample))
    (es : List Event) :
    DataInv m ((Sys.init srcA srcV).relay m).source
      ((run p env es (Sys.init srcA srcV)).relay m)
      (relayTrace m (run p env es (Sys.init srcA srcV)).trace) := by
  refine relay_invariant p env m (DataInv m _) (dataInv_step p env m _) es _ ?_
  cases m <;>
    simp [DataInv, Sys.init, Sys.relay, Relay.init, relayTrace, pushedBuffers, Pc.holdsSample,
      Pc.hasDims]

/-- In every state of every run, the buffers a relay has pushed are, in order, the
buffers built from the samples its source delivers: a prefix of them, and all of them
once the thread has returned. -/
theorem pushed_delivered (p : Prog) (env : Env) (m : Media)
    (srcA srcV : List (Option GstSample)) (es : List Event) :
    (∃ rest, pushedBuffers m (run p env es (Sys.init srcA srcV)).trace ++ rest =
      (delivered ((Sys.init srcA srcV).relay m).source).map (bufferOut m)) ∧
    (((run p env es (Sys.init srcA srcV)).relay m).pc = .done →
      pushedBuffers m (run p env es (Sys.init srcA srcV)).trace =
        (delivered ((Sys.init srcA srcV).relay m).source).map (bufferOut m)) := by
  have h := dataInv_run p env m srcA srcV es
  rw [← pushedBuffers_relayTrace]
  generalize (run p env es (Sys.init srcA srcV)).relay m = r at h
  generalize relayTrace m (run p env es (Sys.init srcA srcV)).trace = rt at h
  unfold DataInv at h
  constructor
  · cases hpc : r.pc <;> rw [hpc] at h <;> simp only at h <;>
      first
        | exact ⟨_, h.1⟩
        | exact h
        | exact ⟨[], by simpa using h⟩
  · intro hpc
    rw [hpc] at h
    exact h

/-! ## The iterations of a single relay -/

theorem steps_add (m : Media) (a b : Nat) : steps m (a + b) = steps m a ++ steps m b := by
  simp [steps]

theorem run_steps_add (p : Prog) (env : Env) (m : Media) (a b : Nat) (s : Sys) :
    run p env (steps m (a + b)) s = run p env (steps m b) (run p env (steps m a) s) := by
  rw [steps_add, run_append]

theorem run_steps_succ (p : Prog) (env : Env) (m : Media) (k : Nat) (s : Sys) :
    run p env (steps m (k + 1)) s = run p env (steps m k) (step p env (.relay m) s) := by
  simp [steps, List.replicate_succ, run]

theorem run_steps_zero (p : Prog) (env : Env) (m : Media) (s : Sys) :
    run p env (steps m 0) s = s := rfl

theorem sinkTrace_append (t1 t2 : List Effect) :
    sinkTrace (t1 ++ t2) = sinkTrace t1 ++ sinkTrace t2 := by
  simp [sinkTrace]

/-- A later iteration of the single relay of audio1 or video3, the pipeline started and
the run flag set: the sample at the head of the source is pushed. -/
theorem single_iteration (env : Env) (m : Media) (d : GoblinData)
    (hs : d.flagElfStarted = true) (hr : d.flagRun m = true) (smp : GstSample)
    (rest : List (Option GstSample)) (hv : relayable m false smp = true) (w h n : Nat)
    (tr : List Effect) :
    ∃ effs w1 h1,
      run (singleProg m) env (steps m (iterSteps m))
          (Sys.single m d ⟨.whileGate, some smp :: rest, none, w, h, n⟩ tr) =
        Sys.single m d ⟨.whileGate, rest, none, w1, h1, n + 1⟩ (tr ++ effs) ∧
      sinkTrace effs = [.pushBuffer m (bufferOut m smp) (env.pushRet m n)] := by
  cases m
  · simp only [relayable, Bool.not_false, Bool.true_or, Bool.true_and, Bool.and_eq_true] at hv
    obtain ⟨hv1, hv2⟩ := hv
    have hv2 := toInt_not_neg _ hv2
    simp only [GoblinData.flagRun] at hr
    refine ⟨[.isEos .A false, .pullSample .A (some smp), .bufferMap .A true, .bufferUnmap .A,
      .bufferRead .A, .bufferRead .A, .pushBuffer .A (bufferOut .A smp) (env.pushRet .A n),
      .sampleUnref .A], w, h, ?_, ?_⟩
    · simp only [iterSteps, singleProg, Sys.single, run_steps_succ, run_steps_zero, step,
        hasRelay, Sys.relay, Sys.apply, relayStep, gateFlag, hs, hr, GoblinData.flagRun,
        processSample, hv1, hv2, bufferOut, if_true, Bool.false_eq_true, if_false,
        List.isEmpty_cons, reduceCtorEq, Bool.not_true, List.append_assoc, List.cons_append,
        List.nil_append, List.append_nil, ↓reduceIte]
    · simp [sinkTrace, Effect.onSink]
  · simp only [relayable] at hv
    split at hv
    · cases hv
    · rename_i c hc
      simp only [Bool.and_eq_true, decide_eq_true_eq, Option.isSome_iff_exists] at hv
      obtain ⟨⟨⟨⟨⟨⟨cw, hcw⟩, ⟨ch, hch⟩⟩, ⟨cf, hcf⟩⟩, hmap⟩, hfit⟩, hlen⟩ := hv
      have hw : smp.width = cw := by simp [GstSample.width, hc, hcw]
      have hh : smp.height = ch := by simp [GstSample.height, hc, hch]
      rw [hw, hh] at hfit hlen
      simp only [GoblinData.flagRun] at hr
      refine ⟨[.isEos .V false, .pullSample .V (some smp), .sampleUnref .V, .bufferMap .V true,
        .bufferRead .V, .bufferUnmap .V,
        .pushBuffer .V (videoBufferOut cw ch smp.buffer) (env.pushRet .V n)], cw, ch, ?_, ?_⟩
      · simp only [iterSteps, singleProg, Sys.single, run_steps_succ, run_steps_zero, step,
          hasRelay, Sys.relay, Sys.apply, relayStep, gateFlag, hs, hr, GoblinData.flagRun,
          processSample, hmap, hfit, hlen, hc, hcw, hch, hcf, bufferOut, if_true,
          Bool.false_eq_true, if_false, Option.bind_some, Option.some_bind,
          List.isEmpty_cons, reduceCtorEq, Bool.not_true, List.append_assoc, List.cons_append,
          List.nil_append, List.append_nil, ↓reduceIte, ne_eq, not_true_eq_false]
      · simp [sinkTrace, Effect.onSink, bufferOut, hw, hh]

/-- The first iteration of the single relay of audio1 or video3: caps assignment, start,
push of the first sample. -/
theorem single_first_iteration (env : Env) (m : Media) (d : GoblinData)
    (hs : d.flagElfStarted = false) (hstart : env.startRet ≠ .FAILURE) (smp : GstSample)
    (c : GstCaps) (hcaps : smp.caps = some c) (rest : List (Option GstSample))
    (hv : relayable m true smp = true) (w h n : Nat) (tr : List Effect) :
    ∃ effs w1 h1,
      run (singleProg m) env (steps m (firstIterSteps m))
          (Sys.single m d ⟨.whileGate, some smp :: rest, none, w, h, n⟩ tr) =
        Sys.single m { d with flagElfStarted := true }
          ⟨.whileGate, rest, none, w1, h1, n + 1⟩ (tr ++ effs) ∧
      sinkTrace effs = [.setCaps m c, .setStatePlaying m env.startRet,
        .pushBuffer m (bufferOut m smp) (env.pushRet m n)] := by
  cases m
  · simp only [relayable, Bool.not_true, Bool.false_or, Bool.and_eq_true] at hv
    obtain ⟨⟨-, hv1⟩, hv2⟩ := hv
    have hv2 := toInt_not_neg _ hv2
    refine ⟨[.isEos .A false, .pullSample .A (some smp), .setCaps .A c,
      .setStatePlaying .A env.startRet, .bufferMap .A true, .bufferUnmap .A,
      .bufferRead .A, .bufferRead .A, .pushBuffer .A (bufferOut .A smp) (env.pushRet .A n),
      .sampleUnref .A], w, h, ?_, ?_⟩
    · simp only [firstIterSteps, singleProg, Sys.single, run_steps_succ, run_steps_zero, step,
        hasRelay, Sys.relay, Sys.apply, relayStep, gateFlag, hs, hstart, hcaps,
        GoblinData.flagRun, processSample, hv1, hv2, bufferOut, if_true, Bool.false_eq_true,
        if_false, Option.bind_some, Option.some_bind, List.isEmpty_cons, reduceCtorEq,
        Bool.not_true, List.append_assoc, List.cons_append, List.nil_append, List.append_nil,
        ↓reduceIte]
    · simp [sinkTrace, Effect.onSink]
  · simp only [relayable, hcaps] at hv
    simp only [Bool.and_eq_true, decide_eq_true_eq, Option.isSome_iff_exists] at hv
    obtain ⟨⟨⟨⟨⟨⟨cw, hcw⟩, ⟨ch, hch⟩⟩, ⟨cf, hcf⟩⟩, hmap⟩, hfit⟩, hlen⟩ := hv
    have hw : smp.width = cw := by simp [GstSample.width, hcaps, hcw]
    have hh : smp.height = ch := by simp [GstSample.height, hcaps, hch]
    rw [hw, hh] at hfit hlen
    refine ⟨[.isEos .V false, .pullSample .V (some smp), .setCaps .V c,
      .setStatePlaying .V env.startRet, .sampleUnref .V, .bufferMap .V true,
      .bufferRead .V, .bufferUnmap .V,
      .pushBuffer .V (videoBufferOut cw ch smp.buffer) (env.pushRet .V n)], cw, ch, ?_, ?_⟩
    · simp only [firstIterSteps, singleProg, Sys.single, run_steps_succ, run_steps_zero, step,
        hasRelay, Sys.relay, Sys.apply, relayStep, gateFlag, hs, hstart, hcaps,
        GoblinData.flagRun, processSample, hmap, hfit, hlen, hcw, hch, hcf, bufferOut,
        if_true, Bool.false_eq_true, if_false, Option.bind_some, Option.some_bind,
        List.isEmpty_cons, reduceCtorEq, Bool.not_true, List.append_assoc, List.cons_append,
        List.nil_append, List.append_nil, ↓reduceIte, ne_eq, not_true_eq_false]
    · simp [sinkTrace, Effect.onSink, bufferOut, hw, hh]

/-- The last iteration of the single relay of audio1 or video3: end-of-stream is reported
and signalled, the thread returns. -/
theorem single_last_iteration (env : Env) (m : Media) (d : GoblinData)
    (hs : d.flagElfStarted = true) (hr : d.flagRun m = true) (w h n : Nat)
    (tr : List Effect) :
    run (singleProg m) env (steps m 4) (Sys.single m d ⟨.whileGate, [], none, w, h, n⟩ tr) =
      Sys.single m d ⟨.done, [], none, w, h, n⟩ (tr ++ [.isEos m true, .endOfStream m]) := by
  cases m <;> simp only [GoblinData.flagRun] at hr <;>
    simp only [singleProg, Sys.single, run_steps_succ, run_steps_zero, step,
      hasRelay, Sys.relay, Sys.apply, relayStep, gateFlag, hs, hr, GoblinData.flagRun,
      if_true, Bool.false_eq_true, if_false, List.isEmpty_nil, List.append_assoc,
      List.cons_append, List.nil_append, List.append_nil, ↓reduceIte]

/-- A thread that has returned takes no further step. -/
theorem single_done (env : Env) (m : Media) (d : GoblinData) (src : List (Option GstSample))
    (w h n : Nat) (tr : List Effect) (k : Nat) :
    run (singleProg m) env (steps m k) (Sys.single m d ⟨.done, src, none, w, h, n⟩ tr) =
      Sys.single m d ⟨.done, src, none, w, h, n⟩ tr := by
  induction k with
  | zero => rfl
  | succ k ih =>
    rw [run_steps_succ]
    have : step (singleProg m) env (.relay m) (Sys.single m d ⟨.done, src, none, w, h, n⟩ tr)
        = Sys.single m d ⟨.done, src, none, w, h, n⟩ tr := by
      cases m <;>
        simp [singleProg, Sys.single, step, hasRelay, Sys.relay, Sys.apply, relayStep]
    rw [this, ih]

/-- The later iterations of the single relay, one per sample. -/
theorem single_iterations (env : Env) (m : Media) (d : GoblinData)
    (hs : d.flagElfStarted = true) (hr : d.flagRun m = true) (samples : List GstSample)
    (hv : ∀ s ∈ samples, relayable m false s = true) (w h n : Nat) (tr : List Effect) :
    ∃ effs w1 h1,
      run (singleProg m) env (steps m (iterSteps m * samples.length))
          (Sys.single m d ⟨.whileGate, samples.map some, none, w, h, n⟩ tr) =
        Sys.single m d ⟨.whileGate, [], none, w1, h1, n + samples.length⟩ (tr ++ effs) ∧
      sinkTrace effs = pushes env m n samples := by
  induction samples generalizing w h n tr with
  | nil => exact ⟨[], w, h, by simp [run_steps_zero], rfl⟩
  | cons s rest ih =>
    obtain ⟨e1, w1, h1, hr1, hs1⟩ :=
      single_iteration env m d hs hr s (rest.map some) (hv s (List.mem_cons_self _ _)) w h n tr
    obtain ⟨e2, w2, h2, hr2, hs2⟩ :=
      ih (fun x hx => hv x (List.mem_cons_of_mem _ hx)) w1 h1 (n + 1) (tr ++ e1)
    refine ⟨e1 ++ e2, w2, h2, ?_, ?_⟩
    · have hk : iterSteps m * (s :: rest).length = iterSteps m + iterSteps m * rest.length := by
        simp [Nat.mul_succ, Nat.add_comm]
      rw [hk, run_steps_add, List.map_cons, hr1, hr2]
      simp [Nat.add_assoc, Nat.add_comm 1]
    · rw [sinkTrace_append, hs1, hs2]
      rfl

/-! ## Steps and the shared flags -/

theorem Sys.apply_relay_same (s : Sys) (m : Media) (o : Out) :
    (s.apply m o).relay m = o.relay := by
  cases m <;> rfl

theorem Sys.apply_relay_other (s : Sys) (m m1 : Media) (o : Out) (h : m1 ≠ m) :
    (s.apply m o).relay m1 = s.relay m1 := by
  cases m <;> cases m1 <;> first | rfl | exact absurd rfl h

theorem Sys.apply_data (s : Sys) (m : Media) (o : Out) : (s.apply m o).data = o.data := by
  cases m <;> rfl

theorem Sys.apply_trace (s : Sys) (m : Media) (o : Out) :
    (s.apply m o).trace = s.trace ++ o.effects := by
  cases m <;> rfl

theorem Sys.apply_terminated (s : Sys) (m : Media) (o : Out) :
    (s.apply m o).terminated = o.threw := by
  cases m <;> rfl

/-- The run flags are not written by a relay thread, and the other flags are only ever
set. -/
theorem relayStep_flags (p : Prog) (env : Env) (m : Media) (d : GoblinData) (r : Relay) :
    (relayStep p env m d r).data.flagRunA = d.flagRunA ∧
    (relayStep p env m d r).data.flagRunV = d.flagRunV ∧
    (d.flagElfStarted = true → (relayStep p env m d r).data.flagElfStarted = true) ∧
    (d.flagInitA = true → (relayStep p env m d r).data.flagInitA = true) ∧
    (d.flagInitV = true → (relayStep p env m d r).data.flagInitV = true) := by
  generalize ho : relayStep p env m d r = o
  cases hpc : r.pc <;> (try rw [relayStep_process _ _ _ _ _ hpc] at ho) <;>
    (try simp only [relayStep, hpc] at ho) <;> (repeat' split at ho) <;>
    subst ho <;> (try cases m) <;> simp [GoblinData.setFlagInit]

theorem pushCount_processSample (p : Prog) (env : Env) (m : Media) (r : Relay) :
    pushCount m (processSample p env m r).1 =
      if (processSample p env m r).2 then 1 else 0 := by
  unfold pushCount
  rw [pushedBuffers_processSample]
  split
  · rename_i h
    have := processSample_ok_sample p env m r h
    cases hs : r.sample with
    | none => exact absurd hs this
    | some s => simp
  · rfl

theorem pushCount_other (m m1 : Media) (effs : List Effect) (h : ∀ e ∈ effs, e.media = m1)
    (hm : m1 ≠ m) : pushCount m effs = 0 := by
  induction effs with
  | nil => rfl
  | cons e t ih =>
    have he := h e (List.mem_cons_self _ _)
    have ht := ih (fun x hx => h x (List.mem_cons_of_mem _ hx))
    unfold pushCount at ht ⊢
    cases e <;> simp only [pushedBuffers, ht] <;> simp only [Effect.media] at he
    rw [if_neg (by rw [he]; exact hm)]
    exact ht

/-- A relay thread whose idle-wait flag is set and whose run flag is clear makes at most
the push of the iteration it is in. -/
theorem relayStep_budget (p : Prog) (env : Env) (m : Media) (d : GoblinData) (r : Relay)
    (hg : gateFlag p m d = true) (hr : d.flagRun m = false) :
    pushCount m (relayStep p env m d r).effects + (relayStep p env m d r).relay.pc.pushBudget ≤
      r.pc.pushBudget := by
  have hps := pushCount_processSample p env m r
  generalize ho : relayStep p env m d r = o
  cases hpc : r.pc <;> (try rw [relayStep_process _ _ _ _ _ hpc] at ho) <;>
    (try simp only [relayStep, hpc, hg, hr, if_true, Bool.false_eq_true, if_false] at ho) <;>
    (repeat' split at ho) <;>
    subst ho <;>
    simp_all [Pc.pushBudget, Pc.canPush, pushCount_nil, pushCount_one, hpc, pushCount,
      pushedBuffers]

/-- An invariant of the events of a schedule is an invariant of the run. -/
theorem run_invariant_on (p : Prog) (env : Env) (I : Sys → Prop) (Q : Event → Prop)
    (hstep : ∀ e s, Q e → I s → I (step p env e s)) (es : List Event)
    (hq : ∀ e ∈ es, Q e) (s : Sys) (h : I s) : I (run p env es s) := by
  induction es generalizing s with
  | nil => exact h
  | cons e es ih =>
    exact ih (fun x hx => hq x (List.mem_cons_of_mem _ hx)) _
      (hstep e s (hq e (List.mem_cons_self _ _)) h)

/-- A run only appends to the trace. -/
theorem run_trace_extends (p : Prog) (env : Env) (es : List Event) (s : Sys) :
    ∃ t, (run p env es s).trace = s.trace ++ t := by
  refine run_invariant p env (fun s1 => ∃ t, s1.trace = s.trace ++ t) ?_ es s ⟨[], by simp⟩
  intro e s1 ⟨t, ht⟩
  unfold step
  split
  · exact ⟨t, ht⟩
  · cases e with
    | relay m =>
      simp only
      split
      · exact ⟨t ++ (relayStep p env m s1.data (s1.relay m)).effects, by
          rw [Sys.apply_trace, ht, List.append_assoc]⟩
      · exact ⟨t, ht⟩
    | startFeed source => simp only; split <;> exact ⟨t, ht⟩
    | stopFeed source => simp only; split <;> exact ⟨t, ht⟩

theorem pushCount_run_mono (p : Prog) (env : Env) (m : Media) (es : List Event) (s : Sys) :
    pushCount m s.trace ≤ pushCount m (run p env es s).trace := by
  obtain ⟨t, ht⟩ := run_trace_extends p env es s
  rw [ht, pushCount_append]
  omega

theorem gateFlag_frame (p : Prog) (m : Media) (d d1 : GoblinData)
    (hst : d1.flagElfStarted = d.flagElfStarted) (hA : d1.flagInitA = d.flagInitA)
    (hV : d1.flagInitV = d.flagInitV) : gateFlag p m d1 = gateFlag p m d := by
  cases p <;> cases m <;> simp [gateFlag, GoblinData.flagInit, hst, hA, hV]

theorem gateFlag_relayStep (p : Prog) (env : Env) (m m1 : Media) (d : GoblinData) (r : Relay)
    (h : gateFlag p m d = true) : gateFlag p m (relayStep p env m1 d r).data = true := by
  obtain ⟨-, -, h3, h4, h5⟩ := relayStep_flags p env m1 d r
  cases p <;> cases m <;> simp only [gateFlag, GoblinData.flagInit] at h ⊢ <;>
    first | exact h3 h | exact h4 h | exact h5 h

theorem flagRun_relayStep (p : Prog) (env : Env) (m m1 : Media) (d : GoblinData) (r : Relay) :
    (relayStep p env m1 d r).data.flagRun m = d.flagRun m := by
  obtain ⟨h1, h2, -⟩ := relayStep_flags p env m1 d r
  cases m <;> simp only [GoblinData.flagRun] <;> assumption

theorem startFeed_flagRun (p : Prog) (m : Media) (source : GstElement) (d d1 : GoblinData)
    (hno : startsFeed p m (.startFeed source) = false) (h : startFeed p source d = some d1) :
    d1.flagRun m = d.flagRun m := by
  unfold startFeed at h
  cases p <;> cases m <;> simp only [startsFeed] at hno <;> simp only at h <;>
    (repeat' split at h) <;>
    first
      | (cases Option.some.inj h; rfl)
      | simp_all

theorem stopFeed_flagRun (p : Prog) (m : Media) (source : GstElement) (d d1 : GoblinData)
    (hr : d.flagRun m = false) (h : stopFeed p source d = some d1) :
    d1.flagRun m = false := by
  unfold stopFeed at h
  cases p <;> cases m <;> simp only [GoblinData.flagRun] at hr ⊢ <;> simp only at h <;>
    (repeat' split at h) <;>
    first
      | (cases Option.some.inj h; first | exact hr | rfl)
      | cases h

/-! ## Pulls and caps assignments -/

theorem pullCount_append (m : Media) (t1 t2 : List Effect) :
    pullCount m (t1 ++ t2) = pullCount m t1 + pullCount m t2 := by
  simp [pullCount]

theorem capsCount_append (m : Media) (t1 t2 : List Effect) :
    capsCount m (t1 ++ t2) = capsCount m t1 + capsCount m t2 := by
  simp [capsCount]

theorem pullCount_other (m m1 : Media) (effs : List Effect) (h : ∀ e ∈ effs, e.media = m1)
    (hm : m1 ≠ m) : pullCount m effs = 0 := by
  simp only [pullCount, List.countP_eq_zero]
  intro e he
  have := h e he
  cases e <;> simp only [Effect.media] at this <;> (try simp) 
  rename_i m2 s
  cases s <;> simp
  rw [this]; exact hm

theorem capsCount_other (m m1 : Media) (effs : List Effect) (h : ∀ e ∈ effs, e.media = m1)
    (hm : m1 ≠ m) : capsCount m effs = 0 := by
  simp only [capsCount, List.countP_eq_zero]
  intro e he
  have := h e he
  cases e <;> simp only [Effect.media] at this <;> (try simp) 
  rw [this]; exact hm

theorem pullCount_processSample (p : Prog) (env : Env) (m : Media) (r : Relay) :
    pullCount m (processSample p env m r).1 = 0 := by
  unfold processSample
  cases r.sample with
  | none => simp [pullCount]
  | some sample =>
    cases m <;> simp only <;> (repeat' split) <;> simp [pullCount]

theorem capsCount_processSample (p : Prog) (env : Env) (m : Media) (r : Relay) :
    capsCount m (processSample p env m r).1 = 0 := by
  unfold processSample
  cases r.sample with
  | none => simp [capsCount]
  | some sample =>
    cases m <;> simp only <;> (repeat' split) <;> simp [capsCount]

/-- Every step of a relay thread keeps `CapsInv`. -/
theorem capsInv_relayStep (p : Prog) (env : Env) (m : Media) (d : GoblinData) (r : Relay)
    (np nc : Nat) (h : CapsInv p (gateFlag p m d) r.pc np nc) :
    CapsInv p (gateFlag p m (relayStep p env m d r).data) (relayStep p env m d r).relay.pc
      (np + pullCount m (relayStep p env m d r).effects)
      (nc + capsCount m (relayStep p env m d r).effects) := by
  have hp1 := pullCount_processSample p env m r
  have hp2 := capsCount_processSample p env m r
  generalize ho : relayStep p env m d r = o
  unfold CapsInv at h
  cases hg : gateFlag p m d <;> rw [hg] at h <;>
    cases hpc : r.pc <;> rw [hpc] at h <;>
    simp only [Bool.false_eq_true, if_false, if_true, reduceCtorEq, false_and, and_false] at h <;>
    (try rw [relayStep_process _ _ _ _ _ hpc] at ho) <;>
    (try simp only [relayStep, hpc, hg, Bool.false_eq_true, if_false, if_true] at ho) <;>
    (repeat' split at ho) <;>
    subst ho <;> simp only [CapsInv, hp1, hp2, hg, Nat.add_zero] <;>
    (try simp only [pullCount, capsCount, List.countP_nil, List.countP_cons, Nat.add_zero,
      decide_True, decide_False, if_true, if_false, Nat.zero_add, Bool.false_eq_true,
      reduceCtorEq, true_and, and_true]) <;>
    first
      | exact h
      | omega
      | (cases p <;> cases m <;>
          simp_all [gateFlag, GoblinData.flagInit, GoblinData.setFlagInit])

/-- A relay thread of av1 does not write the format flag of the other media type. -/
theorem flagInit_relayStep_other (p : Prog) (env : Env) (m m1 : Media) (d : GoblinData)
    (r : Relay) (hm : m1 ≠ m) : (relayStep p env m1 d r).data.flagInit m = d.flagInit m := by
  generalize ho : relayStep p env m1 d r = o
  cases hpc : r.pc <;> (try rw [relayStep_process _ _ _ _ _ hpc] at ho) <;>
    (try simp only [relayStep, hpc] at ho) <;> (repeat' split at ho) <;>
    subst ho <;> cases m <;> cases m1 <;>
    first | rfl | exact absurd rfl hm

theorem gateFlag_relayStep_other (p : Prog) (env : Env) (m m1 : Media) (d : GoblinData)
    (r : Relay) (h : hasRelay p m = true) (h1 : hasRelay p m1 = true) (hm : m1 ≠ m) :
    gateFlag p m (relayStep p env m1 d r).data = gateFlag p m d := by
  cases p
  · cases m <;> cases m1 <;> simp [hasRelay] at h h1 hm
  · cases m <;> cases m1 <;> simp [hasRelay] at h h1 hm
  · exact flagInit_relayStep_other .av1 env m m1 d r hm

/-- Every event keeps `CapsInv` of an existing relay thread. -/
theorem capsInv_step (p : Prog) (env : Env) (m : Media) (hr : hasRelay p m = true)
    (e : Event) (s : Sys)
    (h : CapsInv p (gateFlag p m s.data) (s.relay m).pc (pullCount m s.trace)
      (capsCount m s.trace)) :
    CapsInv p (gateFlag p m (step p env e s).data) ((step p env e s).relay m).pc
      (pullCount m (step p env e s).trace) (capsCount m (step p env e s).trace) := by
  unfold step
  split
  · exact h
  · cases e with
    | relay m1 =>
      simp only
      split
      · rename_i hr1
        rw [Sys.apply_data, Sys.apply_trace, pullCount_append, capsCount_append]
        by_cases hm : m1 = m
        · subst hm
          rw [Sys.apply_relay_same]
          exact capsInv_relayStep p env m1 s.data (s.relay m1) _ _ h
        · have hmed := relayStep_media p env m1 s.data (s.relay m1)
          rw [Sys.apply_relay_other _ _ _ _ (Ne.symm hm),
            pullCount_other m m1 _ hmed hm, capsCount_other m m1 _ hmed hm,
            gateFlag_relayStep_other p env m m1 _ _ hr hr1 hm]
          exact h
      · exact h
    | startFeed source =>
      simp only
      split
      · rename_i d1 hd
        obtain ⟨-, h2, h3, h4⟩ := startFeed_frame _ _ _ _ hd
        simp only [gateFlag_frame p m _ _ h2 h3 h4]
        exact h
      · exact h
    | stopFeed source =>
      simp only
      split
      · rename_i d1 hd
        obtain ⟨-, h2, h3, h4⟩ := stopFeed_frame _ _ _ _ hd
        simp only [gateFlag_frame p m _ _ h2 h3 h4]
        exact h
      · exact h

theorem capsInv_run (p : Prog) (env : Env) (m : Media) (hr : hasRelay p m = true)
    (srcA srcV : List (Option GstSample)) (es : List Event) :
    CapsInv p (gateFlag p m (run p env es (Sys.init srcA srcV)).data)
      ((run p env es (Sys.init srcA srcV)).relay m).pc
      (pullCount m (run p env es (Sys.init srcA srcV)).trace)
      (capsCount m (run p env es (Sys.init srcA srcV)).trace) := by
  refine run_invariant p env
    (fun s => CapsInv p (gateFlag p m s.data) (s.relay m).pc (pullCount m s.trace)
      (capsCount m s.trace)) (capsInv_step p env m hr) es _ ?_
  cases p <;> cases m <;>
    simp [CapsInv, Sys.init, Sys.relay, Relay.init, gateFlag, GoblinData.init,
      GoblinData.flagInit, pullCount, capsCount]

/-! ## Progress of the start check -/

theorem startCount_start (m : Media) (ret : GstStateChangeReturn) :
    startCount [Effect.setStatePlaying m ret] = 1 := rfl

/-- No deadlock before the start of av1: in a reachable state in which both format flags
are set, no assertion has failed and the start call has not been made, one of the relay
threads, scheduled alone, makes the call within six steps. -/
theorem av1_start_progress (env : Env) (s : Sys) (h : Av1Inv s) (ht : s.terminated = false)
    (hA : s.data.flagInitA = true) (hV : s.data.flagInitV = true)
    (hc : startCount s.trace = 0) :
    ∃ m k, k ≤ 6 ∧ startCount (run .av1 env (steps m k) s).trace = 1 := by
  unfold Av1Inv at h
  have a1 := h.self.holds_mutex
  have a5 := h.self.at_storeStarted
  have a10 := h.self.at_unlockMutex
  have v1 := h.other.holds_mutex
  have v5 := h.other.at_storeStarted
  have v10 := h.other.at_unlockMutex
  have g3 := h.started_count
  have g5 := h.pending
  have g7 := h.mutex_self
  have g8 := h.mutex_other
  clear h
  obtain ⟨d, rA, rV, tr, t⟩ := s
  obtain ⟨rv, ra, st, ia, iv, mu⟩ := d
  obtain ⟨pcA, srcA, smpA, wA, hA1, nA⟩ := rA
  obtain ⟨pcV, srcV, smpV, wV, hV1, nV⟩ := rV
  simp only at ht hA hV hc a1 a5 a10 v1 v5 v10 g3 g5 g7 g8
  subst ht hA hV
  have hst : st = false := by
    cases st
    · rfl
    · have := g3 rfl; omega
  subst hst
  simp only [Media.other, Bool.false_eq_true, or_false] at g7 g8 v1
  have run1 : ∀ (m : Media) (k : Nat) (s : Sys),
      run .av1 env (steps m (k + 1)) s = run .av1 env (steps m k) (step .av1 env (.relay m) s) :=
    fun m k s => run_steps_succ .av1 env m k s
  rcases mu with _ | mh
  · -- the mutex is free: the relay inside its start check runs through
    rcases g5 rfl rfl hc with hp | hp
    · refine ⟨.A, ?_⟩
      cases pcA <;> simp only [Pc.startPending, Pc.inPlayElf, reduceCtorEq,
        Bool.false_eq_true, true_implies] at hp a1
      · exact ⟨6, by omega, by
          simp [run1, run_steps_zero, step, hasRelay, Sys.relay, Sys.apply, relayStep,
            startCount_append, hc, startCount]
          split <;> rfl⟩
      · exact ⟨5, by omega, by
          simp [run1, run_steps_zero, step, hasRelay, Sys.relay, Sys.apply, relayStep,
            startCount_append, hc, startCount]
          split <;> rfl⟩
      · exact ⟨4, by omega, by
          simp [run1, run_steps_zero, step, hasRelay, Sys.relay, Sys.apply, relayStep,
            startCount_append, hc, startCount]
          split <;> rfl⟩
      · exact ⟨3, by omega, by
          simp [run1, run_steps_zero, step, hasRelay, Sys.relay, Sys.apply, relayStep,
            startCount_append, hc, startCount]
          split <;> rfl⟩
    · refine ⟨.V, ?_⟩
      cases pcV <;> simp only [Pc.startPending, Pc.inPlayElf, reduceCtorEq,
        Bool.false_eq_true, true_implies] at hp v1
      · exact ⟨6, by omega, by
          simp [run1, run_steps_zero, step, hasRelay, Sys.relay, Sys.apply, relayStep,
            startCount_append, hc, startCount]
          split <;> rfl⟩
      · exact ⟨5, by omega, by
          simp [run1, run_steps_zero, step, hasRelay, Sys.relay, Sys.apply, relayStep,
            startCount_append, hc, startCount]
          split <;> rfl⟩
      · exact ⟨4, by omega, by
          simp [run1, run_steps_zero, step, hasRelay, Sys.relay, Sys.apply, relayStep,
            startCount_append, hc, startCount]
          split <;> rfl⟩
      · exact ⟨3, by omega, by
          simp [run1, run_steps_zero, step, hasRelay, Sys.relay, Sys.apply, relayStep,
            startCount_append, hc, startCount]
          split <;> rfl⟩
  · -- the mutex is held: its holder is about to make the call
    cases mh
    · refine ⟨.A, ?_⟩
      have hin := g7 rfl
      cases pcA <;> simp only [Pc.inPlayElf, reduceCtorEq, Bool.false_eq_true] at hin
      · exact ⟨2, by omega, by
          simp [run1, run_steps_zero, step, hasRelay, Sys.relay, Sys.apply, relayStep,
            startCount_append, hc, startCount]
          split <;> rfl⟩
      · exact ⟨1, by omega, by
          simp [run1, run_steps_zero, step, hasRelay, Sys.relay, Sys.apply, relayStep,
            startCount_append, hc, startCount]
          split <;> rfl⟩
      · have := a5 rfl; omega
      · have := a10 rfl; omega
    · refine ⟨.V, ?_⟩
      have hin := g8 rfl
      cases pcV <;> simp only [Pc.inPlayElf, reduceCtorEq, Bool.false_eq_true] at hin
      · exact ⟨2, by omega, by
          simp [run1, run_steps_zero, step, hasRelay, Sys.relay, Sys.apply, relayStep,
            startCount_append, hc, startCount]
          split <;> rfl⟩
      · exact ⟨1, by omega, by
          simp [run1, run_steps_zero, step, hasRelay, Sys.relay, Sys.apply, relayStep,
            startCount_append, hc, startCount]
          split <;> rfl⟩
      · have := v5 rfl; omega
      · have := v10 rfl; omega

/-! ## A relay whose run flag is never set -/

/-- A relay thread pushes only at `process`. -/
theorem pushCount_relayStep (p : Prog) (env : Env) (m : Media) (d : GoblinData) (r : Relay)
    (h : r.pc ≠ .process) : pushCount m (relayStep p env m d r).effects = 0 := by
  generalize ho : relayStep p env m d r = o
  cases hpc : r.pc <;> (try exact absurd hpc h) <;>
    (try simp only [relayStep, hpc] at ho) <;> (repeat' split at ho) <;>
    subst ho <;> simp [pushCount, pushedBuffers]

/-- Every event other than a `startFeed` for media type `m` keeps `NeverFedInv`. -/
theorem neverFedInv_step (p : Prog) (env : Env) (m : Media) (hr : hasRelay p m = true)
    (e : Event) (s : Sys) (hno : startsFeed p m e = false) (h : NeverFedInv p m s) :
    NeverFedInv p m (step p env e s) := by
  obtain ⟨h1, h2, h3, h4⟩ := h
  have hcaps := capsInv_step p env m hr e s h2
  refine ⟨?_, hcaps, ?_⟩
  · -- the run flag stays clear
    unfold step
    split
    · exact h1
    · cases e with
      | relay m1 =>
        simp only
        split
        · rw [Sys.apply_data, flagRun_relayStep]; exact h1
        · exact h1
      | startFeed source =>
        simp only
        split
        · rename_i d1 hd
          rw [startFeed_flagRun p m source _ _ hno hd]; exact h1
        · exact h1
      | stopFeed source =>
        simp only
        split
        · rename_i d1 hd
          exact stopFeed_flagRun p m source _ _ h1 hd
        · exact h1
  · unfold step
    split
    · exact ⟨h3, h4⟩
    · cases e with
      | relay m1 =>
        simp only
        split
        · rename_i hr1
          rw [Sys.apply_data, Sys.apply_trace, pushCount_append]
          by_cases hm : m1 = m
          · subst hm
            rw [Sys.apply_relay_same]
            cases hg : gateFlag p m1 s.data
            · -- the first-sample block is still ahead: no push so far, none in this step
              have hpc : (s.relay m1).pc ≠ .process := by
                intro hpc
                unfold CapsInv at h2
                rw [hpc, hg] at h2
                exact absurd h2.1 (by decide)
              have h0 := pushCount_relayStep p env m1 s.data (s.relay m1) hpc
              have h5 := h3 hg
              refine ⟨fun _ => by omega, fun _ => ?_⟩
              have : (relayStep p env m1 s.data (s.relay m1)).relay.pc.pushBudget ≤ 1 := by
                unfold Pc.pushBudget; split <;> omega
              omega
            · have hb := relayStep_budget p env m1 s.data (s.relay m1) hg h1
              have h5 := h4 hg
              have hg1 := gateFlag_relayStep p env m1 m1 s.data (s.relay m1) hg
              refine ⟨fun hf => ?_, fun _ => by omega⟩
              rw [hg1] at hf
              cases hf
          · rw [Sys.apply_relay_other _ _ _ _ (Ne.symm hm),
              pushCount_other m m1 _ (relayStep_media p env m1 s.data (s.relay m1)) hm,
              gateFlag_relayStep_other p env m m1 _ _ hr hr1 hm]
            exact ⟨h3, h4⟩
        · exact ⟨h3, h4⟩
      | startFeed source =>
        simp only
        split
        · rename_i d1 hd
          obtain ⟨-, g2, g3, g4⟩ := startFeed_frame _ _ _ _ hd
          simp only [gateFlag_frame p m _ _ g2 g3 g4]
          exact ⟨h3, h4⟩
        · exact ⟨h3, h4⟩
      | stopFeed source =>
        simp only
        split
        · rename_i d1 hd
          obtain ⟨-, g2, g3, g4⟩ := stopFeed_frame _ _ _ _ hd
          simp only [gateFlag_frame p m _ _ g2 g3 g4]
          exact ⟨h3, h4⟩
        · exact ⟨h3, h4⟩

/-- A relay whose run flag is never set pushes at most one buffer. -/
theorem neverFed_pushCount (p : Prog) (env : Env) (m : Media) (hr : hasRelay p m = true)
    (srcA srcV : List (Option GstSample)) (es : List Event)
    (hno : ∀ e ∈ es, startsFeed p m e = false) :
    pushCount m (run p env es (Sys.init srcA srcV)).trace ≤ 1 := by
  have h0 : NeverFedInv p m (Sys.init srcA srcV) := by
    have hc := capsInv_run p env m hr srcA srcV []
    refine ⟨?_, hc, ?_, ?_⟩
    · cases m <;> rfl
    · intro _; rfl
    · intro _
      cases m <;> simp [Sys.init, Sys.relay, Relay.init, pushCount, pushedBuffers,
        Pc.pushBudget, Pc.canPush]
  have h1 := run_invariant_on p env (NeverFedInv p m) (fun e => startsFeed p m e = false)
    (fun e s hq hi => neverFedInv_step p env m hr e s hq hi) es hno _ h0
  obtain ⟨-, -, h3, h4⟩ := h1
  cases hg : gateFlag p m (run p env es (Sys.init srcA srcV)).data
  · have := h3 hg; omega
  · have := h4 hg; omega

/-! ## Pushed buffers and pulled samples -/

theorem pulledSamples_append (m : Media) (t1 t2 : List Effect) :
    pulledSamples m (t1 ++ t2) = pulledSamples m t1 ++ pulledSamples m t2 := by
  induction t1 with
  | nil => rfl
  | cons e t ih =>
    rw [List.cons_append]
    cases e with
    | pullSample m1 s =>
      cases s with
      | none => simp only [pulledSamples, ih]
      | some x =>
        simp only [pulledSamples, ih]
        split <;> simp
    | _ => simp only [pulledSamples, ih]

theorem pulledSamples_processSample (p : Prog) (env : Env) (m : Media) (r : Relay) :
    pulledSamples m (processSample p env m r).1 = [] := by
  unfold processSample
  cases r.sample with
  | none => simp [pulledSamples]
  | some sample =>
    cases m <;> simp only <;> (repeat' split) <;>
      simp [pulledSamples, pulledSamples_append]

theorem pullCount_eq_length (m : Media) (tr : List Effect) :
    pullCount m tr = (pulledSamples m tr).length := by
  induction tr with
  | nil => rfl
  | cons e t ih =>
    unfold pullCount at ih ⊢
    rw [List.countP_cons, ih]
    cases e with
    | pullSample m1 s =>
      cases s with
      | none => simp only [pulledSamples]; rfl
      | some x =>
        simp only [pulledSamples]
        by_cases hm : m1 = m <;> simp [hm]
    | _ => simp only [pulledSamples]; rfl

/-- Every step of a relay thread keeps the relation between pushed and pulled. -/
theorem pullInv_step (p : Prog) (env : Env) (m : Media)
    (d : GoblinData) (r : Relay) (rt : List Effect) (h : PullInv m r rt) :
    PullInv m (relayStep p env m d r).relay (rt ++ (relayStep p env m d r).effects) := by
  have hps := pushedBuffers_processSample p env m r
  have hpl := pulledSamples_processSample p env m r
  generalize ho : relayStep p env m d r = o
  unfold PullInv at h
  cases hpc : r.pc <;> rw [hpc] at h <;> simp only at h <;>
    (try rw [relayStep_process _ _ _ _ _ hpc] at ho) <;>
    (try simp only [relayStep, hpc] at ho) <;> (repeat' split at ho) <;>
    subst ho <;> simp only [PullInv, List.append_nil, hpc] <;>
    (try simp only [Pc.holdsSample, Pc.hasDims, pushedBuffers, pushedBuffers_append,
      pulledSamples, pulledSamples_append,
      List.append_nil, reduceCtorEq, false_implies, true_implies, implies_true, and_true,
      true_and, Bool.false_eq_true, Bool.true_eq_false, not_false_eq_true, ne_eq,
      not_true_eq_false, Option.toList_none, Option.toList_some, List.nil_append,
      List.singleton_append, if_true, List.map_nil, List.map_append, List.map_cons] at h ⊢) <;>
    (try exact h)
  case pullSample.h_3.isTrue =>
    obtain ⟨h1, h2⟩ := h
    rw [h2] at h1
    simpa using h1
  case pullSample.h_3.isFalse =>
    rename_i hm
    obtain ⟨h1, h2⟩ := h
    rw [h2] at h1
    exact ⟨by simpa using h1, fun hv => absurd hv hm⟩
  case getCaps.h_2.h_1 =>
    rename_i x1 caps hc x2 x3 x4 w hh fr hw hhh hfr
    refine ⟨h.1, h.2, ?_⟩
    intro _ smp hsmp
    rw [hsmp] at hc
    have hc1 : smp.caps = some caps := hc
    rw [hc1]
    exact ⟨hw, hhh⟩
  case process.isTrue =>
    rename_i hok
    obtain ⟨h1, h2, h3⟩ := h
    rw [hps, if_pos hok, hpl]
    cases hsmp : r.sample with
    | none => exact absurd hsmp h2
    | some smp =>
      rw [hsmp] at h1
      have hb : r.bufferOut m smp = bufferOut m smp := by
        cases m
        · rfl
        · obtain ⟨hw, hh⟩ := h3 rfl smp hsmp
          simp [Relay.bufferOut, bufferOut, GstSample.width, GstSample.height, hw, hh]
      simp only [Option.toList_some, List.map_cons, List.map_nil, hb, List.append_nil]
      simpa using h1

theorem pullInv_run (p : Prog) (env : Env) (m : Media) (srcA srcV : List (Option GstSample))
    (es : List Event) :
    PullInv m ((run p env es (Sys.init srcA srcV)).relay m)
      (relayTrace m (run p env es (Sys.init srcA srcV)).trace) := by
  refine relay_invariant p env m (PullInv m) (pullInv_step p env m) es _ ?_
  cases m <;>
    simp [PullInv, Sys.init, Sys.relay, Relay.init, relayTrace, pushedBuffers, pulledSamples,
      Pc.holdsSample, Pc.hasDims]

theorem pulledSamples_relayTrace (m : Media) (tr : List Effect) :
    pulledSamples m (relayTrace m tr) = pulledSamples m tr := by
  induction tr with
  | nil => rfl
  | cons e t ih =>
    unfold relayTrace at ih ⊢
    rw [List.filter_cons]
    by_cases hm : e.media = m
    · rw [if_pos (by simpa using hm)]
      cases e with
      | pullSample m1 s => cases s <;> simp only [pulledSamples, ih]
      | _ => simp only [pulledSamples, ih]
    · rw [if_neg (by simpa using hm)]
      cases e with
      | pullSample m1 s =>
        cases s with
        | none => simp only [pulledSamples, ih]
        | some x =>
          simp only [pulledSamples, ih]
          rw [if_neg (by simpa [Effect.media] using hm)]
      | _ => simp only [pulledSamples, ih]

/-- In every state of every run in which no assertion of the relay has failed, the pushed
buffers followed by the buffer of the held sample are the buffers of the pulled samples,
and a sample is held exactly between pull and push. -/
theorem pushed_pulled (p : Prog) (env : Env) (m : Media)
    (srcA srcV : List (Option GstSample)) (es : List Event)
    (hf : ((run p env es (Sys.init srcA srcV)).relay m).pc ≠ .failed) :
    pushedBuffers m (run p env es (Sys.init srcA srcV)).trace ++
        ((run p env es (Sys.init srcA srcV)).relay m).sample.toList.map (bufferOut m) =
      (pulledSamples m (run p env es (Sys.init srcA srcV)).trace).map (bufferOut m) ∧
    (((run p env es (Sys.init srcA srcV)).relay m).pc.holdsSample = false →
      ((run p env es (Sys.init srcA srcV)).relay m).sample = none) ∧
    (((run p env es (Sys.init srcA srcV)).relay m).pc.holdsSample = true →
      ((run p env es (Sys.init srcA srcV)).relay m).sample ≠ none) := by
  have h := pullInv_run p env m srcA srcV es
  rw [← pushedBuffers_relayTrace, ← pulledSamples_relayTrace]
  generalize (run p env es (Sys.init srcA srcV)).relay m = r at h hf
  generalize relayTrace m (run p env es (Sys.init srcA srcV)).trace = rt at h
  unfold PullInv at h
  cases hpc : r.pc <;> rw [hpc] at h <;> simp only at h <;>
    first
      | exact absurd hpc hf
      | exact ⟨h.1, h.2.1, h.2.2.1⟩

/-! ## Runs under other push results -/

theorem processSample_pushRet (p : Prog) (env1 env2 : Env) (m : Media) (r : Relay) :
    (processSample p env1 m r).2 = (processSample p env2 m r).2 ∧
    (processSample p env1 m r).1.map Effect.eraseRet =
      (processSample p env2 m r).1.map Effect.eraseRet := by
  unfold processSample
  cases r.sample with
  | none => simp
  | some sample =>
    cases m <;> simp only <;> (repeat' split) <;> simp [Effect.eraseRet]

/-- A step of a relay thread does not depend on what the pushes return. -/
theorem relayStep_pushRet (p : Prog) (env1 env2 : Env) (hs : env1.startRet = env2.startRet)
    (m : Media) (d : GoblinData) (r : Relay) :
    (relayStep p env1 m d r).data = (relayStep p env2 m d r).data ∧
    (relayStep p env1 m d r).relay = (relayStep p env2 m d r).relay ∧
    (relayStep p env1 m d r).threw = (relayStep p env2 m d r).threw ∧
    (relayStep p env1 m d r).effects.map Effect.eraseRet =
      (relayStep p env2 m d r).effects.map Effect.eraseRet := by
  obtain ⟨h2, h1⟩ := processSample_pushRet p env1 env2 m r
  cases hpc : r.pc
  case process =>
    rw [relayStep_process _ _ _ _ _ hpc, relayStep_process _ _ _ _ _ hpc, h2]
    split <;> exact ⟨rfl, rfl, rfl, h1⟩
  all_goals
    simp only [relayStep, hpc, hs]
    all_goals simp

theorem sameFlow_step (p : Prog) (env1 env2 : Env) (hs : env1.startRet = env2.startRet)
    (e : Event) (s1 s2 : Sys) (h : SameFlow s1 s2) :
    SameFlow (step p env1 e s1) (step p env2 e s2) := by
  obtain ⟨hd, hA, hV, ht, htr⟩ := h
  unfold step
  rw [ht]
  split
  · exact ⟨hd, hA, hV, ht, htr⟩
  · cases e with
    | relay m =>
      simp only
      split
      · have hr : s1.relay m = s2.relay m := by cases m <;> assumption
        obtain ⟨h1, h2, h3, h4⟩ := relayStep_pushRet p env1 env2 hs m s2.data (s2.relay m)
        rw [hd, hr]
        cases m <;>
          simp only [Sys.apply, SameFlow, List.map_append, h1, h2, h3, h4, htr, hA, hV,
            and_self]
      · exact ⟨hd, hA, hV, ht, htr⟩
    | startFeed source =>
      simp only [hd]
      split <;> exact ⟨rfl, hA, hV, rfl, htr⟩
    | stopFeed source =>
      simp only [hd]
      split <;> exact ⟨rfl, hA, hV, rfl, htr⟩

theorem sameFlow_run (p : Prog) (env1 env2 : Env) (hs : env1.startRet = env2.startRet)
    (es : List Event) (s1 s2 : Sys) (h : SameFlow s1 s2) :
    SameFlow (run p env1 es s1) (run p env2 es s2) := by
  induction es generalizing s1 s2 with
  | nil => exact h
  | cons e es ih => exact ih _ _ (sameFlow_step p env1 env2 hs e s1 s2 h)

/-! ## Exactly-once start (C1, C2) -/

/-- C1: in av1, whatever the interleaving of the two relay threads and the callbacks, and
whatever the sources deliver, `gst_element_set_state(elfPipeline, PLAYING)` is called at
most once; it has been called exactly once in every state in which both `flagInitA` and
`flagInitV` are set and neither relay is still inside its start check (between its
`flagInit = true` store and the call); in particular in every state in which both relays
have pushed the buffer of their first sample.  And the start check cannot block: while
both flags are set, no assertion has failed and the call has not been made, one of the
relay threads makes it within six steps of its own. -/
theorem av1_start_exactly_once (env : Env) (srcA srcV : List (Option GstSample))
    (es : List Event) :
    startCount (run .av1 env es (Sys.init srcA srcV)).trace ≤ 1 ∧
    ((run .av1 env es (Sys.init srcA srcV)).data.flagInitA = true →
      (run .av1 env es (Sys.init srcA srcV)).data.flagInitV = true →
      (run .av1 env es (Sys.init srcA srcV)).relayA.pc.startPending = false →
      (run .av1 env es (Sys.init srcA srcV)).relayV.pc.startPending = false →
      startCount (run .av1 env es (Sys.init srcA srcV)).trace = 1) ∧
    (1 ≤ pushCount .A (run .av1 env es (Sys.init srcA srcV)).trace →
      1 ≤ pushCount .V (run .av1 env es (Sys.init srcA srcV)).trace →
      startCount (run .av1 env es (Sys.init srcA srcV)).trace = 1) ∧
    ((run .av1 env es (Sys.init srcA srcV)).terminated = false →
      (run .av1 env es (Sys.init srcA srcV)).data.flagInitA = true →
      (run .av1 env es (Sys.init srcA srcV)).data.flagInitV = true →
      startCount (run .av1 env es (Sys.init srcA srcV)).trace = 0 →
      ∃ m k, k ≤ 6 ∧
        startCount (run .av1 env (steps m k) (run .av1 env es (Sys.init srcA srcV))).trace
          = 1) := by
  have h := av1Inv_run env es srcA srcV
  generalize run .av1 env es (Sys.init srcA srcV) = s at h
  have hprog := av1_start_progress env s h
  unfold Av1Inv at h
  have a7 := h.self.no_push_before_init
  have a8 := h.self.after_init
  have v7 := h.other.no_push_before_init
  have v8 := h.other.after_init
  have g2 := h.at_most_once
  have g5 := h.pending
  simp only [Media.other] at v7 v8
  have key : s.data.flagInitA = true → s.data.flagInitV = true →
      s.relayA.pc.startPending = false → s.relayV.pc.startPending = false →
      startCount s.trace = 1 := by
    intro hA hV hpA hpV
    rcases Nat.eq_zero_or_pos (startCount s.trace) with h0 | h0
    · rcases g5 hA hV h0 with h1 | h1
      · rw [hpA] at h1; cases h1
      · rw [hpV] at h1; cases h1
    · omega
  refine ⟨g2, key, ?_, hprog⟩
  intro hA hV
  have fA : s.data.flagInitA = true := by
    cases hf : s.data.flagInitA
    · have := a7 hf; omega
    · rfl
  have fV : s.data.flagInitV = true := by
    cases hf : s.data.flagInitV
    · have := v7 hf; omega
    · rfl
  have pA : s.relayA.pc.startPending = false := by
    cases hp : s.relayA.pc.startPending
    · rfl
    · have h1 : s.relayA.pc.afterInit = true := by
        revert hp; cases s.relayA.pc <;> simp [Pc.startPending, Pc.afterInit]
      have := (a8 h1).1; omega
  have pV : s.relayV.pc.startPending = false := by
    cases hp : s.relayV.pc.startPending
    · rfl
    · have h1 : s.relayV.pc.afterInit = true := by
        revert hp; cases s.relayV.pc <;> simp [Pc.startPending, Pc.afterInit]
      have := (v8 h1).1; omega
  exact key fA fV pA pV

/-- A run of av1 in which both relays push their first buffer: the start call is made
once. -/
theorem av1_start_exactly_once_witness :
    1 ≤ pushCount .A (run .av1 envOk (steps .A 10 ++ steps .V 16)
      (Sys.init [some (sampleA 1)] [some (sampleV 1)])).trace ∧
    1 ≤ pushCount .V (run .av1 envOk (steps .A 10 ++ steps .V 16)
      (Sys.init [some (sampleA 1)] [some (sampleV 1)])).trace ∧
    startCount (run .av1 envOk (steps .A 10 ++ steps .V 16)
      (Sys.init [some (sampleA 1)] [some (sampleV 1)])).trace = 1 :=
  ⟨by decide, by decide,
    (av1_start_exactly_once envOk _ _ (steps .A 10 ++ steps .V 16)).2.2.1 (by decide) (by decide)⟩

/-- C2: in every state of av1 reachable from the initial `GoblinData` by steps of the two
relay threads and of the `startFeed` / `stopFeed` callbacks, `flagElfStarted` implies
`flagInitA` and `flagInitV`. -/
theorem av1_started_implies_init (env : Env) (srcA srcV : List (Option GstSample))
    (es : List Event) :
    (run .av1 env es (Sys.init srcA srcV)).data.flagElfStarted = true →
      (run .av1 env es (Sys.init srcA srcV)).data.flagInitA = true ∧
      (run .av1 env es (Sys.init srcA srcV)).data.flagInitV = true :=
  (av1Inv_run env es srcA srcV).started_init

/-- A run of av1 that ends with `flagElfStarted` set. -/
theorem av1_started_implies_init_witness :
    (run .av1 envOk (steps .V 10 ++ steps .A 15)
      (Sys.init [some (sampleA 1)] [some (sampleV 1)])).data.flagElfStarted = true ∧
    (run .av1 envOk (steps .V 10 ++ steps .A 15)
      (Sys.init [some (sampleA 1)] [some (sampleV 1)])).data.flagInitA = true ∧
    (run .av1 envOk (steps .V 10 ++ steps .A 15)
      (Sys.init [some (sampleA 1)] [some (sampleV 1)])).data.flagInitV = true :=
  ⟨by decide, av1_started_implies_init envOk _ _ (steps .V 10 ++ steps .A 15) (by decide)⟩

/-! ## playElf (C3) -/

/-- The steps `lockMutex` ... `unlockMutex` of a relay thread of av1, taken in a row from
a state in which the mutex is free, do what `playElf` does. -/
theorem playElf_steps (env : Env) (m : Media) (s : Sys) (hterm : s.terminated = false)
    (hpc : (s.relay m).pc = .lockMutex) (hmu : s.data.mutexElfStart = none) :
    ∃ k, k ≤ 5 ∧
      (run .av1 env (steps m k) s).trace = s.trace ++ (playElf env m s.data).effects ∧
      (run .av1 env (steps m k) s).terminated = (playElf env m s.data).threw ∧
      ((playElf env m s.data).threw = false →
        ((run .av1 env (steps m k) s).relay m).pc = .process ∧
        (run .av1 env (steps m k) s).data = (playElf env m s.data).data) := by
  obtain ⟨d, rA, rV, tr, t⟩ := s
  obtain ⟨rv, ra, st, ia, iv, mu⟩ := d
  simp only at hterm hmu
  subst hterm hmu
  cases m
  · simp only [Sys.relay] at hpc
    cases st
    · by_cases hf : env.startRet = .FAILURE
      · refine ⟨3, by omega, ?_⟩
        simp [steps, run, step, hasRelay, Sys.relay, Sys.apply, relayStep, hpc, playElf, hf]
      · refine ⟨5, by omega, ?_⟩
        simp [steps, run, step, hasRelay, Sys.relay, Sys.apply, relayStep, hpc, playElf, hf]
    · refine ⟨3, by omega, ?_⟩
      simp [steps, run, step, hasRelay, Sys.relay, Sys.apply, relayStep, hpc, playElf]
  · simp only [Sys.relay] at hpc
    cases st
    · by_cases hf : env.startRet = .FAILURE
      · refine ⟨3, by omega, ?_⟩
        simp [steps, run, step, hasRelay, Sys.relay, Sys.apply, relayStep, hpc, playElf, hf]
      · refine ⟨5, by omega, ?_⟩
        simp [steps, run, step, hasRelay, Sys.relay, Sys.apply, relayStep, hpc, playElf, hf]
    · refine ⟨3, by omega, ?_⟩
      simp [steps, run, step, hasRelay, Sys.relay, Sys.apply, relayStep, hpc, playElf]

/-- The steps of the guarded call `if (!flagElfStarted && flagInitA && flagInitV)
playElf(data)` of a relay thread of av1, from the load of `flagElfStarted` on, taken in a
row from a state in which the mutex is free, do what `playElfIfReady` does. -/
theorem playElfIfReady_steps (env : Env) (m : Media) (s : Sys) (hterm : s.terminated = false)
    (hpc : (s.relay m).pc = .ifStarted) (hmu : s.data.mutexElfStart = none) :
    ∃ k, k ≤ 8 ∧
      (run .av1 env (steps m k) s).trace = s.trace ++ (playElfIfReady env m s.data).effects ∧
      (run .av1 env (steps m k) s).terminated = (playElfIfReady env m s.data).threw ∧
      ((playElfIfReady env m s.data).threw = false →
        ((run .av1 env (steps m k) s).relay m).pc = .process ∧
        (run .av1 env (steps m k) s).data = (playElfIfReady env m s.data).data) := by
  obtain ⟨d, rA, rV, tr, t⟩ := s
  obtain ⟨rv, ra, st, ia, iv, mu⟩ := d
  simp only at hterm hmu
  subst hterm hmu
  cases m <;> simp only [Sys.relay] at hpc <;> cases st
  case A.true | V.true =>
    refine ⟨1, by omega, ?_⟩
    simp [steps, run, step, hasRelay, Sys.relay, Sys.apply, relayStep, hpc, playElf,
      playElfIfReady]
  all_goals cases ia
  case A.false.false | V.false.false =>
    refine ⟨2, by omega, ?_⟩
    simp [steps, run, step, hasRelay, Sys.relay, Sys.apply, relayStep, hpc, playElf,
      playElfIfReady]
  all_goals cases iv
  case A.false.true.false | V.false.true.false =>
    refine ⟨3, by omega, ?_⟩
    simp [steps, run, step, hasRelay, Sys.relay, Sys.apply, relayStep, hpc, playElf,
      playElfIfReady]
  all_goals by_cases hf : env.startRet = .FAILURE
  case pos | pos =>
    refine ⟨6, by omega, ?_⟩
    simp [steps, run, step, hasRelay, Sys.relay, Sys.apply, relayStep, hpc, playElf,
      playElfIfReady, hf]
  all_goals
    refine ⟨8, by omega, ?_⟩
    simp [steps, run, step, hasRelay, Sys.relay, Sys.apply, relayStep, hpc, playElf,
      playElfIfReady, hf]

/-- In every reachable state of av1 a relay thread that is at the lock of `playElf`, or
at the start call inside it, finds both format flags set. -/
theorem playElf_called_with_flags (env : Env) (m : Media)
    (srcA srcV : List (Option GstSample)) (es : List Event)
    (hpc : ((run .av1 env es (Sys.init srcA srcV)).relay m).pc = .lockMutex ∨
      ((run .av1 env es (Sys.init srcA srcV)).relay m).pc = .setState) :
    (run .av1 env es (Sys.init srcA srcV)).data.flagInitA = true ∧
      (run .av1 env es (Sys.init srcA srcV)).data.flagInitV = true := by
  have h := av1Inv_run env es srcA srcV
  unfold Av1Inv at h
  cases m
  · simp only [Sys.relay] at hpc
    exact ⟨h.self.saw_initA (by rcases hpc with h1 | h1 <;> rw [h1] <;> rfl),
      h.self.saw_initV (by rcases hpc with h1 | h1 <;> rw [h1] <;> rfl)⟩
  · simp only [Sys.relay] at hpc
    exact ⟨h.other.saw_initA (by rcases hpc with h1 | h1 <;> rw [h1] <;> rfl),
      h.other.saw_initV (by rcases hpc with h1 | h1 <;> rw [h1] <;> rfl)⟩

/-- In every reachable state of av1 a relay thread at the start call finds
`flagElfStarted` false. -/
theorem playElf_start_not_started (env : Env) (m : Media)
    (srcA srcV : List (Option GstSample)) (es : List Event)
    (hpc : ((run .av1 env es (Sys.init srcA srcV)).relay m).pc = .setState) :
    (run .av1 env es (Sys.init srcA srcV)).data.flagElfStarted = false := by
  have h := av1Inv_run env es srcA srcV
  unfold Av1Inv at h
  cases hst : (run .av1 env es (Sys.init srcA srcV)).data.flagElfStarted
  · rfl
  · have h1 := h.started_count hst
    cases m
    · have h0 := h.self.at_setState hpc
      omega
    · have h0 := h.other.at_setState hpc
      omega

/-- C3: the start attempt of av1 is `playElf` behind its guard,
`if (!flagElfStarted && flagInitA && flagInitV) playElf(data)` (av1.cpp 136-146, 197-198,
267-268).  For every state of `flagElfStarted`, `flagInitA`, `flagInitV`: it calls the
start action, and sets `flagElfStarted` when the call has returned, if and only if
`flagElfStarted` is false and both format flags are true (the assertion on the return
value throws exactly when the start returns FAILURE); in every other state it calls
nothing and leaves the state unchanged.  The relay thread of av1 does the same: its
steps from the load of `flagElfStarted` on, taken in a row, have the effects and the
final flags of the guarded call; and in every run, whatever the interleaving, `playElf`
is entered only with both format flags set and the start action is called only with
`flagElfStarted` false and both format flags true. -/
theorem playElf_spec (env : Env) (m : Media) (d : GoblinData) :
    ((playElfIfReady env m d).effects = [Effect.setStatePlaying m env.startRet] ↔
      (d.flagElfStarted = false ∧ d.flagInitA = true ∧ d.flagInitV = true)) ∧
    (((playElfIfReady env m d).effects = [Effect.setStatePlaying m env.startRet] ∧
        ((playElfIfReady env m d).threw = false →
          (playElfIfReady env m d).data = { d with flagElfStarted := true })) ↔
      (d.flagElfStarted = false ∧ d.flagInitA = true ∧ d.flagInitV = true)) ∧
    ((playElfIfReady env m d).threw = true ↔
      (d.flagElfStarted = false ∧ d.flagInitA = true ∧ d.flagInitV = true ∧
        env.startRet = .FAILURE)) ∧
    (¬ (d.flagElfStarted = false ∧ d.flagInitA = true ∧ d.flagInitV = true) →
      playElfIfReady env m d = ⟨d, [], false⟩) ∧
    (∀ s : Sys, s.terminated = false → (s.relay m).pc = .ifStarted →
      s.data.mutexElfStart = none →
      ∃ k, k ≤ 8 ∧
        (run .av1 env (steps m k) s).trace =
          s.trace ++ (playElfIfReady env m s.data).effects ∧
        (run .av1 env (steps m k) s).terminated = (playElfIfReady env m s.data).threw ∧
        ((playElfIfReady env m s.data).threw = false →
          ((run .av1 env (steps m k) s).relay m).pc = .process ∧
          (run .av1 env (steps m k) s).data = (playElfIfReady env m s.data).data)) ∧
    (∀ (srcA srcV : List (Option GstSample)) (es : List Event),
      (((run .av1 env es (Sys.init srcA srcV)).relay m).pc = .lockMutex →
        (run .av1 env es (Sys.init srcA srcV)).data.flagInitA = true ∧
        (run .av1 env es (Sys.init srcA srcV)).data.flagInitV = true) ∧
      (((run .av1 env es (Sys.init srcA srcV)).relay m).pc = .setState →
        (run .av1 env es (Sys.init srcA srcV)).data.flagElfStarted = false ∧
        (run .av1 env es (Sys.init srcA srcV)).data.flagInitA = true ∧
        (run .av1 env es (Sys.init srcA srcV)).data.flagInitV = true)) := by
  refine ⟨?_, ?_, ?_, ?_, fun s => playElfIfReady_steps env m s, fun srcA srcV es =>
    ⟨fun h => playElf_called_with_flags env m srcA srcV es (Or.inl h),
      fun h => ⟨playElf_start_not_started env m srcA srcV es h,
        playElf_called_with_flags env m srcA srcV es (Or.inr h)⟩⟩⟩ <;>
    obtain ⟨rv, ra, st, ia, iv, mu⟩ := d <;>
    by_cases hf : env.startRet = .FAILURE <;> cases st <;> cases ia <;> cases iv <;>
    simp [playElf, playElfIfReady, hf]

/-- The guarded call in a state with both format flags set and `flagElfStarted` false
calls the start action and sets `flagElfStarted`; with `flagInitV` false it does nothing;
and the video relay of av1, once both relays have stored their format flag, makes the
guarded call in at most 8 steps. -/
theorem playElf_spec_witness :
    (playElfIfReady envOk .V ⟨false, false, false, true, true, none⟩).effects =
      [Effect.setStatePlaying .V .SUCCESS] ∧
    (playElfIfReady envOk .V ⟨false, false, false, true, true, none⟩).data =
      ⟨false, false, true, true, true, none⟩ ∧
    playElfIfReady envOk .V ⟨false, false, false, true, false, none⟩ =
      ⟨⟨false, false, false, true, false, none⟩, [], false⟩ ∧
    (run .av1 envOk (steps .A 6 ++ steps .V 7)
      (Sys.init [some (sampleA 0)] [some (sampleV 0)])).relayV.pc = .ifStarted ∧
    ∃ k, k ≤ 8 ∧
      (run .av1 envOk (steps .V k) (run .av1 envOk (steps .A 6 ++ steps .V 7)
        (Sys.init [some (sampleA 0)] [some (sampleV 0)]))).trace =
        (run .av1 envOk (steps .A 6 ++ steps .V 7)
          (Sys.init [some (sampleA 0)] [some (sampleV 0)])).trace ++
          [Effect.setStatePlaying .V .SUCCESS] :=
  ⟨((playElf_spec envOk .V ⟨false, false, false, true, true, none⟩).2.1.mpr
      ⟨rfl, rfl, rfl⟩).1,
    ((playElf_spec envOk .V ⟨false, false, false, true, true, none⟩).2.1.mpr
      ⟨rfl, rfl, rfl⟩).2 (by decide),
    (playElf_spec envOk .V ⟨false, false, false, true, false, none⟩).2.2.2.1 (by decide),
    by decide,
    ((playElf_spec envOk .V GoblinData.init).2.2.2.2.1
      (run .av1 envOk (steps .A 6 ++ steps .V 7)
        (Sys.init [some (sampleA 0)] [some (sampleV 0)]))
      (by decide) (by decide) (by decide)).imp fun _ h => ⟨h.1, h.2.1⟩⟩

/-! ## The second reporter starts the pipeline (C4) -/

theorem Pc.not_startPending_of_not_afterInit (pc : Pc) (h : pc.afterInit = false) :
    pc.startPending = false := by
  revert h; cases pc <;> simp [Pc.afterInit, Pc.startPending]

/-- C4: in av1, in every interleaving, as long as one of the two relays has not reported
its format (`flagInitV` false while the audio relay processes its first sample, or
`flagInitA` false while the video relay does) the start action has not been called and
`flagElfStarted` is false; and once both have reported and both have left their
first-sample block, without a failed assertion, the start action has been called exactly
once and `flagElfStarted` is true. -/
theorem av1_second_reporter_starts (env : Env) (srcA srcV : List (Option GstSample))
    (es : List Event) :
    ((run .av1 env es (Sys.init srcA srcV)).data.flagInitV = false →
      startCount (run .av1 env es (Sys.init srcA srcV)).trace = 0 ∧
      (run .av1 env es (Sys.init srcA srcV)).data.flagElfStarted = false) ∧
    ((run .av1 env es (Sys.init srcA srcV)).data.flagInitA = false →
      startCount (run .av1 env es (Sys.init srcA srcV)).trace = 0 ∧
      (run .av1 env es (Sys.init srcA srcV)).data.flagElfStarted = false) ∧
    ((run .av1 env es (Sys.init srcA srcV)).data.flagInitA = true →
      (run .av1 env es (Sys.init srcA srcV)).data.flagInitV = true →
      (run .av1 env es (Sys.init srcA srcV)).relayA.pc.afterInit = false →
      (run .av1 env es (Sys.init srcA srcV)).relayV.pc.afterInit = false →
      (run .av1 env es (Sys.init srcA srcV)).terminated = false →
      startCount (run .av1 env es (Sys.init srcA srcV)).trace = 1 ∧
      (run .av1 env es (Sys.init srcA srcV)).data.flagElfStarted = true) := by
  have h := av1Inv_run env es srcA srcV
  generalize run .av1 env es (Sys.init srcA srcV) = s at h
  unfold Av1Inv at h
  have g1 := h.started_init
  have g2 := h.at_most_once
  have g4 := h.count_started
  have g5 := h.pending
  have g6 := h.count_init
  refine ⟨?_, ?_, ?_⟩
  · intro hV
    have hc : startCount s.trace = 0 := by
      rcases Nat.eq_zero_or_pos (startCount s.trace) with h0 | h0
      · exact h0
      · have := (g6 h0).2; rw [hV] at this; cases this
    refine ⟨hc, ?_⟩
    cases hs : s.data.flagElfStarted
    · rfl
    · have := (g1 hs).2; rw [hV] at this; cases this
  · intro hA
    have hc : startCount s.trace = 0 := by
      rcases Nat.eq_zero_or_pos (startCount s.trace) with h0 | h0
      · exact h0
      · have := (g6 h0).1; rw [hA] at this; cases this
    refine ⟨hc, ?_⟩
    cases hs : s.data.flagElfStarted
    · rfl
    · have := (g1 hs).1; rw [hA] at this; cases this
  · intro hA hV hpA hpV ht
    have hc : 1 ≤ startCount s.trace := by
      rcases Nat.eq_zero_or_pos (startCount s.trace) with h0 | h0
      · rcases g5 hA hV h0 with h1 | h1
        · rw [Pc.not_startPending_of_not_afterInit _ hpA] at h1; cases h1
        · rw [Pc.not_startPending_of_not_afterInit _ hpV] at h1; cases h1
      · exact h0
    refine ⟨by omega, ?_⟩
    rcases g4 hc with h1 | h1 | h1 | h1
    · exact h1
    · rw [h1] at hpA; cases hpA
    · rw [h1] at hpV; cases hpV
    · rw [ht] at h1; cases h1

/-- The audio relay of av1 relays its first sample, then the video relay does: no start
call after the first, one start call and `flagElfStarted` after the second. -/
theorem av1_second_reporter_starts_witness :
    (pushCount .A (run .av1 envOk (steps .A 10)
        (Sys.init [some (sampleA 1)] [some (sampleV 1)])).trace = 1 ∧
      startCount (run .av1 envOk (steps .A 10)
        (Sys.init [some (sampleA 1)] [some (sampleV 1)])).trace = 0 ∧
      (run .av1 envOk (steps .A 10)
        (Sys.init [some (sampleA 1)] [some (sampleV 1)])).data.flagElfStarted = false) ∧
    (pushCount .V (run .av1 envOk (steps .A 10 ++ steps .V 16)
        (Sys.init [some (sampleA 1)] [some (sampleV 1)])).trace = 1 ∧
      startCount (run .av1 envOk (steps .A 10 ++ steps .V 16)
        (Sys.init [some (sampleA 1)] [some (sampleV 1)])).trace = 1 ∧
      (run .av1 envOk (steps .A 10 ++ steps .V 16)
        (Sys.init [some (sampleA 1)] [some (sampleV 1)])).data.flagElfStarted = true) :=
  ⟨⟨by decide,
    (av1_second_reporter_starts envOk _ _ (steps .A 10)).1 (by decide)⟩,
   ⟨by decide,
    (av1_second_reporter_starts envOk _ _ (steps .A 10 ++ steps .V 16)).2.2
      (by decide) (by decide) (by decide) (by decide) (by decide)⟩⟩

/-! ## End-of-stream (C5) -/

theorem loopOnly_nil : loopOnly [] := by
  intro e he; cases he

theorem loopOnly_append {t1 t2 : List Effect} (h1 : loopOnly t1) (h2 : loopOnly t2) :
    loopOnly (t1 ++ t2) := by
  intro e he
  rcases List.mem_append.mp he with h | h
  · exact h1 e h
  · exact h2 e h

theorem loopOnly_processSample (p : Prog) (env : Env) (m : Media) (r : Relay) :
    loopOnly (processSample p env m r).1 := by
  unfold processSample loopOnly
  cases r.sample with
  | none => simp [Effect.isExit, Effect.isEndOfStream]
  | some sample =>
    cases m <;> simp only <;> (repeat' split) <;> simp [Effect.isExit, Effect.isEndOfStream]

/-- Every step of a relay thread keeps the shape of its effects. -/
theorem eosInv_step (p : Prog) (env : Env) (m : Media) (d : GoblinData) (r : Relay)
    (rt : List Effect) (h : EosInv m r rt) :
    EosInv m (relayStep p env m d r).relay (rt ++ (relayStep p env m d r).effects) := by
  have hps := loopOnly_processSample p env m r
  generalize ho : relayStep p env m d r = o
  unfold EosInv at h
  cases hpc : r.pc <;> rw [hpc] at h <;> simp only at h <;>
    (try rw [relayStep_process _ _ _ _ _ hpc] at ho) <;>
    (try simp only [relayStep, hpc] at ho) <;> (repeat' split at ho) <;>
    subst ho <;> simp only [EosInv, List.append_nil, hpc] <;>
    first
      | exact h
      | exact loopOnly_append h hps
      | exact ⟨rt, _, rfl, rfl, h⟩
      | (obtain ⟨pre, x, h1, h2, h3⟩ := h
         exact ⟨pre, x, by simp [h1], h2, h3⟩)
      | (refine loopOnly_append h ?_
         intro e he
         simp only [List.mem_singleton] at he
         subst he
         exact ⟨rfl, rfl⟩)

theorem eosInv_run (p : Prog) (env : Env) (m : Media) (srcA srcV : List (Option GstSample))
    (es : List Event) :
    EosInv m ((run p env es (Sys.init srcA srcV)).relay m)
      (relayTrace m (run p env es (Sys.init srcA srcV)).trace) := by
  refine relay_invariant p env m (EosInv m) (eosInv_step p env m) es _ ?_
  cases m <;> simp [EosInv, Sys.init, Sys.relay, Relay.init, relayTrace, loopOnly]

/-- C5: for each of the relay loops (audio1 `codeThreadProcessA`, video3
`codeThreadProcessV`, av1 both), in every run: when the thread has returned, its effects
end with one `gst_app_src_end_of_stream` call and contain no other; before it has
returned they contain none; once `gst_app_sink_is_eos` has answered true, that answer is
followed by nothing but the end-of-stream call (no pull, no push); and from the
end-of-stream report the thread returns in two steps, making exactly that call. -/
theorem relay_end_of_stream_once (p : Prog) (env : Env) (m : Media)
    (srcA srcV : List (Option GstSample)) (es : List Event) :
    (((run p env es (Sys.init srcA srcV)).relay m).pc = .done →
      ∃ pre, relayTrace m (run p env es (Sys.init srcA srcV)).trace =
          pre ++ [Effect.endOfStream m] ∧ Effect.endOfStream m ∉ pre) ∧
    (((run p env es (Sys.init srcA srcV)).relay m).pc ≠ .done →
      Effect.endOfStream m ∉ relayTrace m (run p env es (Sys.init srcA srcV)).trace) ∧
    (Effect.isEos m true ∈ relayTrace m (run p env es (Sys.init srcA srcV)).trace →
      ∃ pre, loopOnly pre ∧
        (relayTrace m (run p env es (Sys.init srcA srcV)).trace =
            pre ++ [Effect.isEos m true] ∨
          relayTrace m (run p env es (Sys.init srcA srcV)).trace =
            pre ++ [Effect.isEos m true, Effect.endOfStream m])) ∧
    (hasRelay p m = true → (run p env es (Sys.init srcA srcV)).terminated = false →
      ((run p env es (Sys.init srcA srcV)).relay m).pc = .isEos →
      ((run p env es (Sys.init srcA srcV)).relay m).source = [] →
      ((run p env [.relay m, .relay m] (run p env es (Sys.init srcA srcV))).relay m).pc
          = .done ∧
        (run p env [.relay m, .relay m] (run p env es (Sys.init srcA srcV))).trace =
          (run p env es (Sys.init srcA srcV)).trace ++
            [Effect.isEos m true, Effect.endOfStream m]) := by
  have h := eosInv_run p env m srcA srcV es
  generalize run p env es (Sys.init srcA srcV) = s at h
  generalize relayTrace m s.trace = rt at h
  unfold EosInv at h
  have hne : ∀ pre x, x.isExit = true → loopOnly pre →
      Effect.endOfStream m ∉ pre ++ [x] := by
    intro pre x hx hpre hmem
    rcases List.mem_append.mp hmem with h1 | h1
    · have := (hpre _ h1).2; simp [Effect.isEndOfStream] at this
    · simp only [List.mem_singleton] at h1
      subst h1; simp [Effect.isExit] at hx
  have hlo : loopOnly rt → Effect.endOfStream m ∉ rt := by
    intro hl hmem
    have := (hl _ hmem).2; simp [Effect.isEndOfStream] at this
  refine ⟨?_, ?_, ?_, ?_⟩
  · intro hpc
    rw [hpc] at h
    obtain ⟨pre, x, h1, h2, h3⟩ := h
    exact ⟨pre ++ [x], by simp [h1], hne pre x h2 h3⟩
  · intro hpc
    cases hq : (s.relay m).pc <;> rw [hq] at h <;> simp only at h <;>
      first
        | exact hlo h
        | exact absurd hq hpc
        | (obtain ⟨pre, x, h1, h2, h3⟩ := h
           rw [h1]; exact hne pre x h2 h3)
  · intro hmem
    have hx : ∀ pre x, x.isExit = true → loopOnly pre →
        (Effect.isEos m true ∈ pre ++ [x] ∨ Effect.isEos m true ∈ pre ++ [x, .endOfStream m]) →
        x = Effect.isEos m true := by
      intro pre x _ hpre hm2
      have : Effect.isEos m true ∈ pre ∨ Effect.isEos m true = x := by
        rcases hm2 with h1 | h1
        · simpa using h1
        · simpa using h1
      rcases this with h1 | h1
      · have := (hpre _ h1).1; simp [Effect.isExit] at this
      · exact h1.symm
    cases hq : (s.relay m).pc <;> rw [hq] at h <;> simp only at h <;>
      first
        | (exfalso; have := (h _ hmem).1; simp [Effect.isExit] at this)
        | (obtain ⟨pre, x, h1, h2, h3⟩ := h
           rw [h1] at hmem
           have hxe := hx pre x h2 h3 (Or.inl hmem)
           subst hxe
           exact ⟨pre, h3, Or.inl h1⟩)
        | (obtain ⟨pre, x, h1, h2, h3⟩ := h
           rw [h1] at hmem
           have hxe := hx pre x h2 h3 (Or.inr hmem)
           subst hxe
           exact ⟨pre, h3, Or.inr h1⟩)
  · intro hr ht hpc hsrc
    cases m <;> simp only [Sys.relay] at hpc hsrc <;>
      simp [run, step, ht, hr, Sys.relay, Sys.apply, relayStep, hpc, hsrc]

/-- The audio relay of audio1 at the end-of-stream check of an exhausted source. -/
theorem relay_end_of_stream_once_witness :
    ((run .audio1 envOk (steps .A 8 ++ Event.startFeed .elfSrcA :: steps .A 2)
        (Sys.init [some (sampleA 1)] [])).relay .A).pc = .isEos ∧
    ((run .audio1 envOk ([Event.relay .A, .relay .A])
        (run .audio1 envOk (steps .A 8 ++ Event.startFeed .elfSrcA :: steps .A 2)
          (Sys.init [some (sampleA 1)] []))).relay .A).pc = .done ∧
    (run .audio1 envOk ([Event.relay .A, .relay .A])
        (run .audio1 envOk (steps .A 8 ++ Event.startFeed .elfSrcA :: steps .A 2)
          (Sys.init [some (sampleA 1)] []))).trace =
      (run .audio1 envOk (steps .A 8 ++ Event.startFeed .elfSrcA :: steps .A 2)
          (Sys.init [some (sampleA 1)] [])).trace ++
        [Effect.isEos .A true, Effect.endOfStream .A] :=
  ⟨by decide,
    (relay_end_of_stream_once .audio1 envOk .A [some (sampleA 1)] []
      (steps .A 8 ++ Event.startFeed .elfSrcA :: steps .A 2)).2.2.2
      (by decide) (by decide) (by decide) (by decide)⟩

/-! ## Order, bytes and timestamps (C6, C7) -/

theorem delivered_map_some (l : List GstSample) : delivered (l.map some) = l := by
  induction l with
  | nil => rfl
  | cons s t ih => simp [delivered, ih]

theorem Sys.init_source (m : Media) (srcA srcV : List (Option GstSample)) :
    ((Sys.init srcA srcV).relay m).source = match m with | .A => srcA | .V => srcV := by
  cases m <;> rfl

/-- C7, as stated, fails: the video relay of video3 pulls a sample of duration 40 and
pushes a buffer whose duration is `GST_CLOCK_TIME_NONE`. -/
theorem video_relay_drops_duration :
    (sampleV 1).buffer.duration = 40 ∧
    (pushedBuffers .V (run .video3 envOk (steps .V 9)
        (Sys.init [] [some (sampleV 1)])).trace).map (fun b => b.duration) =
      [GST_CLOCK_TIME_NONE] ∧
    GST_CLOCK_TIME_NONE ≠ 40 := by
  decide

/-- C7, amended: the video relay (video3 and av1 `codeThreadProcessV`) with a source that
delivers the samples `s1..sN` and then end-of-stream: in every run the buffers pushed
are, in order, a prefix of `b1..bN`, all of them when the thread has returned, where `bi`
carries the `pts` of the buffer of `si`; the duration is not copied: `bi` keeps the
duration `GST_CLOCK_TIME_NONE` of a newly allocated buffer. -/
theorem video_relay_keeps_pts (p : Prog) (env : Env) (samples : List GstSample)
    (srcA : List (Option GstSample)) (es : List Event) :
    (∀ s : GstSample, (bufferOut .V s).pts = s.buffer.pts ∧
      (bufferOut .V s).duration = GST_CLOCK_TIME_NONE) ∧
    (∃ rest, pushedBuffers .V (run p env es (Sys.init srcA (samples.map some))).trace ++ rest =
      samples.map (bufferOut .V)) ∧
    ((run p env es (Sys.init srcA (samples.map some))).relayV.pc = .done →
      pushedBuffers .V (run p env es (Sys.init srcA (samples.map some))).trace =
        samples.map (bufferOut .V)) := by
  have h := pushed_delivered p env .V srcA (samples.map some) es
  rw [Sys.init_source, delivered_map_some] at h
  exact ⟨fun s => ⟨rfl, rfl⟩, h.1, h.2⟩

/-- The video relay of video3 relays two samples and returns. -/
theorem video_relay_keeps_pts_witness :
    (run .video3 envOk (Event.startFeed .elfSrcV :: steps .V 20)
        (Sys.init [] ([sampleV 1, sampleV 2].map some))).relayV.pc = .done ∧
    pushedBuffers .V (run .video3 envOk (Event.startFeed .elfSrcV :: steps .V 20)
        (Sys.init [] ([sampleV 1, sampleV 2].map some))).trace =
      [sampleV 1, sampleV 2].map (bufferOut .V) :=
  ⟨by decide,
    (video_relay_keeps_pts .video3 envOk [sampleV 1, sampleV 2] []
      (Event.startFeed .elfSrcV :: steps .V 20)).2.2 (by decide)⟩

/-! ## The trace of a single relay (C8) -/

/-- C8: the single relay of audio1 (`m = A`) or video3 (`m = V`), its source delivering
`N >= 1` samples `s1 :: rest` and then end-of-stream, the run flag set by `startFeed` and
never cleared, no assertion failing (`relayable`, the start not returning FAILURE): after
enough steps the thread has returned, the process has not terminated, and the effects on
the playback pipeline are exactly one caps assignment with the caps of `s1`, one start,
the `N` pushes in pull order, one end-of-stream signal; each pushed buffer has the `pts`
of its sample. -/
theorem single_relay_trace (env : Env) (m : Media) (hstart : env.startRet ≠ .FAILURE)
    (s1 : GstSample) (rest : List GstSample) (c1 : GstCaps) (hc : s1.caps = some c1)
    (hv1 : relayable m true s1 = true) (hv : ∀ s ∈ rest, relayable m false s = true)
    (k : Nat) (hk : firstIterSteps m + iterSteps m * rest.length + 4 ≤ k) :
    ((run (singleProg m) env (Event.startFeed (elfSrc m) :: steps m k)
        (Sys.initFor m ((s1 :: rest).map some))).relay m).pc = .done ∧
    (run (singleProg m) env (Event.startFeed (elfSrc m) :: steps m k)
        (Sys.initFor m ((s1 :: rest).map some))).terminated = false ∧
    sinkTrace (run (singleProg m) env (Event.startFeed (elfSrc m) :: steps m k)
        (Sys.initFor m ((s1 :: rest).map some))).trace =
      [Effect.setCaps m c1, Effect.setStatePlaying m env.startRet] ++
        pushes env m 0 (s1 :: rest) ++ [Effect.endOfStream m] ∧
    (∀ s : GstSample, (bufferOut m s).pts = s.buffer.pts) := by
  have h0 : step (singleProg m) env (.startFeed (elfSrc m))
      (Sys.initFor m ((s1 :: rest).map some)) =
      Sys.single m (GoblinData.init.setFlagRun m true)
        ⟨.whileGate, some s1 :: rest.map some, none, 0, 0, 0⟩ [] := by
    cases m <;> rfl
  have hs0 : (GoblinData.init.setFlagRun m true).flagElfStarted = false := by
    cases m <;> rfl
  have hr0 : ({ GoblinData.init.setFlagRun m true with flagElfStarted := true } :
      GoblinData).flagRun m = true := by
    cases m <;> rfl
  obtain ⟨e1, w1, h1, hrun1, hsink1⟩ := single_first_iteration env m _ hs0 hstart s1 c1 hc
    (rest.map some) hv1 0 0 0 []
  obtain ⟨e2, w2, h2, hrun2, hsink2⟩ := single_iterations env m
    { GoblinData.init.setFlagRun m true with flagElfStarted := true } rfl hr0 rest hv
    w1 h1 (0 + 1) ([] ++ e1)
  have hrun3 := single_last_iteration env m
    { GoblinData.init.setFlagRun m true with flagElfStarted := true } rfl hr0
    w2 h2 (0 + 1 + rest.length) ([] ++ e1 ++ e2)
  obtain ⟨j, rfl⟩ := Nat.exists_eq_add_of_le hk
  have hfinal : run (singleProg m) env
      (Event.startFeed (elfSrc m) ::
        steps m (firstIterSteps m + iterSteps m * rest.length + 4 + j))
      (Sys.initFor m ((s1 :: rest).map some)) =
      Sys.single m { GoblinData.init.setFlagRun m true with flagElfStarted := true }
        ⟨.done, [], none, w2, h2, 0 + 1 + rest.length⟩
        ([] ++ e1 ++ e2 ++ [.isEos m true, .endOfStream m]) := by
    rw [run_cons, h0, run_steps_add, run_steps_add, run_steps_add, hrun1, hrun2, hrun3,
      single_done]
  rw [hfinal]
  refine ⟨?_, ?_, ?_, ?_⟩
  · cases m <;> rfl
  · cases m <;> rfl
  · have : (Sys.single m { GoblinData.init.setFlagRun m true with flagElfStarted := true }
        ⟨.done, [], none, w2, h2, 0 + 1 + rest.length⟩
        ([] ++ e1 ++ e2 ++ [.isEos m true, .endOfStream m])).trace =
        [] ++ e1 ++ e2 ++ [.isEos m true, .endOfStream m] := by
      cases m <;> rfl
    rw [this, sinkTrace_append, sinkTrace_append, sinkTrace_append, hsink1, hsink2]
    simp [sinkTrace, Effect.onSink, pushes]
  · intro s
    cases m <;> rfl

/-- The witness `N = 5` for audio1: five samples, then end-of-stream. -/
theorem single_relay_trace_witness :
    sinkTrace (run .audio1 envOk (Event.startFeed .elfSrcA :: steps .A 36)
        (Sys.init ([sampleA 1, sampleA 2, sampleA 3, sampleA 4, sampleA 5].map some) [])).trace =
      [Effect.setCaps .A capsAudio, Effect.setStatePlaying .A .SUCCESS,
        .pushBuffer .A ⟨[1, 2], 10, 10, true⟩ .OK, .pushBuffer .A ⟨[2, 3], 20, 10, true⟩ .OK,
        .pushBuffer .A ⟨[3, 4], 30, 10, true⟩ .OK, .pushBuffer .A ⟨[4, 5], 40, 10, true⟩ .OK,
        .pushBuffer .A ⟨[5, 6], 50, 10, true⟩ .OK, .endOfStream .A] :=
  (single_relay_trace envOk .A (by decide) (sampleA 1)
    [sampleA 2, sampleA 3, sampleA 4, sampleA 5] capsAudio rfl (by decide) (by decide) 36
    (by decide)).2.2.1

/-! ## Pushes while paused (C9) -/

/-- Every event other than a `startFeed` for media type `m` keeps `PausedInv`. -/
theorem pausedInv_step (p : Prog) (env : Env) (m : Media) (bound : Nat) (e : Event) (s : Sys)
    (hno : startsFeed p m e = false) (h : PausedInv p m bound s) :
    PausedInv p m bound (step p env e s) := by
  obtain ⟨hg, hr, hb⟩ := h
  unfold step
  split
  · exact ⟨hg, hr, hb⟩
  · cases e with
    | relay m1 =>
      simp only
      split
      · refine ⟨?_, ?_, ?_⟩
        · rw [Sys.apply_data]; exact gateFlag_relayStep p env m m1 _ _ hg
        · rw [Sys.apply_data, flagRun_relayStep]; exact hr
        · rw [Sys.apply_trace, pushCount_append]
          by_cases hm : m1 = m
          · subst hm
            rw [Sys.apply_relay_same]
            have := relayStep_budget p env m1 s.data (s.relay m1) hg hr
            omega
          · rw [Sys.apply_relay_other _ _ _ _ (Ne.symm hm),
              pushCount_other m m1 _ (relayStep_media p env m1 s.data (s.relay m1)) hm]
            omega
      · exact ⟨hg, hr, hb⟩
    | startFeed source =>
      simp only
      split
      · rename_i d1 hd
        obtain ⟨-, h2, h3, h4⟩ := startFeed_frame _ _ _ _ hd
        exact ⟨by rw [gateFlag_frame p m _ _ h2 h3 h4]; exact hg,
          by rw [startFeed_flagRun p m source _ _ hno hd]; exact hr, hb⟩
      · exact ⟨hg, hr, hb⟩
    | stopFeed source =>
      simp only
      split
      · rename_i d1 hd
        obtain ⟨-, h2, h3, h4⟩ := stopFeed_frame _ _ _ _ hd
        exact ⟨by rw [gateFlag_frame p m _ _ h2 h3 h4]; exact hg,
          stopFeed_flagRun p m source _ _ hr hd, hb⟩
      · exact ⟨hg, hr, hb⟩

/-- In a reachable state with the playback pipeline started, the idle-wait flag of every
relay is set. -/
theorem gateFlag_of_started (p : Prog) (env : Env) (m : Media)
    (srcA srcV : List (Option GstSample)) (es : List Event)
    (h : (run p env es (Sys.init srcA srcV)).data.flagElfStarted = true) :
    gateFlag p m (run p env es (Sys.init srcA srcV)).data = true := by
  cases p
  · exact h
  · exact h
  · have := (av1Inv_run env es srcA srcV).started_init h
    cases m
    · exact this.1
    · exact this.2

/-- C9, as stated, fails: in audio1 the relay passes its idle-wait with the run flag set,
`stopFeed` then clears the flag (the pipeline is started, so the gate is PAUSED), and the
relay still pulls and pushes the sample of that iteration, with no `startFeed` in
between. -/
theorem push_while_paused :
    (run .audio1 envOk (steps .A 8 ++ Event.startFeed .elfSrcA :: steps .A 2 ++
        [Event.stopFeed .elfSrcA])
      (Sys.init [some (sampleA 1), some (sampleA 2)] [])).data.flagElfStarted = true ∧
    (run .audio1 envOk (steps .A 8 ++ Event.startFeed .elfSrcA :: steps .A 2 ++
        [Event.stopFeed .elfSrcA])
      (Sys.init [some (sampleA 1), some (sampleA 2)] [])).data.flagRunA = false ∧
    pushCount .A (run .audio1 envOk (steps .A 8 ++ Event.startFeed .elfSrcA :: steps .A 2 ++
        [Event.stopFeed .elfSrcA])
      (Sys.init [some (sampleA 1), some (sampleA 2)] [])).trace = 1 ∧
    pushCount .A (run .audio1 envOk ((steps .A 8 ++ Event.startFeed .elfSrcA :: steps .A 2 ++
        [Event.stopFeed .elfSrcA]) ++ steps .A 4)
      (Sys.init [some (sampleA 1), some (sampleA 2)] [])).trace = 2 := by
  decide

/-- C9, amended: in audio1, video3 and av1, with callbacks interleaved arbitrarily, the
run flag is tested only in the idle-wait at the top of an iteration.  From a state in
which the playback pipeline is started and the run flag of a media type is false, and as
long as no `startFeed` sets that flag, the relay of that media type makes at most one
more push (that of the iteration it is in), and none at all if it is in its idle-wait or
has left its loop.  In particular a relay whose run flag is never set (`stopFeed` before
any pull, no `startFeed`) pushes at most one buffer, that of its first sample. -/
theorem paused_relay_pushes_at_most_once (p : Prog) (env : Env) (m : Media)
    (srcA srcV : List (Option GstSample)) (es1 es2 : List Event)
    (hno : ∀ e ∈ es2, startsFeed p m e = false) :
    ((run p env es1 (Sys.init srcA srcV)).data.flagElfStarted = true →
      (run p env es1 (Sys.init srcA srcV)).data.flagRun m = false →
      pushCount m (run p env (es1 ++ es2) (Sys.init srcA srcV)).trace ≤
          pushCount m (run p env es1 (Sys.init srcA srcV)).trace + 1 ∧
        (((run p env es1 (Sys.init srcA srcV)).relay m).pc.canPush = false →
          pushCount m (run p env (es1 ++ es2) (Sys.init srcA srcV)).trace =
            pushCount m (run p env es1 (Sys.init srcA srcV)).trace)) ∧
    (hasRelay p m = true →
      pushCount m (run p env es2 (Sys.init srcA srcV)).trace ≤ 1) := by
  refine ⟨?_, fun hr => neverFed_pushCount p env m hr srcA srcV es2 hno⟩
  intro hst hrun
  have hg := gateFlag_of_started p env m srcA srcV es1 hst
  rw [run_append]
  generalize run p env es1 (Sys.init srcA srcV) = s1 at hg hrun ⊢
  have h0 : PausedInv p m (pushCount m s1.trace + (s1.relay m).pc.pushBudget) s1 :=
    ⟨hg, hrun, Nat.le_refl _⟩
  have h1 := run_invariant_on p env (PausedInv p m _) (fun e => startsFeed p m e = false)
    (fun e s hq hi => pausedInv_step p env m _ e s hq hi) es2 hno s1 h0
  obtain ⟨-, -, hb⟩ := h1
  have hmono := pushCount_run_mono p env m es2 s1
  constructor
  · have : (s1.relay m).pc.pushBudget ≤ 1 := by
      unfold Pc.pushBudget; split <;> omega
    omega
  · intro hc
    have : (s1.relay m).pc.pushBudget = 0 := by
      simp [Pc.pushBudget, hc]
    omega

/-- The relay of audio1 sleeps in its idle-wait after `stopFeed`: no push. -/
theorem paused_relay_pushes_at_most_once_witness :
    pushCount .A (run .audio1 envOk
        ((steps .A 8 ++ [Event.startFeed .elfSrcA, Event.stopFeed .elfSrcA]) ++ steps .A 30)
        (Sys.init [some (sampleA 1), some (sampleA 2)] [])).trace =
      pushCount .A (run .audio1 envOk
        (steps .A 8 ++ [Event.startFeed .elfSrcA, Event.stopFeed .elfSrcA])
        (Sys.init [some (sampleA 1), some (sampleA 2)] [])).trace :=
  ((paused_relay_pushes_at_most_once .audio1 envOk .A
    [some (sampleA 1), some (sampleA 2)] []
    (steps .A 8 ++ [Event.startFeed .elfSrcA, Event.stopFeed .elfSrcA]) (steps .A 30)
    (by decide)).1 (by decide) (by decide)).2 (by decide)

/-! ## The idle-wait before the first sample (C10) -/

/-- A relay of av1 at the top of its loop, its format flag set and its run flag clear,
executes the body of the idle-wait loop and is back at the top, whatever
`flagElfStarted` is. -/
theorem av1_idle_wait_body (env : Env) (m : Media) (s : Sys) (ht : s.terminated = false)
    (hpc : (s.relay m).pc = .whileGate) (hi : s.data.flagInit m = true)
    (hrun : s.data.flagRun m = false) :
    (run .av1 env (steps m 3) s).trace = s.trace ++ [Effect.sleep m] ∧
    ((run .av1 env (steps m 3) s).relay m).pc = .whileGate ∧
    (run .av1 env (steps m 3) s).data = s.data ∧
    (run .av1 env (steps m 3) s).terminated = false := by
  obtain ⟨d, rA, rV, tr, t⟩ := s
  simp only at ht
  subst ht
  cases m <;> simp only [Sys.relay] at hpc <;> simp only at hi hrun <;>
    simp [steps, run, step, hasRelay, Sys.relay, Sys.apply, relayStep, gateFlag, hpc, hi, hrun]

/-- C10 does not hold of the audio loop of av1, whose idle-wait tests `flagInitA` where
its comment (av1.cpp 234) and the loops of audio1 and video3 have `flagElfStarted`.  With
two audio samples and the video relay not yet run, the audio relay relays its first
sample; the playback pipeline is then not started (`flagElfStarted` and `flagInitV` are
false), yet the audio relay, back at the top of its loop, executes the body of the
idle-wait loop.  In general a relay of av1 whose format flag is set and whose run flag is
clear executes that body, started or not.  The rest of the claim holds: a relay entering
an iteration skips the idle-wait loop (zero executions of its body, whatever the run
flag) and goes directly to the end-of-stream check when `flagElfStarted` is false in
audio1 and video3, and when its own format flag is false in av1; and in all three
programs a relay assigns the caps at most once, in the iteration of its first pulled
sample: at the caps assignment it has pulled exactly one sample, and the iteration of the
first sample does enter the first-sample block. -/
theorem av1_audio_waits_before_start (p : Prog) (env : Env) (m : Media)
    (hr : hasRelay p m = true) (srcA srcV : List (Option GstSample)) (es : List Event) :
    ((run .av1 envOk (steps .A 10)
        (Sys.init [some (sampleA 1), some (sampleA 2)] [some (sampleV 1)])).data.flagElfStarted
          = false ∧
      (run .av1 envOk (steps .A 10)
        (Sys.init [some (sampleA 1), some (sampleA 2)] [some (sampleV 1)])).data.flagInitV
          = false ∧
      (run .av1 envOk (steps .A 10)
        (Sys.init [some (sampleA 1), some (sampleA 2)] [some (sampleV 1)])).relayA.pc
          = .whileGate ∧
      (run .av1 envOk (steps .A 10 ++ steps .A 3)
        (Sys.init [some (sampleA 1), some (sampleA 2)] [some (sampleV 1)])).trace =
        (run .av1 envOk (steps .A 10)
          (Sys.init [some (sampleA 1), some (sampleA 2)] [some (sampleV 1)])).trace ++
          [Effect.sleep .A]) ∧
    (∀ s : Sys, s.terminated = false → (s.relay m).pc = .whileGate →
      s.data.flagInit m = true → s.data.flagRun m = false →
      (run .av1 env (steps m 3) s).trace = s.trace ++ [Effect.sleep m] ∧
      ((run .av1 env (steps m 3) s).relay m).pc = .whileGate ∧
      (run .av1 env (steps m 3) s).data = s.data) ∧
    (p ≠ .av1 → (run p env es (Sys.init srcA srcV)).terminated = false →
      ((run p env es (Sys.init srcA srcV)).relay m).pc = .whileGate →
      (run p env es (Sys.init srcA srcV)).data.flagElfStarted = false →
      ((step p env (.relay m) (run p env es (Sys.init srcA srcV))).relay m).pc = .isEos ∧
      (step p env (.relay m) (run p env es (Sys.init srcA srcV))).trace =
        (run p env es (Sys.init srcA srcV)).trace) ∧
    (p = .av1 → (run p env es (Sys.init srcA srcV)).terminated = false →
      ((run p env es (Sys.init srcA srcV)).relay m).pc = .whileGate →
      (run p env es (Sys.init srcA srcV)).data.flagInit m = false →
      ((step p env (.relay m) (run p env es (Sys.init srcA srcV))).relay m).pc = .isEos ∧
      (step p env (.relay m) (run p env es (Sys.init srcA srcV))).trace =
        (run p env es (Sys.init srcA srcV)).trace) ∧
    capsCount m (run p env es (Sys.init srcA srcV)).trace ≤ 1 ∧
    (((run p env es (Sys.init srcA srcV)).relay m).pc = .setCaps →
      pullCount m (run p env es (Sys.init srcA srcV)).trace = 1 ∧
      capsCount m (run p env es (Sys.init srcA srcV)).trace = 0) ∧
    (((run p env es (Sys.init srcA srcV)).relay m).pc = .ifGate →
      pullCount m (run p env es (Sys.init srcA srcV)).trace = 1 →
      gateFlag p m (run p env es (Sys.init srcA srcV)).data = false) := by
  have hfail : (run .av1 envOk (steps .A 10)
        (Sys.init [some (sampleA 1), some (sampleA 2)] [some (sampleV 1)])).data.flagElfStarted
          = false ∧
      (run .av1 envOk (steps .A 10)
        (Sys.init [some (sampleA 1), some (sampleA 2)] [some (sampleV 1)])).data.flagInitV
          = false ∧
      (run .av1 envOk (steps .A 10)
        (Sys.init [some (sampleA 1), some (sampleA 2)] [some (sampleV 1)])).relayA.pc
          = .whileGate ∧
      (run .av1 envOk (steps .A 10 ++ steps .A 3)
        (Sys.init [some (sampleA 1), some (sampleA 2)] [some (sampleV 1)])).trace =
        (run .av1 envOk (steps .A 10)
          (Sys.init [some (sampleA 1), some (sampleA 2)] [some (sampleV 1)])).trace ++
          [Effect.sleep .A] := by
    decide
  have hwait : ∀ s : Sys, s.terminated = false → (s.relay m).pc = .whileGate →
      s.data.flagInit m = true → s.data.flagRun m = false →
      (run .av1 env (steps m 3) s).trace = s.trace ++ [Effect.sleep m] ∧
      ((run .av1 env (steps m 3) s).relay m).pc = .whileGate ∧
      (run .av1 env (steps m 3) s).data = s.data := fun s ht hpc hi hrun =>
    ⟨(av1_idle_wait_body env m s ht hpc hi hrun).1, (av1_idle_wait_body env m s ht hpc hi hrun).2.1,
      (av1_idle_wait_body env m s ht hpc hi hrun).2.2.1⟩
  have h := capsInv_run p env m hr srcA srcV es
  generalize run p env es (Sys.init srcA srcV) = s at h
  have skip : s.terminated = false → (s.relay m).pc = .whileGate →
      gateFlag p m s.data = false →
      ((step p env (.relay m) s).relay m).pc = .isEos ∧
        (step p env (.relay m) s).trace = s.trace := by
    intro ht hpc hg
    simp only [step, ht, hr, Bool.false_eq_true, if_false, if_true, Sys.apply_relay_same,
      Sys.apply_trace, relayStep, hpc, hg, List.append_nil, and_self]
  refine ⟨hfail, hwait, ?_, ?_, ?_, ?_, ?_⟩
  · intro hp ht hpc hst
    refine skip ht hpc ?_
    cases p
    · exact hst
    · exact hst
    · exact absurd rfl hp
  · intro hp ht hpc hfi
    subst hp
    exact skip ht hpc hfi
  · unfold CapsInv at h
    cases hg : gateFlag p m s.data <;> rw [hg] at h <;>
      cases hpc : (s.relay m).pc <;> rw [hpc] at h <;>
      simp only [Bool.false_eq_true, if_false, if_true] at h <;> omega
  · intro hpc
    unfold CapsInv at h
    rw [hpc] at h
    exact h.2
  · intro hpc hnp
    unfold CapsInv at h
    rw [hpc] at h
    cases hg : gateFlag p m s.data
    · rfl
    · rw [hg] at h
      simp only [if_true] at h
      omega

/-- The failing state once more, through the general statement: the audio relay of av1
after its first sample sleeps with the pipeline not started.  And the video relay of
video3 at the top of its first iteration, the run flag clear, and at its caps
assignment. -/
theorem av1_audio_waits_before_start_witness :
    (run .av1 envOk (steps .A 10)
      (Sys.init [some (sampleA 1), some (sampleA 2)] [some (sampleV 1)])).data.flagElfStarted
        = false ∧
    (run .av1 envOk (steps .A 3) (run .av1 envOk (steps .A 10)
      (Sys.init [some (sampleA 1), some (sampleA 2)] [some (sampleV 1)]))).trace =
      (run .av1 envOk (steps .A 10)
        (Sys.init [some (sampleA 1), some (sampleA 2)] [some (sampleV 1)])).trace ++
        [Effect.sleep .A] ∧
    (((step .video3 envOk (.relay .V)
        (run .video3 envOk [] (Sys.init [] [some (sampleV 1)]))).relay .V).pc = .isEos ∧
      (step .video3 envOk (.relay .V)
          (run .video3 envOk [] (Sys.init [] [some (sampleV 1)]))).trace =
        (run .video3 envOk [] (Sys.init [] [some (sampleV 1)])).trace) ∧
    (pullCount .V (run .video3 envOk (steps .V 5) (Sys.init [] [some (sampleV 1)])).trace = 1 ∧
      capsCount .V (run .video3 envOk (steps .V 5) (Sys.init [] [some (sampleV 1)])).trace
        = 0) :=
  ⟨by decide,
    ((av1_audio_waits_before_start .av1 envOk .A rfl [] [] []).2.1
      (run .av1 envOk (steps .A 10)
        (Sys.init [some (sampleA 1), some (sampleA 2)] [some (sampleV 1)]))
      (by decide) (by decide) (by decide) (by decide)).1,
    (av1_audio_waits_before_start .video3 envOk .V rfl [] [some (sampleV 1)] []).2.2.1
      (by decide) rfl rfl rfl,
    (av1_audio_waits_before_start .video3 envOk .V rfl [] [some (sampleV 1)]
      (steps .V 5)).2.2.2.2.2.1 (by decide)⟩

/-! ## One push for every pulled sample (C11) -/

/-- C11: in every state of every run of audio1, video3 or av1, for each relay that has
raised no assertion error: the buffers it has pushed, followed by the buffer of the
sample it holds, are the buffers built from the samples it has pulled, one each and in
order; it holds a sample only between a pull and the push of the same iteration, so at
the top of every iteration and at return the number of pushes equals the number of
non-null pulls, and in between it is one less at most.  The run does not depend on what
the pushes return: with other return values the flags, the threads and the termination
are the same, and so are the effects up to those return values. -/
theorem relay_pushes_each_pulled_sample (p : Prog) (env : Env) (m : Media)
    (srcA srcV : List (Option GstSample)) (es : List Event) :
    (((run p env es (Sys.init srcA srcV)).relay m).pc ≠ .failed →
      pushedBuffers m (run p env es (Sys.init srcA srcV)).trace ++
          ((run p env es (Sys.init srcA srcV)).relay m).sample.toList.map (bufferOut m) =
        (pulledSamples m (run p env es (Sys.init srcA srcV)).trace).map (bufferOut m) ∧
      (((run p env es (Sys.init srcA srcV)).relay m).pc.holdsSample = false →
        ((run p env es (Sys.init srcA srcV)).relay m).sample = none ∧
        pushCount m (run p env es (Sys.init srcA srcV)).trace =
          pullCount m (run p env es (Sys.init srcA srcV)).trace) ∧
      pullCount m (run p env es (Sys.init srcA srcV)).trace ≤
        pushCount m (run p env es (Sys.init srcA srcV)).trace + 1) ∧
    (∀ env1 : Env, env1.startRet = env.startRet →
      SameFlow (run p env1 es (Sys.init srcA srcV)) (run p env es (Sys.init srcA srcV))) := by
  refine ⟨fun hf => ?_, fun env1 hs => ?_⟩
  · obtain ⟨h1, h2, _⟩ := pushed_pulled p env m srcA srcV es hf
    have hlen := congrArg List.length h1
    simp only [List.length_append, List.length_map] at hlen
    rw [pullCount_eq_length]
    unfold pushCount
    refine ⟨h1, fun hh => ?_, ?_⟩
    · have hn := h2 hh
      rw [hn] at hlen
      exact ⟨hn, by simpa using hlen⟩
    · cases hsm : ((run p env es (Sys.init srcA srcV)).relay m).sample <;>
        rw [hsm] at hlen <;> simp at hlen <;> omega
  · exact sameFlow_run p env1 env hs es _ _ ⟨rfl, rfl, rfl, rfl, rfl⟩

/-- The relay of audio1 on two samples, run to its return: no assertion fails, and two
samples are pulled and two buffers pushed. -/
theorem relay_pushes_each_pulled_sample_witness :
    ((run .audio1 envOk (Event.startFeed .elfSrcA :: steps .A 18)
        (Sys.init [some (sampleA 0), some (sampleA 1)] [])).relay .A).pc = .done ∧
    pushCount .A (run .audio1 envOk (Event.startFeed .elfSrcA :: steps .A 18)
        (Sys.init [some (sampleA 0), some (sampleA 1)] [])).trace =
      pullCount .A (run .audio1 envOk (Event.startFeed .elfSrcA :: steps .A 18)
        (Sys.init [some (sampleA 0), some (sampleA 1)] [])).trace :=
  ⟨by decide,
    (((relay_pushes_each_pulled_sample .audio1 envOk .A [some (sampleA 0), some (sampleA 1)] []
      (Event.startFeed .elfSrcA :: steps .A 18)).1 (by decide)).2.1 (by decide)).2⟩

/-! ## The return value of a push is ignored (C12) -/

/-- C12, as stated, fails: in audio1 with a sink that rejects every buffer, the relay pushes
the first buffer, gets `GST_FLOW_ERROR`, and goes on: it pulls and pushes the second
sample, signals end-of-stream and returns, and the process has not terminated. -/
theorem push_rejection_does_not_terminate :
    (run .audio1 envReject (Event.startFeed .elfSrcA :: steps .A 18)
        (Sys.init [some (sampleA 0), some (sampleA 1)] [])).terminated = false ∧
    (run .audio1 envReject (Event.startFeed .elfSrcA :: steps .A 18)
        (Sys.init [some (sampleA 0), some (sampleA 1)] [])).relayA.pc = .done ∧
    sinkTrace (run .audio1 envReject (Event.startFeed .elfSrcA :: steps .A 18)
        (Sys.init [some (sampleA 0), some (sampleA 1)] [])).trace =
      [.setCaps .A capsAudio, .setStatePlaying .A .SUCCESS,
        .pushBuffer .A (audioBufferOut (sampleA 0).buffer) .ERROR,
        .pushBuffer .A (audioBufferOut (sampleA 1).buffer) .ERROR,
        .endOfStream .A] := by
  decide

/-- C12, amended: the step of a relay loop that pushes a buffer ignores what
`gst_app_src_push_buffer` returns.  Whatever the return value (accepted, back-pressured or
rejected), the step raises no error, leaves the flags as they are, and takes the thread to
the top of the next iteration; the return value is the one the sink gives for this push
and has no other use. -/
theorem push_result_is_ignored (p : Prog) (env : Env) (m : Media) (d : GoblinData)
    (r : Relay) (b : GstBuffer) (ret : GstFlowReturn)
    (h : Effect.pushBuffer m b ret ∈ (relayStep p env m d r).effects) :
    (relayStep p env m d r).threw = false ∧
    (relayStep p env m d r).relay.pc = .whileGate ∧
    (relayStep p env m d r).relay.pushed = r.pushed + 1 ∧
    (relayStep p env m d r).data = d ∧
    ret = env.pushRet m r.pushed := by
  have hpc : r.pc = .process := by
    by_contra hne
    have h0 := pushCount_relayStep p env m d r hne
    have h1 : 0 < pushCount m (relayStep p env m d r).effects := by
      obtain ⟨l1, l2, hl⟩ := List.append_of_mem h
      rw [hl, pushCount_append]
      simp [pushCount, pushedBuffers]
    omega
  rw [relayStep_process _ _ _ _ _ hpc] at h ⊢
  split at h
  · rename_i hok
    rw [if_pos hok]
    refine ⟨rfl, rfl, rfl, rfl, ?_⟩
    simp only at h
    unfold processSample at h
    cases hs : r.sample with
    | none => simp [hs] at h
    | some smp =>
      rw [hs] at h
      cases m <;> simp only at h <;> (repeat' split at h) <;> simp at h <;> exact h.2
  · rename_i hok
    exfalso
    simp only at h
    have h1 : 0 < pushCount m (processSample p env m r).1 := by
      obtain ⟨l1, l2, hl⟩ := List.append_of_mem h
      rw [hl, pushCount_append]
      simp [pushCount, pushedBuffers]
    rw [pushCount_processSample, if_neg hok] at h1
    omega

/-- The push step of the audio relay of audio1 with a sink that rejects: the thread is at
the top of the next iteration and nothing has thrown. -/
theorem push_result_is_ignored_witness :
    (relayStep .audio1 envReject .A GoblinData.init
        ⟨.process, [], some (sampleA 0), 0, 0, 0⟩).threw = false ∧
    (relayStep .audio1 envReject .A GoblinData.init
        ⟨.process, [], some (sampleA 0), 0, 0, 0⟩).relay.pc = .whileGate ∧
    GstFlowReturn.ERROR = envReject.pushRet .A 0 :=
  have h := push_result_is_ignored .audio1 envReject .A GoblinData.init
    ⟨.process, [], some (sampleA 0), 0, 0, 0⟩ (audioBufferOut (sampleA 0).buffer) .ERROR
    (by decide)
  ⟨h.1, h.2.1, h.2.2.2.2⟩

/-! ## A null sample ends the loop like end-of-stream (C13) -/

theorem exitInv_step (p : Prog) (env : Env) (m : Media) (x : Effect) (rt0 : List Effect)
    (d : GoblinData) (r : Relay) (rt : List Effect) (h : ExitInv m x rt0 r rt) :
    ExitInv m x rt0 (relayStep p env m d r).relay (rt ++ (relayStep p env m d r).effects) := by
  rcases h with ⟨hpc, hrt⟩ | ⟨hpc, hrt⟩
  · right
    simp [relayStep, hpc, hrt]
  · right
    simp [relayStep, hpc, hrt]

/-- The step that leaves the loop: on a null sample, or on `gst_app_sink_is_eos`. -/
theorem relayStep_exit (p : Prog) (env : Env) (m : Media) (d : GoblinData) (r : Relay)
    (x : Effect)
    (hx : (r.pc = .pullSample ∧ r.source.head?.join = none ∧ x = .pullSample m none) ∨
      (r.pc = .isEos ∧ r.source = [] ∧ x = .isEos m true)) :
    (relayStep p env m d r).threw = false ∧ (relayStep p env m d r).data = d ∧
    (relayStep p env m d r).effects = [x] ∧ (relayStep p env m d r).relay.pc = .endOfStream := by
  rcases hx with ⟨hpc, hs, rfl⟩ | ⟨hpc, hs, rfl⟩
  · simp only [relayStep, hpc]
    split
    · exact ⟨rfl, rfl, rfl, rfl⟩
    · exact ⟨rfl, rfl, rfl, rfl⟩
    · rename_i smp rest hsrc
      simp [hsrc] at hs
  · simp [relayStep, hpc, hs]

theorem step_relay_own (p : Prog) (env : Env) (m : Media) (hr : hasRelay p m = true) (s : Sys)
    (ht : s.terminated = false) :
    step p env (.relay m) s = s.apply m (relayStep p env m s.data (s.relay m)) := by
  simp [step, ht, hr]

theorem step_done (p : Prog) (env : Env) (m : Media) (s : Sys)
    (hpc : (s.relay m).pc = .done) : step p env (.relay m) s = s := by
  unfold step
  split
  · rfl
  · rename_i ht
    simp only
    split
    · have ht1 : s.terminated = false := by simpa using ht
      cases m <;> cases s <;> simp_all [relayStep, Sys.apply, Sys.relay]
    · rfl

theorem run_steps_done (p : Prog) (env : Env) (m : Media) (k : Nat) (s : Sys)
    (hpc : (s.relay m).pc = .done) : run p env (steps m k) s = s := by
  induction k with
  | zero => rfl
  | succ k ih => rw [run_steps_succ, step_done p env m s hpc, ih]

/-- C13: a relay that gets a null sample from `gst_app_sink_pull_sample` leaves its loop
exactly as it does when `gst_app_sink_is_eos` answers true.  With `x` the exit effect (the
null pull, or the end-of-stream answer): the step raises no error, changes no flag, and
has `x` as its only effect (no caps assignment, no start, no push); in every run from
there the relay adds at most the end-of-stream call to its effects, once; and two steps of
the relay take it to its return, with `x` and one end-of-stream call as the only
effects. -/
theorem null_sample_exits_like_eos (p : Prog) (env : Env) (m : Media)
    (hr : hasRelay p m = true) (s : Sys) (ht : s.terminated = false) (x : Effect)
    (hx : ((s.relay m).pc = .pullSample ∧ (s.relay m).source.head?.join = none ∧
        x = .pullSample m none) ∨
      ((s.relay m).pc = .isEos ∧ (s.relay m).source = [] ∧ x = .isEos m true)) :
    ((step p env (.relay m) s).terminated = false ∧
      (step p env (.relay m) s).data = s.data ∧
      (step p env (.relay m) s).trace = s.trace ++ [x] ∧
      ((step p env (.relay m) s).relay m).pc = .endOfStream) ∧
    (∀ es : List Event,
      ExitInv m x (relayTrace m s.trace) ((run p env es (step p env (.relay m) s)).relay m)
        (relayTrace m (run p env es (step p env (.relay m) s)).trace)) ∧
    (∀ k : Nat,
      (run p env (steps m (k + 2)) s).terminated = false ∧
      (run p env (steps m (k + 2)) s).data = s.data ∧
      (run p env (steps m (k + 2)) s).trace = s.trace ++ [x, .endOfStream m] ∧
      ((run p env (steps m (k + 2)) s).relay m).pc = .done) := by
  obtain ⟨h1, h2, h3, h4⟩ := relayStep_exit p env m s.data (s.relay m) x hx
  have hs1 := step_relay_own p env m hr s ht
  have hA : (step p env (.relay m) s).terminated = false ∧
      (step p env (.relay m) s).data = s.data ∧
      (step p env (.relay m) s).trace = s.trace ++ [x] ∧
      ((step p env (.relay m) s).relay m).pc = .endOfStream := by
    rw [hs1, Sys.apply_terminated, Sys.apply_data, Sys.apply_trace, Sys.apply_relay_same]
    exact ⟨h1, h2, by rw [h3], h4⟩
  have hxm : x.media = m := by
    rcases hx with ⟨_, _, rfl⟩ | ⟨_, _, rfl⟩ <;> rfl
  refine ⟨hA, fun es => ?_, fun k => ?_⟩
  · refine relay_invariant p env m (ExitInv m x (relayTrace m s.trace))
      (exitInv_step p env m x _) es _ ?_
    left
    refine ⟨hA.2.2.2, ?_⟩
    rw [hA.2.2.1, relayTrace_append, relayTrace_own m [x] (by simpa using hxm)]
  · obtain ⟨t1, d1, tr1, pc1⟩ := hA
    rw [run_steps_succ, run_steps_succ]
    have hs2 := step_relay_own p env m hr (step p env (.relay m) s) t1
    have hB : (step p env (.relay m) (step p env (.relay m) s)).terminated = false ∧
        (step p env (.relay m) (step p env (.relay m) s)).data = s.data ∧
        (step p env (.relay m) (step p env (.relay m) s)).trace =
          s.trace ++ [x, .endOfStream m] ∧
        ((step p env (.relay m) (step p env (.relay m) s)).relay m).pc = .done := by
      rw [hs2, Sys.apply_terminated, Sys.apply_data, Sys.apply_trace, Sys.apply_relay_same]
      simp [relayStep, pc1, d1, tr1]
    rw [run_steps_done p env m k _ hB.2.2.2]
    exact hB

/-- The relay of audio1 whose second pull returns a null sample: it has pushed the one
buffer, takes the null sample, signals end-of-stream and returns. -/
theorem null_sample_exits_like_eos_witness :
    (run .audio1 envOk (steps .A 2)
        (run .audio1 envOk (Event.startFeed .elfSrcA :: steps .A 11)
          (Sys.init [some (sampleA 0), none, some (sampleA 1)] []))).trace =
      (run .audio1 envOk (Event.startFeed .elfSrcA :: steps .A 11)
          (Sys.init [some (sampleA 0), none, some (sampleA 1)] [])).trace ++
        [.pullSample .A none, .endOfStream .A] :=
  ((null_sample_exits_like_eos .audio1 envOk .A (by decide)
    (run .audio1 envOk (Event.startFeed .elfSrcA :: steps .A 11)
      (Sys.init [some (sampleA 0), none, some (sampleA 1)] []))
    (by decide) (.pullSample .A none) (Or.inl ⟨by decide, by decide, rfl⟩)).2.2 0).2.2.1

/-! ## One caps assignment, from the first sample (C14) -/

theorem assignedCaps_append (m : Media) (t1 t2 : List Effect) :
    assignedCaps m (t1 ++ t2) = assignedCaps m t1 ++ assignedCaps m t2 := by
  induction t1 with
  | nil => rfl
  | cons e t ih =>
    rw [List.cons_append]
    cases e with
    | setCaps m1 c =>
      simp only [assignedCaps, ih]
      split <;> simp
    | _ => simp only [assignedCaps, ih]

theorem capsCount_eq_length (m : Media) (tr : List Effect) :
    capsCount m tr = (assignedCaps m tr).length := by
  induction tr with
  | nil => rfl
  | cons e t ih =>
    unfold capsCount at ih ⊢
    rw [List.countP_cons, ih]
    cases e with
    | setCaps m1 c =>
      simp only [assignedCaps]
      by_cases hm : m1 = m <;> simp [hm]
    | _ => simp only [assignedCaps]; rfl

theorem pulledSamples_other (m m1 : Media) (effs : List Effect)
    (h : ∀ e ∈ effs, e.media = m1) (hm : m1 ≠ m) : pulledSamples m effs = [] := by
  have h0 := pullCount_other m m1 effs h hm
  rw [pullCount_eq_length] at h0
  exact List.length_eq_zero.mp h0

theorem assignedCaps_other (m m1 : Media) (effs : List Effect)
    (h : ∀ e ∈ effs, e.media = m1) (hm : m1 ≠ m) : assignedCaps m effs = [] := by
  have h0 := capsCount_other m m1 effs h hm
  rw [capsCount_eq_length] at h0
  exact List.length_eq_zero.mp h0

/-- What a step of a relay thread adds to its pulled samples and its assigned caps. -/
theorem relayStep_pulled_assigned (p : Prog) (env : Env) (m : Media) (d : GoblinData)
    (r : Relay) :
    (r.pc ≠ .pullSample → pulledSamples m (relayStep p env m d r).effects = []) ∧
    (r.pc ≠ .setCaps → assignedCaps m (relayStep p env m d r).effects = []) ∧
    (r.pc = .setCaps →
      assignedCaps m (relayStep p env m d r).effects = (r.sample.bind fun s => s.caps).toList) ∧
    (r.pc ≠ .pullSample → r.pc ≠ .process → (relayStep p env m d r).relay.sample = r.sample) := by
  have h1 := pullCount_processSample p env m r
  have h2 := capsCount_processSample p env m r
  rw [pullCount_eq_length] at h1
  rw [capsCount_eq_length] at h2
  have h1 := List.length_eq_zero.mp h1
  have h2 := List.length_eq_zero.mp h2
  generalize ho : relayStep p env m d r = o
  cases hpc : r.pc <;> (try rw [relayStep_process _ _ _ _ _ hpc] at ho) <;>
    (try simp only [relayStep, hpc] at ho) <;> (repeat' split at ho) <;>
    subst ho <;>
    (try simp only [*, pulledSamples, assignedCaps, Option.toList_none, Option.toList_some,
      if_true, ne_eq, reduceCtorEq, not_false_eq_true, not_true_eq_false, true_implies,
      false_implies, implies_true, and_true, true_and, and_self])

theorem lastInv_step (p : Prog) (env : Env) (m : Media) (d : GoblinData) (r : Relay)
    (rt : List Effect) (h : LastInv m r rt) :
    LastInv m (relayStep p env m d r).relay (rt ++ (relayStep p env m d r).effects) := by
  obtain ⟨h1, -, -, h4⟩ := relayStep_pulled_assigned p env m d r
  unfold LastInv at h ⊢
  rw [pulledSamples_append]
  by_cases hpl : r.pc = .pullSample
  · simp only [relayStep, hpl]
    split <;> simp [Pc.holdsSample, pulledSamples]
  · by_cases hpr : r.pc = .process
    · rw [relayStep_process _ _ _ _ _ hpr]
      split <;> simp [Pc.holdsSample]
    · rw [h1 hpl, h4 hpl hpr, List.append_nil]
      intro hh
      apply h
      revert hh
      generalize ho : relayStep p env m d r = o
      cases hpc : r.pc <;> (try exact absurd hpc hpl) <;> (try exact absurd hpc hpr) <;>
        (try simp only [relayStep, hpc] at ho) <;> (repeat' split at ho) <;>
        subst ho <;> simp [Pc.holdsSample, hpc]

theorem lastInv_run (p : Prog) (env : Env) (m : Media) (srcA srcV : List (Option GstSample))
    (es : List Event) :
    LastInv m ((run p env es (Sys.init srcA srcV)).relay m)
      (relayTrace m (run p env es (Sys.init srcA srcV)).trace) := by
  refine relay_invariant p env m (LastInv m) (lastInv_step p env m) es _ ?_
  cases m <;> simp [LastInv, Sys.init, Sys.relay, Relay.init, Pc.holdsSample]

/-- A step of a relay thread keeps the caps assigned so far those of the first pulled
sample. -/
theorem firstCaps_relayStep (p : Prog) (env : Env) (m : Media) (d : GoblinData) (r : Relay)
    (pulled : List GstSample) (assigned : List GstCaps)
    (hc : CapsInv p (gateFlag p m d) r.pc pulled.length assigned.length)
    (hl : r.pc.holdsSample = true → ∃ smp, r.sample = some smp ∧ pulled.getLast? = some smp)
    (h : ∀ c ∈ assigned, ∃ smp, pulled.head? = some smp ∧ smp.caps = some c) :
    ∀ c ∈ assigned ++ assignedCaps m (relayStep p env m d r).effects,
      ∃ smp, (pulled ++ pulledSamples m (relayStep p env m d r).effects).head? = some smp ∧
        smp.caps = some c := by
  obtain ⟨h1, h2, h3, -⟩ := relayStep_pulled_assigned p env m d r
  by_cases hsc : r.pc = .setCaps
  · rw [h3 hsc, h1 (by rw [hsc]; decide), List.append_nil]
    rw [hsc] at hc
    obtain ⟨-, hnp, hnc⟩ := hc
    obtain ⟨smp, hsmp, hlast⟩ := hl (by rw [hsc]; rfl)
    have ha : assigned = [] := List.length_eq_zero.mp hnc
    obtain ⟨x, hx⟩ := List.length_eq_one.mp hnp
    rw [hx] at hlast ⊢
    simp only [List.getLast?_singleton, Option.some.injEq] at hlast
    subst hlast
    intro c hcm
    rw [ha, hsmp] at hcm
    refine ⟨x, rfl, ?_⟩
    simpa using hcm
  · rw [h2 hsc, List.append_nil]
    intro c hcm
    obtain ⟨smp, hh, hcaps⟩ := h c hcm
    refine ⟨smp, ?_, hcaps⟩
    cases pulled with
    | nil => simp at hh
    | cons a l => simpa using hh

/-- A relay thread that leaves its loop after a pull has made its caps assignment. -/
theorem capsDone_relayStep (p : Prog) (env : Env) (m : Media) (d : GoblinData) (r : Relay)
    (np nc : Nat) (hc : CapsInv p (gateFlag p m d) r.pc np nc)
    (h : (r.pc = .endOfStream ∨ r.pc = .done) → 1 ≤ np → nc = 1) :
    ((relayStep p env m d r).relay.pc = .endOfStream ∨
        (relayStep p env m d r).relay.pc = .done) →
      1 ≤ np + pullCount m (relayStep p env m d r).effects →
      nc + capsCount m (relayStep p env m d r).effects = 1 := by
  have hp1 := pullCount_processSample p env m r
  have hp2 := capsCount_processSample p env m r
  generalize ho : relayStep p env m d r = o
  unfold CapsInv at hc
  cases hg : gateFlag p m d <;> rw [hg] at hc <;>
    cases hpc : r.pc <;> rw [hpc] at hc h <;>
    simp only [Bool.false_eq_true, if_false, if_true, reduceCtorEq, false_and, and_false,
      or_self, or_true, true_or, false_implies, true_implies] at hc h <;>
    (try rw [relayStep_process _ _ _ _ _ hpc] at ho) <;>
    (try simp only [relayStep, hpc, hg, Bool.false_eq_true, if_false, if_true] at ho) <;>
    (repeat' split at ho) <;>
    subst ho <;> simp only [hp1, hp2, Nat.add_zero, reduceCtorEq, or_self, false_implies,
      or_true, true_or, true_implies] <;>
    (try simp only [pullCount, capsCount, List.countP_nil, List.countP_cons, Nat.add_zero,
      decide_True, decide_False, if_true, if_false, Nat.zero_add, Bool.false_eq_true,
      reduceCtorEq, true_and, and_true]) <;>
    first
      | exact h
      | omega
      | (intro hx; rw [hpc] at hx; simp at hx)

/-- Every event keeps `FirstCapsInv` of an existing relay thread, in a state in which
`CapsInv` and `LastInv` hold. -/
theorem firstCapsInv_step (p : Prog) (env : Env) (m : Media) (hr : hasRelay p m = true)
    (e : Event) (s : Sys)
    (hc : CapsInv p (gateFlag p m s.data) (s.relay m).pc (pullCount m s.trace)
      (capsCount m s.trace))
    (hl : LastInv m (s.relay m) (relayTrace m s.trace))
    (h : FirstCapsInv m s) : FirstCapsInv m (step p env e s) := by
  unfold step
  split
  · exact h
  · cases e with
    | relay m1 =>
      simp only
      split
      · rename_i hr1
        unfold FirstCapsInv
        rw [Sys.apply_trace, pullCount_append, capsCount_append, assignedCaps_append,
          pulledSamples_append]
        by_cases hm : m1 = m
        · subst hm
          rw [Sys.apply_relay_same]
          rw [pullCount_eq_length, capsCount_eq_length] at hc
          unfold LastInv at hl
          rw [pulledSamples_relayTrace] at hl
          refine ⟨firstCaps_relayStep p env m1 s.data (s.relay m1) _ _ hc hl h.1, ?_⟩
          rw [← pullCount_eq_length, ← capsCount_eq_length] at hc
          exact capsDone_relayStep p env m1 s.data (s.relay m1) _ _ hc h.2
        · have hmed := relayStep_media p env m1 s.data (s.relay m1)
          rw [Sys.apply_relay_other _ _ _ _ (Ne.symm hm),
            pullCount_other m m1 _ hmed hm, capsCount_other m m1 _ hmed hm,
            pulledSamples_other m m1 _ hmed hm, assignedCaps_other m m1 _ hmed hm,
            List.append_nil, List.append_nil]
          exact h
      · exact h
    | startFeed source =>
      simp only
      split <;> exact h
    | stopFeed source =>
      simp only
      split <;> exact h

theorem firstCapsInv_run (p : Prog) (env : Env) (m : Media) (hr : hasRelay p m = true)
    (srcA srcV : List (Option GstSample)) (es : List Event) :
    FirstCapsInv m (run p env es (Sys.init srcA srcV)) := by
  induction es using List.reverseRecOn with
  | nil =>
    cases m <;>
      simp [FirstCapsInv, run, Sys.init, Sys.relay, Relay.init, assignedCaps, pullCount]
  | append_singleton es e ih =>
    rw [run_append, run_cons, run_nil]
    exact firstCapsInv_step p env m hr e _ (capsInv_run p env m hr srcA srcV es)
      (lastInv_run p env m srcA srcV es) ih

/-- C14: for every relay of audio1, video3 and av1, in every state of every run: the
relay has assigned caps to its appsrc at most once, and what it has assigned are the caps
of the first sample it pulled.  Once the first iteration is over without an assertion
failure of the relay (a second sample has been pulled, or a sample has been pulled and the
thread holds none: top of the loop, or return), it has assigned caps exactly once, equal
to the caps of the first pulled sample; later samples add no assignment. -/
theorem caps_assigned_once_from_first_sample (p : Prog) (env : Env) (m : Media)
    (hr : hasRelay p m = true) (srcA srcV : List (Option GstSample)) (es : List Event) :
    (assignedCaps m (run p env es (Sys.init srcA srcV)).trace).length ≤ 1 ∧
    (∀ c ∈ assignedCaps m (run p env es (Sys.init srcA srcV)).trace,
      ∃ smp, (pulledSamples m (run p env es (Sys.init srcA srcV)).trace).head? = some smp ∧
        smp.caps = some c) ∧
    (((run p env es (Sys.init srcA srcV)).relay m).pc ≠ .failed →
      (2 ≤ pullCount m (run p env es (Sys.init srcA srcV)).trace ∨
        (1 ≤ pullCount m (run p env es (Sys.init srcA srcV)).trace ∧
          ((run p env es (Sys.init srcA srcV)).relay m).pc.holdsSample = false)) →
      ∃ smp c, (pulledSamples m (run p env es (Sys.init srcA srcV)).trace).head? = some smp ∧
        smp.caps = some c ∧
        assignedCaps m (run p env es (Sys.init srcA srcV)).trace = [c]) := by
  have hc := capsInv_run p env m hr srcA srcV es
  obtain ⟨hf1, hf2⟩ := firstCapsInv_run p env m hr srcA srcV es
  generalize run p env es (Sys.init srcA srcV) = s at hc hf1 hf2
  have hlen : capsCount m s.trace ≤ 1 := by
    unfold CapsInv at hc
    cases hpc : (s.relay m).pc <;> rw [hpc] at hc <;> simp only at hc <;>
      (try split at hc) <;> omega
  refine ⟨by rw [← capsCount_eq_length]; exact hlen, hf1, fun hnf hp => ?_⟩
  have hone : capsCount m s.trace = 1 := by
    unfold CapsInv at hc
    cases hpc : (s.relay m).pc <;> rw [hpc] at hc hf2 hp <;>
      simp only [Pc.holdsSample, reduceCtorEq, or_self, or_true, true_or, true_implies,
        Bool.true_eq_false, and_false, or_false, and_true] at hc hf2 hp <;>
      (try split at hc) <;>
      first
        | exact absurd hpc hnf
        | omega
  rw [capsCount_eq_length] at hone
  obtain ⟨c, hcl⟩ := List.length_eq_one.mp hone
  obtain ⟨smp, h1, h2⟩ := hf1 c (by rw [hcl]; exact List.mem_singleton_self c)
  exact ⟨smp, c, h1, h2, hcl⟩

/-- The relay of audio1 on two samples, run to its return: its one caps assignment has the
caps of the first pulled sample. -/
theorem caps_assigned_once_from_first_sample_witness :
    ∃ smp c,
      (pulledSamples .A (run .audio1 envOk (Event.startFeed .elfSrcA :: steps .A 18)
        (Sys.init [some (sampleA 0), some (sampleA 1)] [])).trace).head? = some smp ∧
      smp.caps = some c ∧
      assignedCaps .A (run .audio1 envOk (Event.startFeed .elfSrcA :: steps .A 18)
        (Sys.init [some (sampleA 0), some (sampleA 1)] [])).trace = [c] :=
  (caps_assigned_once_from_first_sample .audio1 envOk .A (by decide)
    [some (sampleA 0), some (sampleA 1)] []
    (Event.startFeed .elfSrcA :: steps .A 18)).2.2 (by decide) (Or.inl (by decide))

/-! ## A start that fails (C15) -/

theorem run_terminated (p : Prog) (env : Env) (es : List Event) (s : Sys)
    (ht : s.terminated = true) : run p env es s = s := by
  induction es with
  | nil => rfl
  | cons e es ih =>
    rw [run_cons]
    have : step p env e s = s := by simp [step, ht]
    rw [this, ih]

/-- In every reachable state, a relay thread at the start call finds `flagElfStarted`
false. -/
theorem setState_not_started (p : Prog) (env : Env) (m : Media) (hr : hasRelay p m = true)
    (srcA srcV : List (Option GstSample)) (es : List Event)
    (hpc : ((run p env es (Sys.init srcA srcV)).relay m).pc = .setState) :
    (run p env es (Sys.init srcA srcV)).data.flagElfStarted = false := by
  cases p
  case av1 =>
    have h := av1Inv_run env es srcA srcV
    unfold Av1Inv at h
    cases hst : (run .av1 env es (Sys.init srcA srcV)).data.flagElfStarted
    · rfl
    · have h1 := h.started_count hst
      cases m
      · have h0 := h.self.at_setState hpc
        omega
      · have h0 := h.other.at_setState hpc
        omega
  all_goals
    have h := capsInv_run _ env m hr srcA srcV es
    rw [hpc] at h
    simp only [CapsInv, reduceCtorEq, if_false] at h
    exact h.2.2.1

/-- C15: in every reachable state of audio1, video3 or av1 in which a relay thread is at the
start call `gst_element_set_state(elfPipeline, PLAYING)` (in `playElf` for av1, in the
first-sample block for audio1 and video3), `flagElfStarted` is false.  If the call returns
`GST_STATE_CHANGE_FAILURE`, the assertion throws: the process terminates with
`flagElfStarted` still false, the start call is the last effect, and no event after it
changes anything (no push, no end-of-stream call).  If it returns any other value, nothing
throws and the next step of the thread stores `flagElfStarted = true`. -/
theorem start_failure_raises (p : Prog) (env : Env) (m : Media) (hr : hasRelay p m = true)
    (srcA srcV : List (Option GstSample)) (es : List Event)
    (ht : (run p env es (Sys.init srcA srcV)).terminated = false)
    (hpc : ((run p env es (Sys.init srcA srcV)).relay m).pc = .setState) :
    (run p env es (Sys.init srcA srcV)).data.flagElfStarted = false ∧
    (env.startRet = .FAILURE →
      (step p env (.relay m) (run p env es (Sys.init srcA srcV))).terminated = true ∧
      ((step p env (.relay m) (run p env es (Sys.init srcA srcV))).relay m).pc = .failed ∧
      (step p env (.relay m) (run p env es (Sys.init srcA srcV))).data.flagElfStarted = false ∧
      (step p env (.relay m) (run p env es (Sys.init srcA srcV))).trace =
        (run p env es (Sys.init srcA srcV)).trace ++ [.setStatePlaying m .FAILURE] ∧
      ∀ es2 : List Event,
        run p env es2 (step p env (.relay m) (run p env es (Sys.init srcA srcV))) =
          step p env (.relay m) (run p env es (Sys.init srcA srcV))) ∧
    (env.startRet ≠ .FAILURE →
      (step p env (.relay m) (run p env es (Sys.init srcA srcV))).terminated = false ∧
      (step p env (.relay m) (run p env es (Sys.init srcA srcV))).trace =
        (run p env es (Sys.init srcA srcV)).trace ++ [.setStatePlaying m env.startRet] ∧
      (step p env (.relay m)
        (step p env (.relay m) (run p env es (Sys.init srcA srcV)))).terminated = false ∧
      (step p env (.relay m)
        (step p env (.relay m) (run p env es (Sys.init srcA srcV)))).data.flagElfStarted =
          true) := by
  have hns := setState_not_started p env m hr srcA srcV es hpc
  generalize run p env es (Sys.init srcA srcV) = s at ht hpc hns
  have hs1 := step_relay_own p env m hr s ht
  refine ⟨hns, fun hf => ?_, fun hf => ?_⟩
  · have hterm : (step p env (.relay m) s).terminated = true := by
      rw [hs1, Sys.apply_terminated]
      simp [relayStep, hpc, hf]
    refine ⟨hterm, ?_, ?_, ?_, fun es2 => run_terminated p env es2 _ hterm⟩
    · rw [hs1, Sys.apply_relay_same]
      simp [relayStep, hpc, hf]
    · rw [hs1, Sys.apply_data]
      simp [relayStep, hpc, hf, hns]
    · rw [hs1, Sys.apply_trace]
      simp [relayStep, hpc, hf]
  · have hterm : (step p env (.relay m) s).terminated = false := by
      rw [hs1, Sys.apply_terminated]
      simp [relayStep, hpc, hf]
    have hpc1 : ((step p env (.relay m) s).relay m).pc = .storeStarted := by
      rw [hs1, Sys.apply_relay_same]
      simp [relayStep, hpc, hf]
    have hs2 := step_relay_own p env m hr _ hterm
    refine ⟨hterm, ?_, ?_, ?_⟩
    · rw [hs1, Sys.apply_trace]
      simp [relayStep, hpc, hf]
    · rw [hs2, Sys.apply_terminated]
      simp [relayStep, hpc1]
    · rw [hs2, Sys.apply_data]
      simp [relayStep, hpc1]

/-- The relay of audio1 at its start call, with a start that fails: the process
terminates with `flagElfStarted` false. -/
theorem start_failure_raises_witness :
    (step .audio1 ⟨.FAILURE, fun _ _ => .OK⟩ (.relay .A)
      (run .audio1 ⟨.FAILURE, fun _ _ => .OK⟩ (steps .A 5)
        (Sys.init [some (sampleA 0)] []))).terminated = true ∧
    (step .audio1 ⟨.FAILURE, fun _ _ => .OK⟩ (.relay .A)
      (run .audio1 ⟨.FAILURE, fun _ _ => .OK⟩ (steps .A 5)
        (Sys.init [some (sampleA 0)] []))).data.flagElfStarted = false :=
  have h := (start_failure_raises .audio1 ⟨.FAILURE, fun _ _ => .OK⟩ .A (by decide)
    [some (sampleA 0)] [] (steps .A 5) (by decide) (by decide)).2.1 rfl
  ⟨h.1, h.2.2.1⟩

/-! ## The callbacks and the run flags (C16, C17) -/

/-- C16: in audio1 and video3 (`singleProg m` with its run flag `flagRun m`) and in video2,
for every prior value of the run flag and every `source`: `startFeed` does not fail and
gives the state with the run flag true and every other field as before, `stopFeed` the
state with the run flag false and every other field as before (in particular
`flagElfStarted`, the format flags, the mutex and the other run flag are unchanged), and
calling a callback twice gives the same state as calling it once. -/
theorem run_flag_callbacks (m : Media) (source source1 : GstElement) (d : GoblinData)
    (src src1 size size1 : Nat) (v : Video2.GoblinData) :
    (startFeed (singleProg m) source d = some (d.setFlagRun m true) ∧
      stopFeed (singleProg m) source d = some (d.setFlagRun m false)) ∧
    (∀ b : Bool, (d.setFlagRun m b).flagRun m = b ∧
      (d.setFlagRun m b).flagRun m.other = d.flagRun m.other ∧
      (d.setFlagRun m b).flagElfStarted = d.flagElfStarted ∧
      (d.setFlagRun m b).flagInitA = d.flagInitA ∧
      (d.setFlagRun m b).flagInitV = d.flagInitV ∧
      (d.setFlagRun m b).mutexElfStart = d.mutexElfStart) ∧
    ((startFeed (singleProg m) source d).bind (startFeed (singleProg m) source1) =
        startFeed (singleProg m) source d ∧
      (stopFeed (singleProg m) source d).bind (stopFeed (singleProg m) source1) =
        stopFeed (singleProg m) source d) ∧
    (Video2.startFeed src size v = { v with flagRunV := true } ∧
      Video2.stopFeed src v = { v with flagRunV := false } ∧
      Video2.startFeed src1 size1 (Video2.startFeed src size v) = Video2.startFeed src size v ∧
      Video2.stopFeed src1 (Video2.stopFeed src v) = Video2.stopFeed src v) := by
  obtain ⟨rv, ra, st, ia, iv, mu⟩ := d
  obtain ⟨pl, sv, fn, fr⟩ := v
  refine ⟨?_, ?_, ?_, ?_⟩
  · cases m <;> cases rv <;> cases ra <;>
      simp [startFeed, stopFeed, singleProg, GoblinData.setFlagRun]
  · intro b
    cases m <;> simp [GoblinData.setFlagRun, GoblinData.flagRun, Media.other]
  · cases m <;> cases rv <;> cases ra <;>
      simp [startFeed, stopFeed, singleProg]
  · cases fr <;> simp [Video2.startFeed, Video2.stopFeed]

/-- C17: in av1, `startFeed` and `stopFeed` called with `elfSrcV` set `flagRunV` (to true,
respectively false) and leave every other field as it is, `flagRunA` included; called
with `elfSrcA` they set `flagRunA` and leave every other field as it is, `flagRunV`
included; called with any other source the assertion fails: the callback gives no new
state, and the process terminates with the flags unchanged.  A callback that returns has
not changed `flagInitA`, `flagInitV` or `flagElfStarted`. -/
theorem av1_callbacks_one_media (env : Env) (source : GstElement) (d : GoblinData)
    (s : Sys) :
    (startFeed .av1 .elfSrcV d = some (d.setFlagRun .V true) ∧
      stopFeed .av1 .elfSrcV d = some (d.setFlagRun .V false) ∧
      startFeed .av1 .elfSrcA d = some (d.setFlagRun .A true) ∧
      stopFeed .av1 .elfSrcA d = some (d.setFlagRun .A false)) ∧
    (∀ b : Bool, (d.setFlagRun .V b).flagRunV = b ∧ (d.setFlagRun .V b).flagRunA = d.flagRunA ∧
      (d.setFlagRun .A b).flagRunA = b ∧ (d.setFlagRun .A b).flagRunV = d.flagRunV) ∧
    (source ≠ .elfSrcV → source ≠ .elfSrcA →
      startFeed .av1 source d = none ∧ stopFeed .av1 source d = none ∧
      (s.terminated = false →
        step .av1 env (.startFeed source) s = { s with terminated := true } ∧
        step .av1 env (.stopFeed source) s = { s with terminated := true })) ∧
    (∀ d1 : GoblinData, startFeed .av1 source d = some d1 ∨ stopFeed .av1 source d = some d1 →
      d1.flagInitA = d.flagInitA ∧ d1.flagInitV = d.flagInitV ∧
      d1.flagElfStarted = d.flagElfStarted ∧ d1.mutexElfStart = d.mutexElfStart) := by
  refine ⟨?_, ?_, ?_, ?_⟩
  · obtain ⟨rv, ra, st, ia, iv, mu⟩ := d
    cases rv <;> cases ra <;> simp [startFeed, stopFeed, GoblinData.setFlagRun]
  · intro b
    simp [GoblinData.setFlagRun]
  · intro hV hA
    have h1 : startFeed .av1 source d = none := by simp [startFeed, hV, hA]
    have h2 : stopFeed .av1 source d = none := by simp [stopFeed, hV, hA]
    refine ⟨h1, h2, fun ht => ?_⟩
    simp [step, ht, startFeed, stopFeed, hV, hA]
  · intro d1 h
    rcases h with h | h
    · obtain ⟨h1, h2, h3, h4⟩ := startFeed_frame _ _ _ _ h
      exact ⟨h3, h4, h2, h1⟩
    · obtain ⟨h1, h2, h3, h4⟩ := stopFeed_frame _ _ _ _ h
      exact ⟨h3, h4, h2, h1⟩

/-- The callback `startFeed` of av1 called with the appsink of the capture pipeline: the
assertion fails. -/
theorem av1_callbacks_one_media_witness :
    startFeed .av1 .goblinSinkA GoblinData.init = none ∧
    stopFeed .av1 .goblinSinkA GoblinData.init = none :=
  have h := (av1_callbacks_one_media envOk .goblinSinkA GoblinData.init
    (Sys.init [] [])).2.2.1 (by decide) (by decide)
  ⟨h.1, h.2.1⟩

/-! ## Who changes the FlowGate value (C18) -/

/-- C18, as stated, fails: in audio1 the relay thread itself takes the FlowGate value from
PRIMING to PAUSED.  After six steps the pipeline has been started and the value is still
PRIMING; the seventh step of the relay, the store `flagElfStarted = true`, makes it PAUSED,
and no callback has run. -/
theorem relay_step_leaves_priming :
    specFlowGate (run .audio1 envOk (steps .A 6) (Sys.init [some (sampleA 0)] [])).data .A =
      .PRIMING ∧
    specFlowGate (step .audio1 envOk (.relay .A)
      (run .audio1 envOk (steps .A 6) (Sys.init [some (sampleA 0)] []))).data .A = .PAUSED := by
  decide

/-- C18, amended: no step of a relay loop of audio1, video3 or av1 changes a run flag, and
the only change a relay step makes to the FlowGate value of a media type is from PRIMING
to RUNNING or PAUSED, by the store `flagElfStarted = true` that follows the start of the
playback pipeline.  A relay step never takes the value back to PRIMING and never changes
it between RUNNING and PAUSED. -/
theorem relay_changes_gate_only_at_start (p : Prog) (env : Env) (m m1 : Media)
    (d : GoblinData) (r : Relay) :
    (relayStep p env m1 d r).data.flagRun m = d.flagRun m ∧
    (specFlowGate (relayStep p env m1 d r).data m = specFlowGate d m ∨
      (r.pc = .storeStarted ∧ specFlowGate d m = .PRIMING ∧
        specFlowGate (relayStep p env m1 d r).data m =
          (if d.flagRun m then .RUNNING else .PAUSED))) := by
  have hrun := flagRun_relayStep p env m m1 d r
  refine ⟨hrun, ?_⟩
  unfold specFlowGate
  rw [hrun]
  by_cases hpc : r.pc = .storeStarted
  · cases hst : d.flagElfStarted
    · right
      simp [relayStep, hpc]
    · left
      simp [relayStep, hpc]
  · left
    have hsame : (relayStep p env m1 d r).data.flagElfStarted = d.flagElfStarted := by
      generalize ho : relayStep p env m1 d r = o
      cases hpc1 : r.pc <;> (try exact absurd hpc1 hpc) <;>
        (try rw [relayStep_process _ _ _ _ _ hpc1] at ho) <;>
        (try simp only [relayStep, hpc1] at ho) <;> (repeat' split at ho) <;>
        subst ho <;> first | rfl | (cases m1 <;> rfl)
    rw [hsame]

/-! ## The bus thread stops at end-of-stream (C19) -/

theorem codeThreadBus_returned_true (pipeline : GstElement) (pre : List GstMessage)
    (hpre : ∀ msg ∈ pre, busProcessMsg pipeline msg = .returned true)
    (rest : List (Option GstMessage)) :
    codeThreadBus pipeline (pre.map some ++ rest) =
      ⟨pre ++ (codeThreadBus pipeline rest).processed, (codeThreadBus pipeline rest).result⟩ := by
  induction pre with
  | nil => rfl
  | cons a l ih =>
    have ha := hpre a (List.mem_cons_self a l)
    have hl := ih (fun msg hm => hpre msg (List.mem_cons_of_mem a hm))
    rw [List.map_cons, List.cons_append, codeThreadBus, ha]
    simp only [hl, List.cons_append]

/-- C19: `busProcessMsg` returns false exactly for a `GST_MESSAGE_EOS` message, ends the
process exactly for a `GST_MESSAGE_ERROR` message, then with exit status 1, and returns
true for every other message type.  So `codeThreadBus`, given messages none of which is an
ERROR: processes the messages before the first EOS and that EOS, none after it, and
returns; and if there is no EOS it processes all of them and goes on waiting. -/
theorem bus_thread_stops_at_eos (pipeline : GstElement) (msg : GstMessage) :
    (busProcessMsg pipeline msg = .returned false ↔ msg.mType = .GST_MESSAGE_EOS) ∧
    ((∃ status, busProcessMsg pipeline msg = .exit status) ↔
      msg.mType = .GST_MESSAGE_ERROR) ∧
    (busProcessMsg pipeline msg = .exit 1 ↔ msg.mType = .GST_MESSAGE_ERROR) ∧
    (msg.mType ≠ .GST_MESSAGE_EOS → msg.mType ≠ .GST_MESSAGE_ERROR →
      busProcessMsg pipeline msg = .returned true) ∧
    (∀ (pre : List GstMessage) (eos : GstMessage) (post : List (Option GstMessage)),
      (∀ x ∈ pre, x.mType ≠ .GST_MESSAGE_EOS ∧ x.mType ≠ .GST_MESSAGE_ERROR) →
      eos.mType = .GST_MESSAGE_EOS →
      codeThreadBus pipeline (pre.map some ++ some eos :: post) =
        ⟨pre ++ [eos], .finished⟩) ∧
    (∀ msgs : List GstMessage,
      (∀ x ∈ msgs, x.mType ≠ .GST_MESSAGE_EOS ∧ x.mType ≠ .GST_MESSAGE_ERROR) →
      codeThreadBus pipeline (msgs.map some) = ⟨msgs, .waiting⟩) := by
  have htrue : ∀ x : GstMessage, x.mType ≠ .GST_MESSAGE_EOS → x.mType ≠ .GST_MESSAGE_ERROR →
      busProcessMsg pipeline x = .returned true := by
    intro x h1 h2
    unfold busProcessMsg
    cases hx : x.mType <;> simp_all
  refine ⟨?_, ?_, ?_, htrue msg, ?_, ?_⟩
  · unfold busProcessMsg
    cases hx : msg.mType <;> simp
  · unfold busProcessMsg
    cases hx : msg.mType <;> simp
  · unfold busProcessMsg
    cases hx : msg.mType <;> simp
  · intro pre eos post hpre heos
    rw [codeThreadBus_returned_true pipeline pre (fun x hx => htrue x (hpre x hx).1 (hpre x hx).2)]
    simp [codeThreadBus, busProcessMsg, heos]
  · intro msgs hm
    have h := codeThreadBus_returned_true pipeline msgs
      (fun x hx => htrue x (hm x hx).1 (hm x hx).2) []
    simpa [codeThreadBus] using h

/-- A bus with a state change, the end-of-stream message and an element message after it:
the thread processes the first two and returns. -/
theorem bus_thread_stops_at_eos_witness :
    codeThreadBus .elfPipeline
      ([⟨.GST_MESSAGE_STATE_CHANGED, .elfPipeline⟩].map some ++
        some ⟨.GST_MESSAGE_EOS, .elfPipeline⟩ :: [some ⟨.GST_MESSAGE_ELEMENT, .elfSrcA⟩]) =
      ⟨[⟨.GST_MESSAGE_STATE_CHANGED, .elfPipeline⟩] ++ [⟨.GST_MESSAGE_EOS, .elfPipeline⟩],
        .finished⟩ :=
  (bus_thread_stops_at_eos .elfPipeline ⟨.GST_MESSAGE_EOS, .elfPipeline⟩).2.2.2.2.1
    [⟨.GST_MESSAGE_STATE_CHANGED, .elfPipeline⟩] ⟨.GST_MESSAGE_EOS, .elfPipeline⟩
    [some ⟨.GST_MESSAGE_ELEMENT, .elfSrcA⟩] (by decide) rfl

/-! ## One release for every pulled sample (C20) -/

theorem unrefCount_append (m : Media) (t1 t2 : List Effect) :
    unrefCount m (t1 ++ t2) = unrefCount m t1 + unrefCount m t2 := by
  simp [unrefCount]

theorem unrefCount_processSample (p : Prog) (env : Env) (m : Media) (r : Relay)
    (h : (processSample p env m r).2 = true) :
    unrefCount m (processSample p env m r).1 = if releasesSample p m then 1 else 0 := by
  unfold processSample at h ⊢
  cases hs : r.sample with
  | none => simp [hs] at h
  | some sample =>
    rw [hs] at h
    cases m <;> cases p <;> simp only at h ⊢ <;> (repeat' split at h) <;>
      (try rw [if_neg (by assumption), if_neg (by assumption)]) <;>
      simp_all [unrefCount, releasesSample]

theorem unrefCount_relayStep (p : Prog) (env : Env) (m : Media) (d : GoblinData) (r : Relay)
    (h : r.pc ≠ .process) : unrefCount m (relayStep p env m d r).effects = 0 := by
  generalize ho : relayStep p env m d r = o
  cases hpc : r.pc <;> (try exact absurd hpc h) <;>
    (try simp only [relayStep, hpc] at ho) <;> (repeat' split at ho) <;>
    subst ho <;> simp [unrefCount]

theorem unrefInv_step (p : Prog) (env : Env) (m : Media) (d : GoblinData) (r : Relay)
    (rt : List Effect) (h : UnrefInv p m r rt) :
    UnrefInv p m (relayStep p env m d r).relay (rt ++ (relayStep p env m d r).effects) := by
  unfold UnrefInv at h ⊢
  rw [unrefCount_append, pushCount_append]
  by_cases hpr : r.pc = .process
  · rw [relayStep_process _ _ _ _ _ hpr]
    split
    · rename_i hok
      intro _
      have h0 := h (by rw [hpr]; decide)
      simp only
      rw [unrefCount_processSample p env m r hok, pushCount_processSample, if_pos hok, h0]
      split <;> rfl
    · intro hf
      exact absurd rfl hf
  · rw [unrefCount_relayStep p env m d r hpr, pushCount_relayStep p env m d r hpr]
    intro hf
    have hne : r.pc ≠ .failed := by
      intro hfl
      apply hf
      simp [relayStep, hfl]
    simpa using h hne

/-- A relay thread that holds no sample and has raised no assertion error has pushed as
many buffers as it has pulled samples. -/
theorem pushCount_eq_pullCount (p : Prog) (env : Env) (m : Media)
    (srcA srcV : List (Option GstSample)) (es : List Event)
    (hf : ((run p env es (Sys.init srcA srcV)).relay m).pc ≠ .failed)
    (hh : ((run p env es (Sys.init srcA srcV)).relay m).pc.holdsSample = false) :
    pushCount m (run p env es (Sys.init srcA srcV)).trace =
      pullCount m (run p env es (Sys.init srcA srcV)).trace := by
  obtain ⟨h1, h2, _⟩ := pushed_pulled p env m srcA srcV es hf
  have hlen := congrArg List.length h1
  rw [h2 hh] at hlen
  rw [pullCount_eq_length]
  unfold pushCount
  simpa using hlen

theorem unrefCount_relayTrace (m : Media) (tr : List Effect) :
    unrefCount m (relayTrace m tr) = unrefCount m tr := by
  induction tr with
  | nil => rfl
  | cons e t ih =>
    unfold relayTrace unrefCount at ih ⊢
    rw [List.filter_cons]
    by_cases hm : e.media = m
    · rw [if_pos (by simpa using hm), List.countP_cons, List.countP_cons, ih]
    · rw [if_neg (by simpa using hm), List.countP_cons, ih]
      cases e <;> simp_all [Effect.media]

theorem pushCount_relayTrace (m : Media) (tr : List Effect) :
    pushCount m (relayTrace m tr) = pushCount m tr := by
  unfold pushCount
  rw [pushedBuffers_relayTrace]

theorem unrefInv_run (p : Prog) (env : Env) (m : Media) (srcA srcV : List (Option GstSample))
    (es : List Event) :
    UnrefInv p m ((run p env es (Sys.init srcA srcV)).relay m)
      (run p env es (Sys.init srcA srcV)).trace := by
  have h := relay_invariant p env m (UnrefInv p m) (unrefInv_step p env m) es
    (Sys.init srcA srcV)
    (by cases m <;> simp [UnrefInv, Sys.init, relayTrace, unrefCount, pushCount, pushedBuffers])
  unfold UnrefInv at h ⊢
  rw [unrefCount_relayTrace, pushCount_relayTrace] at h
  exact h

/-- The video relay of av1 never calls `gst_sample_unref`. -/
theorem unrefCount_av1_video (env : Env) (srcA srcV : List (Option GstSample))
    (es : List Event) : unrefCount .V (run .av1 env es (Sys.init srcA srcV)).trace = 0 := by
  have hstep : ∀ (d : GoblinData) (r : Relay),
      unrefCount .V (relayStep .av1 env .V d r).effects = 0 := by
    intro d r
    by_cases hpr : r.pc = .process
    · rw [relayStep_process _ _ _ _ _ hpr]
      unfold processSample
      cases r.sample with
      | none => split <;> simp [unrefCount]
      | some sample => simp only; (repeat' split) <;> simp_all [unrefCount]
    · exact unrefCount_relayStep .av1 env .V d r hpr
  have h := relay_invariant .av1 env .V (fun _ rt => unrefCount .V rt = 0)
    (fun d r rt hrt => by
      simp only at hrt ⊢
      rw [unrefCount_append, hrt, hstep]) es (Sys.init srcA srcV)
    (by simp [Sys.init, relayTrace, unrefCount])
  simp only at h
  rw [unrefCount_relayTrace] at h
  exact h

/-- C20 fails in av1: av1 with one audio sample and one video frame, both relays run to
their return.  No assertion has failed; the audio relay has pulled one sample and
released one; the video relay has pulled one sample, pushed one buffer and released
nothing.  And so in every run of av1: the video relay never calls `gst_sample_unref`.
The other loops (audio1, video3, the audio relay of av1) release one sample for every
buffer they push, so at the top of an iteration and at return as many as they have
pulled. -/
theorem av1_video_sample_not_released :
    (((run .av1 envOk releaseSchedule (Sys.init [some (sampleA 0)] [some (sampleV 0)])).relay
          .V).pc = .done ∧
      ((run .av1 envOk releaseSchedule (Sys.init [some (sampleA 0)] [some (sampleV 0)])).relay
          .A).pc = .done ∧
      (run .av1 envOk releaseSchedule
          (Sys.init [some (sampleA 0)] [some (sampleV 0)])).terminated = false ∧
      pullCount .A (run .av1 envOk releaseSchedule
          (Sys.init [some (sampleA 0)] [some (sampleV 0)])).trace = 1 ∧
      unrefCount .A (run .av1 envOk releaseSchedule
          (Sys.init [some (sampleA 0)] [some (sampleV 0)])).trace = 1 ∧
      pullCount .V (run .av1 envOk releaseSchedule
          (Sys.init [some (sampleA 0)] [some (sampleV 0)])).trace = 1 ∧
      pushCount .V (run .av1 envOk releaseSchedule
          (Sys.init [some (sampleA 0)] [some (sampleV 0)])).trace = 1 ∧
      unrefCount .V (run .av1 envOk releaseSchedule
          (Sys.init [some (sampleA 0)] [some (sampleV 0)])).trace = 0) ∧
    (∀ (env : Env) (srcA srcV : List (Option GstSample)) (es : List Event),
      unrefCount .V (run .av1 env es (Sys.init srcA srcV)).trace = 0) ∧
    (∀ (p : Prog) (m : Media) (env : Env) (srcA srcV : List (Option GstSample))
      (es : List Event), releasesSample p m = true →
      ((run p env es (Sys.init srcA srcV)).relay m).pc ≠ .failed →
      unrefCount m (run p env es (Sys.init srcA srcV)).trace =
          pushCount m (run p env es (Sys.init srcA srcV)).trace ∧
        (((run p env es (Sys.init srcA srcV)).relay m).pc.holdsSample = false →
          unrefCount m (run p env es (Sys.init srcA srcV)).trace =
            pullCount m (run p env es (Sys.init srcA srcV)).trace)) := by
  refine ⟨by decide, unrefCount_av1_video, fun p m env srcA srcV es hrel hf => ?_⟩
  · have h := unrefInv_run p env m srcA srcV es hf
    rw [hrel, if_pos rfl] at h
    refine ⟨h, fun hh => ?_⟩
    rw [h]
    exact pushCount_eq_pullCount p env m srcA srcV es hf hh

/-- The relay of audio1 on two samples, run to its return: two samples pulled, two
released. -/
theorem av1_video_sample_not_released_witness :
    unrefCount .A (run .audio1 envOk (Event.startFeed .elfSrcA :: steps .A 18)
        (Sys.init [some (sampleA 0), some (sampleA 1)] [])).trace =
      pullCount .A (run .audio1 envOk (Event.startFeed .elfSrcA :: steps .A 18)
        (Sys.init [some (sampleA 0), some (sampleA 1)] [])).trace :=
  (av1_video_sample_not_released.2.2 .audio1 .A envOk [some (sampleA 0), some (sampleA 1)] []
    (Event.startFeed .elfSrcA :: steps .A 18) rfl (by decide)).2 (by decide)

/-! ## The format flags only ever become true (C21) -/

/-- Every event keeps a format flag or `flagElfStarted` that is true. -/
theorem step_flags_mono (p : Prog) (env : Env) (e : Event) (s : Sys) :
    (s.data.flagInitA = true → (step p env e s).data.flagInitA = true) ∧
    (s.data.flagInitV = true → (step p env e s).data.flagInitV = true) ∧
    (s.data.flagElfStarted = true → (step p env e s).data.flagElfStarted = true) := by
  unfold step
  split
  · exact ⟨id, id, id⟩
  · cases e with
    | relay m =>
      simp only
      split
      · rw [Sys.apply_data]
        obtain ⟨-, -, h3, h4, h5⟩ := relayStep_flags p env m s.data (s.relay m)
        exact ⟨h4, h5, h3⟩
      · exact ⟨id, id, id⟩
    | startFeed source =>
      simp only
      split
      · rename_i d1 hd
        obtain ⟨-, h2, h3, h4⟩ := startFeed_frame _ _ _ _ hd
        simp only [h2, h3, h4]
        exact ⟨id, id, id⟩
      · exact ⟨id, id, id⟩
    | stopFeed source =>
      simp only
      split
      · rename_i d1 hd
        obtain ⟨-, h2, h3, h4⟩ := stopFeed_frame _ _ _ _ hd
        simp only [h2, h3, h4]
        exact ⟨id, id, id⟩
      · exact ⟨id, id, id⟩

theorem run_flags_mono (p : Prog) (env : Env) (es : List Event) (s : Sys) :
    (s.data.flagInitA = true → (run p env es s).data.flagInitA = true) ∧
    (s.data.flagInitV = true → (run p env es s).data.flagInitV = true) ∧
    (s.data.flagElfStarted = true → (run p env es s).data.flagElfStarted = true) :=
  run_invariant p env
    (fun t => (s.data.flagInitA = true → t.data.flagInitA = true) ∧
      (s.data.flagInitV = true → t.data.flagInitV = true) ∧
      (s.data.flagElfStarted = true → t.data.flagElfStarted = true))
    (fun e t ht =>
      ⟨fun h => (step_flags_mono p env e t).1 (ht.1 h),
        fun h => (step_flags_mono p env e t).2.1 (ht.2.1 h),
        fun h => (step_flags_mono p env e t).2.2 (ht.2.2 h)⟩)
    es s ⟨id, id, id⟩

/-- A step of a relay thread of av1 leaves its format flag as it is or makes it true. -/
theorem flagInit_relayStep_own (env : Env) (m : Media) (d : GoblinData) (r : Relay) :
    (relayStep .av1 env m d r).data.flagInit m = d.flagInit m ∨
      ((relayStep .av1 env m d r).data.flagInit m = true ∧ r.pc = .storeInit ∧
        (relayStep .av1 env m d r).data = d.setFlagInit m true) := by
  by_cases hpc : r.pc = .storeInit
  · right
    cases m <;> simp [relayStep, hpc, GoblinData.setFlagInit, GoblinData.flagInit]
  · left
    generalize ho : relayStep .av1 env m d r = o
    cases hpc1 : r.pc <;> (try exact absurd hpc1 hpc) <;>
      (try rw [relayStep_process _ _ _ _ _ hpc1] at ho) <;>
      (try simp only [relayStep, hpc1] at ho) <;> (repeat' split at ho) <;>
      subst ho <;> rfl

/-- C21: in av1, reporting format readiness is idempotent and monotone.  A step of a relay
thread leaves its format flag as it is or stores true into it (the step `storeInit`, which
writes nothing else), and never writes the format flag of the other media type; storing
true twice is the same as storing it once; and in every run each of `flagInitA`,
`flagInitV` and `flagElfStarted`, once true, is true in every later state. -/
theorem format_flags_monotone (env : Env) (m : Media) (d : GoblinData) (r : Relay)
    (es es2 : List Event) (s : Sys) :
    ((relayStep .av1 env m d r).data.flagInit m = d.flagInit m ∨
      ((relayStep .av1 env m d r).data.flagInit m = true ∧ r.pc = .storeInit ∧
        (relayStep .av1 env m d r).data = d.setFlagInit m true)) ∧
    (relayStep .av1 env m d r).data.flagInit m.other = d.flagInit m.other ∧
    ((d.setFlagInit m true).flagInit m = true ∧
      (d.setFlagInit m true).flagInit m.other = d.flagInit m.other ∧
      (d.setFlagInit m true).flagElfStarted = d.flagElfStarted ∧
      (d.setFlagInit m true).setFlagInit m true = d.setFlagInit m true) ∧
    ((run .av1 env es s).data.flagInitA = true →
      (run .av1 env (es ++ es2) s).data.flagInitA = true) ∧
    ((run .av1 env es s).data.flagInitV = true →
      (run .av1 env (es ++ es2) s).data.flagInitV = true) ∧
    ((run .av1 env es s).data.flagElfStarted = true →
      (run .av1 env (es ++ es2) s).data.flagElfStarted = true) := by
  have hmono := run_flags_mono .av1 env es2 (run .av1 env es s)
  rw [run_append]
  refine ⟨flagInit_relayStep_own env m d r, ?_, ?_, hmono.1, hmono.2.1, hmono.2.2⟩
  · exact flagInit_relayStep_other .av1 env m.other m d r (by cases m <;> decide)
  · cases m <;> simp [GoblinData.setFlagInit, GoblinData.flagInit, Media.other]

/-- The audio relay of av1 has reported after 6 steps, and the flag is still set after the
video relay has run and a `stopFeed` has arrived. -/
theorem format_flags_monotone_witness :
    (run .av1 envOk (steps .A 6 ++ (steps .V 16 ++ [Event.stopFeed .elfSrcA]))
      (Sys.init [some (sampleA 0)] [some (sampleV 0)])).data.flagInitA = true :=
  (format_flags_monotone envOk .A GoblinData.init (Relay.init []) (steps .A 6)
    (steps .V 16 ++ [Event.stopFeed .elfSrcA])
    (Sys.init [some (sampleA 0)] [some (sampleV 0)])).2.2.2.1 (by decide)

/-! ## Bytes of the video transform -/

theorem negateMiddle_length (imW imH : Nat) (frame : List Nat) :
    (negateMiddle imW imH frame).length = frame.length := by
  simp [negateMiddle, List.enum_length]

theorem negateMiddle_getElem? (imW imH : Nat) (frame : List Nat) (i : Nat) :
    (negateMiddle imW imH frame)[i]? =
      frame[i]?.map fun b =>
        if inRect imW imH ((i / 3) % imW) ((i / 3) / imW) then bitwise_not b else b := by
  unfold negateMiddle
  rw [List.getElem?_map, List.getElem?_enum]
  cases frame[i]? <;> rfl

theorem Memory.read_alloc_new (mem : Memory) (bytes : List Nat) :
    (mem.alloc bytes).1.read (mem.alloc bytes).2 = bytes := by
  simp [Memory.alloc, Memory.read, List.getD_eq_getElem?_getD]

theorem Memory.read_alloc_old (mem : Memory) (bytes : List Nat) (a : Nat)
    (h : a < mem.arrays.length) : (mem.alloc bytes).1.read a = mem.read a := by
  simp [Memory.alloc, Memory.read, List.getD_eq_getElem?_getD, List.getElem?_append_left h]

theorem Memory.read_write_same (mem : Memory) (a : Nat) (bytes : List Nat)
    (h : a < mem.arrays.length) : (mem.write a bytes).read a = bytes := by
  simp [Memory.write, Memory.read, List.getD_eq_getElem?_getD, h]

theorem Memory.read_write_other (mem : Memory) (a b : Nat) (bytes : List Nat) (h : a ≠ b) :
    (mem.write a bytes).read b = mem.read b := by
  simp [Memory.write, Memory.read, List.getD_eq_getElem?_getD, List.getElem?_set_ne h]

theorem Memory.alloc_grows (mem : Memory) (bytes : List Nat) :
    (mem.alloc bytes).1.arrays.length = mem.arrays.length + 1 ∧
      (mem.alloc bytes).2 = mem.arrays.length := by
  simp [Memory.alloc]

theorem Memory.write_length (mem : Memory) (a : Nat) (bytes : List Nat) :
    (mem.write a bytes).arrays.length = mem.arrays.length := by
  simp [Memory.write]

/-- The video transform on memory: no array that existed before is written (in
particular not the mapped input), and the output buffer has the `imW * imH * 3` bytes
that were allocated for it, filled from the negated clone. -/
theorem videoTransform_memory (imW imH : Nat) (mem : Memory) (mapIn : Nat) :
    (∀ a, a < mem.arrays.length → (videoTransform imW imH mem mapIn).1.read a = mem.read a) ∧
    (videoTransform imW imH mem mapIn).2.data =
      memcpy (gst_buffer_new_and_alloc (imW * imH * 3)).data
        (negateMiddle imW imH ((mem.read mapIn).take (imH * imW * 3))) (imW * imH * 3) ∧
    (videoTransform imW imH mem mapIn).2.pts = GST_CLOCK_TIME_NONE ∧
    (videoTransform imW imH mem mapIn).2.duration = GST_CLOCK_TIME_NONE := by
  refine ⟨?_, ?_, rfl, rfl⟩
  · intro a ha
    simp only [videoTransform, Mat.clone, Memory.alloc, Memory.write, Memory.read,
      List.getD_eq_getElem?_getD]
    have h1 : a ≠ mem.arrays.length := by omega
    have h2 : a ≠ mem.arrays.length + 1 := by omega
    simp [List.getElem?_set, List.getElem?_append_left ha, h1.symm, h2.symm]
  · simp only [videoTransform, Mat.clone, Memory.alloc, Memory.write, Memory.read,
      List.getD_eq_getElem?_getD]
    simp [List.getElem?_set, List.getElem?_append]
    simp [List.getElem_append_right]

/-- The output buffer of the video relay has the `imW * imH * 3` bytes that were
allocated for it. -/
theorem videoBufferOut_length (imW imH : Nat) (bufferIn : GstBuffer) :
    (videoBufferOut imW imH bufferIn).data.length = imW * imH * 3 := by
  have h := (videoTransform_memory imW imH (Memory.alloc ⟨[]⟩ bufferIn.data).1
    (Memory.alloc ⟨[]⟩ bufferIn.data).2).2.1
  have hd : (videoBufferOut imW imH bufferIn).data =
      (videoTransform imW imH (Memory.alloc ⟨[]⟩ bufferIn.data).1
        (Memory.alloc ⟨[]⟩ bufferIn.data).2).2.data := rfl
  rw [hd, h, memcpy_length, alloc_length]

/-- On a frame of `imW * imH * 3` bytes the output bytes are the negated-middle frame. -/
theorem videoBufferOut_data (imW imH : Nat) (bufferIn : GstBuffer)
    (hlen : bufferIn.data.length = imW * imH * 3) :
    (videoBufferOut imW imH bufferIn).data = negateMiddle imW imH bufferIn.data := by
  have h := (videoTransform_memory imW imH (Memory.alloc ⟨[]⟩ bufferIn.data).1
    (Memory.alloc ⟨[]⟩ bufferIn.data).2).2.1
  have hd : (videoBufferOut imW imH bufferIn).data =
      (videoTransform imW imH (Memory.alloc ⟨[]⟩ bufferIn.data).1
        (Memory.alloc ⟨[]⟩ bufferIn.data).2).2.data := rfl
  have h1 : bufferIn.data.take (imH * imW * 3) = bufferIn.data := by
    rw [Nat.mul_comm imH imW, ← hlen]; exact List.take_length _
  have h2 := memcpy_full (negateMiddle imW imH bufferIn.data)
  rw [negateMiddle_length, hlen] at h2
  rw [hd, h, Memory.read_alloc_new, h1]
  exact h2

theorem inRect_iff (imW imH x y : Nat) :
    inRect imW imH x y = true ↔
      imW / 3 ≤ x ∧ x < 2 * (imW / 3) ∧ imH / 3 ≤ y ∧ y < 2 * (imH / 3) := by
  simp only [inRect, Bool.and_eq_true, decide_eq_true_eq]
  omega

theorem pixel_index (imW x y c : Nat) (hx : x < imW) (hc : c < 3) :
    ((y * imW + x) * 3 + c) / 3 % imW = x ∧ ((y * imW + x) * 3 + c) / 3 / imW = y := by
  have h1 : ((y * imW + x) * 3 + c) / 3 = y * imW + x := by omega
  rw [h1]
  have hpos : 0 < imW := by omega
  constructor
  · rw [Nat.add_comm, Nat.add_mul_mod_self_right, Nat.mod_eq_of_lt hx]
  · rw [Nat.add_comm, Nat.add_mul_div_right _ _ hpos, Nat.div_eq_of_lt hx, Nat.zero_add]

theorem bitwise_not_byte (b : Nat) (hb : b < 256) : bitwise_not b = 255 - b := by
  unfold bitwise_not
  rw [Nat.mod_eq_of_lt hb]

theorem bitwise_not_lt (b : Nat) : bitwise_not b < 256 := by
  unfold bitwise_not
  omega

theorem bitwise_not_involutive (b : Nat) (hb : b < 256) : bitwise_not (bitwise_not b) = b := by
  unfold bitwise_not
  omega

theorem negateMiddle_involutive (imW imH : Nat) (frame : List Nat)
    (hb : ∀ b ∈ frame, b < 256) :
    negateMiddle imW imH (negateMiddle imW imH frame) = frame := by
  apply List.ext_getElem?
  intro i
  rw [negateMiddle_getElem?, negateMiddle_getElem?]
  cases hi : frame[i]? with
  | none => rfl
  | some b =>
    have hbb : b < 256 := hb b (List.getElem?_mem hi)
    simp only [Option.map_some']
    split
    · rw [bitwise_not_involutive b hbb]
    · rfl

theorem middlePixels_eq (imW imH : Nat) : middlePixels imW imH = (imW / 3) * (imH / 3) := by
  unfold middlePixels
  have hset : (Finset.range imW ×ˢ Finset.range imH).filter
      (fun p => inRect imW imH p.1 p.2 = true) =
      Finset.Ico (imW / 3) (2 * (imW / 3)) ×ˢ Finset.Ico (imH / 3) (2 * (imH / 3)) := by
    ext p
    simp only [Finset.mem_filter, Finset.mem_product, Finset.mem_range, Finset.mem_Ico,
      inRect_iff]
    omega
  rw [hset, Finset.card_product, Nat.card_Ico, Nat.card_Ico]
  congr 1 <;> omega

/-! ## The video transform and its rectangle (C22, C23) -/

/-- C22: the video transform of video3 and av1 on a frame of width `imW` and height `imH`
stored as `imW * imH * 3` bytes (values below 256).  The output buffer has exactly
`imW * imH * 3` bytes, the size it is allocated with; the byte of channel `c` at pixel
`(x, y)`, at index `(y * imW + x) * 3 + c`, is 255 minus the input byte when
`imW/3 <= x < 2*(imW/3)` and `imH/3 <= y < 2*(imH/3)`, and the input byte at every other
position; and wherever the mapped input lies in memory, the transform leaves its bytes,
and every other array that existed, as they were: it writes to the clone and to the
output buffer only. -/
theorem video_transform_bytes (imW imH : Nat) (bufferIn : GstBuffer)
    (hlen : bufferIn.data.length = imW * imH * 3) :
    (videoBufferOut imW imH bufferIn).data.length = imW * imH * 3 ∧
    (∀ x y c b : Nat, x < imW → y < imH → c < 3 →
      bufferIn.data[(y * imW + x) * 3 + c]? = some b → b < 256 →
      (videoBufferOut imW imH bufferIn).data[(y * imW + x) * 3 + c]? =
        some (if imW / 3 ≤ x ∧ x < 2 * (imW / 3) ∧ imH / 3 ≤ y ∧ y < 2 * (imH / 3)
          then 255 - b else b)) ∧
    (∀ (mem : Memory) (mapIn : Nat), mapIn < mem.arrays.length →
      mem.read mapIn = bufferIn.data →
      (videoTransform imW imH mem mapIn).1.read mapIn = bufferIn.data ∧
      (∀ a, a < mem.arrays.length →
        (videoTransform imW imH mem mapIn).1.read a = mem.read a) ∧
      (videoTransform imW imH mem mapIn).2.data = (videoBufferOut imW imH bufferIn).data) := by
  have hd := videoBufferOut_data imW imH bufferIn hlen
  refine ⟨videoBufferOut_length imW imH bufferIn, ?_, ?_⟩
  · intro x y c b hx hy hc hb hbyte
    obtain ⟨h1, h2⟩ := pixel_index imW x y c hx hc
    rw [hd, negateMiddle_getElem?, hb, h1, h2]
    simp only [Option.map_some', Option.some.injEq]
    by_cases hin : inRect imW imH x y = true
    · rw [if_pos hin, if_pos ((inRect_iff imW imH x y).mp hin), bitwise_not_byte b hbyte]
    · rw [if_neg hin, if_neg (fun h => hin ((inRect_iff imW imH x y).mpr h))]
  · intro mem mapIn hin hread
    have hm := videoTransform_memory imW imH mem mapIn
    refine ⟨by rw [hm.1 mapIn hin, hread], hm.1, ?_⟩
    have h1 : bufferIn.data.take (imH * imW * 3) = bufferIn.data := by
      rw [Nat.mul_comm imH imW, ← hlen]; exact List.take_length _
    have h2 := memcpy_full (negateMiddle imW imH bufferIn.data)
    rw [negateMiddle_length, hlen] at h2
    rw [hm.2.1, hread, h1, h2, hd]

/-- The 3 x 3 frame of bytes 7: the output has 27 bytes, the middle pixel is negated to
248, the corner pixel is kept, and the mapped input, here the second of two arrays, still
holds its bytes 7. -/
theorem video_transform_bytes_witness :
    (sampleV 7).buffer.data.length = 3 * 3 * 3 ∧
    (videoBufferOut 3 3 (sampleV 7).buffer).data.length = 27 ∧
    (videoBufferOut 3 3 (sampleV 7).buffer).data[(1 * 3 + 1) * 3 + 0]? = some 248 ∧
    (videoBufferOut 3 3 (sampleV 7).buffer).data[(0 * 3 + 0) * 3 + 2]? = some 7 ∧
    (videoTransform 3 3 ⟨[[1, 2], (sampleV 7).buffer.data]⟩ 1).1.read 1 =
      (sampleV 7).buffer.data :=
  ⟨by decide,
    (video_transform_bytes 3 3 (sampleV 7).buffer (by decide)).1,
    (video_transform_bytes 3 3 (sampleV 7).buffer (by decide)).2.1 1 1 0 7
      (by decide) (by decide) (by decide) (by decide) (by decide),
    (video_transform_bytes 3 3 (sampleV 7).buffer (by decide)).2.1 0 0 2 7
      (by decide) (by decide) (by decide) (by decide) (by decide),
    ((video_transform_bytes 3 3 (sampleV 7).buffer (by decide)).2.2
      ⟨[[1, 2], (sampleV 7).buffer.data]⟩ 1 (by decide) (by decide)).1⟩

/-- C23, as stated, fails: in a 5 x 5 frame the rectangle `Rect(1, 1, 1, 1)` has one
pixel, not `5 * 5 / 9 = 2`, and its left margin 1 is not its right margin 3. -/
theorem middle_rect_not_a_ninth :
    middlePixels 5 5 = 1 ∧ 5 * 5 / 9 = 2 ∧ 5 / 3 = 1 ∧ 5 - 2 * (5 / 3) = 3 :=
  ⟨by rw [middlePixels_eq], by decide, by decide, by decide⟩

/-- C23, amended: for every frame width `imW` and height `imH`, the rectangle
`Rect(imW/3, imH/3, imW/3, imH/3)` contains exactly `(imW/3) * (imH/3)` pixels, at most
`imW * imH / 9`; its left margin is `imW/3` and its right margin `imW - 2*(imW/3)` is
the left margin plus `imW % 3`, its top margin is `imH/3` and its bottom margin the top
margin plus `imH % 3`.  When `imW` and `imH` are multiples of 3 it is the centred middle
ninth: `imW * imH / 9` pixels and equal margins. -/
theorem middle_rect_pixels (imW imH : Nat) :
    middlePixels imW imH = (imW / 3) * (imH / 3) ∧
    middlePixels imW imH ≤ imW * imH / 9 ∧
    imW - 2 * (imW / 3) = imW / 3 + imW % 3 ∧
    imH - 2 * (imH / 3) = imH / 3 + imH % 3 ∧
    (imW % 3 = 0 → imH % 3 = 0 →
      middlePixels imW imH = imW * imH / 9 ∧ imW / 3 = imW - 2 * (imW / 3) ∧
        imH / 3 = imH - 2 * (imH / 3)) := by
  have hm := middlePixels_eq imW imH
  have hle : (imW / 3) * (imH / 3) ≤ imW * imH / 9 := by
    rw [Nat.le_div_iff_mul_le (by decide)]
    have h1 : imW / 3 * 3 ≤ imW := Nat.div_mul_le_self imW 3
    have h2 : imH / 3 * 3 ≤ imH := Nat.div_mul_le_self imH 3
    calc imW / 3 * (imH / 3) * 9 = (imW / 3 * 3) * (imH / 3 * 3) := by ring
      _ ≤ imW * imH := Nat.mul_le_mul h1 h2
  refine ⟨hm, by rw [hm]; exact hle, by omega, by omega, fun hw hh => ⟨?_, by omega, by omega⟩⟩
  rw [hm]
  obtain ⟨a, rfl⟩ := Nat.dvd_of_mod_eq_zero hw
  obtain ⟨b, rfl⟩ := Nat.dvd_of_mod_eq_zero hh
  have h9 : 3 * a * (3 * b) = 9 * (a * b) := by ring
  rw [h9, Nat.mul_div_cancel_left _ (by decide : 0 < 3), Nat.mul_div_cancel_left _ (by decide : 0 < 3),
    Nat.mul_div_cancel_left _ (by decide : 0 < 9)]

/-- A 6 x 9 frame: the rectangle has `6 * 9 / 9` pixels and equal margins. -/
theorem middle_rect_pixels_witness :
    middlePixels 6 9 = 6 * 9 / 9 ∧ 6 / 3 = 6 - 2 * (6 / 3) ∧ 9 / 3 = 9 - 2 * (9 / 3) :=
  (middle_rect_pixels 6 9).2.2.2.2 (by decide) (by decide)

/-! ## Runs of video2 -/

theorem Video2.pushed_of_append (t1 t2 : List Video2.Effect) :
    Video2.pushedBuffers (t1 ++ t2) = Video2.pushedBuffers t1 ++ Video2.pushedBuffers t2 := by
  induction t1 with
  | nil => rfl
  | cons e t ih =>
    rw [List.cons_append]
    cases e <;> simp only [Video2.pushedBuffers, ih, List.cons_append]

theorem Video2.eosCount_append (t1 t2 : List Video2.Effect) :
    Video2.eosCount (t1 ++ t2) = Video2.eosCount t1 + Video2.eosCount t2 := by
  simp [Video2.eosCount]

theorem Video2.run_empty (env : Video2.Env) (video : Video2.VideoCapture) (s : Video2.Sys) :
    Video2.run env video [] s = s := rfl

theorem Video2.run_step (env : Video2.Env) (video : Video2.VideoCapture) (e : Video2.Event)
    (es : List Video2.Event) (s : Video2.Sys) :
    Video2.run env video (e :: es) s = Video2.run env video es (Video2.step env video e s) :=
  rfl

/-- An invariant of the thread and its effects that every step of the thread keeps
holds in every state of every run. -/
theorem Video2.thread_invariant (env : Video2.Env) (video : Video2.VideoCapture)
    (I : Video2.Thread → List Video2.Effect → Prop)
    (hstep : ∀ data t tr, I t tr →
      I (Video2.threadStep env video data t).thread
        (tr ++ (Video2.threadStep env video data t).effects))
    (es : List Video2.Event) (s : Video2.Sys) (h : I s.thread s.trace) :
    I (Video2.run env video es s).thread (Video2.run env video es s).trace := by
  induction es generalizing s with
  | nil => exact h
  | cons e es ih =>
    rw [Video2.run_step]
    apply ih
    unfold Video2.step
    split
    · exact h
    · cases e with
      | thread => exact hstep _ _ _ h
      | startFeed size => exact h
      | stopFeed => exact h

theorem Video2.inv_step (env : Video2.Env) (video : Video2.VideoCapture)
    (frames0 : List Video2.Frame) (data : Video2.GoblinData) (t : Video2.Thread)
    (tr : List Video2.Effect) (h : Video2.Inv env frames0 t tr) :
    Video2.Inv env frames0 (Video2.threadStep env video data t).thread
      (tr ++ (Video2.threadStep env video data t).effects) := by
  generalize ho : Video2.threadStep env video data t = o
  unfold Video2.Inv at h ⊢
  cases hpc : t.pc <;> rw [hpc] at h <;>
    simp only [ne_eq, reduceCtorEq, not_false_eq_true, true_implies, Video2.Pc.beforeExit,
      false_implies, and_true, not_true_eq_false, Bool.false_eq_true] at h <;>
    simp only [Video2.threadStep, hpc] at ho <;> (repeat' split at ho) <;>
    subst ho <;>
    simp only [ne_eq, reduceCtorEq, not_false_eq_true, true_implies, Video2.Pc.beforeExit,
      false_implies, and_true, not_true_eq_false, Bool.false_eq_true, List.append_nil,
      Video2.pushed_of_append, Video2.eosCount_append, Video2.pushedBuffers,
      implies_true, hpc] <;>
    (try exact h)
  case readFrame.h_1 =>
    exact ⟨h.1, h.2.1, trivial, by rw [h.2.2.2]; simp [Video2.eosCount]⟩
  case readFrame.h_2.isTrue =>
    exact ⟨h.1, h.2.1, trivial, by rw [h.2.2.2]; simp [Video2.eosCount]⟩
  case readFrame.h_2.isFalse.isFalse.isFalse =>
    rename_i x frame rest hfr hne h1 h2
    obtain ⟨hlen, hk, hdrop, heos⟩ := h
    rw [hfr] at hdrop
    have hget : frames0[t.frameCount]? = some frame := by
      have := congrArg (fun l => l[0]?) hdrop
      simp only [List.getElem?_cons_zero, List.getElem?_drop, Nat.add_zero] at this
      exact this.symm
    have hrest : rest = List.drop (t.frameCount + 1) frames0 := by
      have := congrArg (List.drop 1) hdrop
      simp only [List.drop_succ_cons, List.drop_zero, List.drop_drop] at this
      rw [this, Nat.add_comm]
    refine ⟨by simp [hlen], ?_, hrest, by rw [heos]; simp [Video2.eosCount]⟩
    intro k b hb
    by_cases hlt : k < (Video2.pushedBuffers tr).length
    · rw [List.getElem?_append_left hlt] at hb
      exact hk k b hb
    · have hge : (Video2.pushedBuffers tr).length ≤ k := Nat.le_of_not_lt hlt
      rw [List.getElem?_append_right hge] at hb
      have hk0 : k - (Video2.pushedBuffers tr).length = 0 := by
        by_contra hne0
        obtain ⟨j, hj⟩ := Nat.exists_eq_succ_of_ne_zero hne0
        rw [hj] at hb
        simp at hb
      rw [hk0] at hb
      simp only [List.getElem?_cons_zero, Option.some.injEq] at hb
      have hkeq : k = t.frameCount := by omega
      subst hkeq
      exact ⟨frame, hget, by simpa using hne, hb.symm⟩
  case endOfStream =>
    exact ⟨h.1, h.2.1, trivial, trivial, by rw [h.2.2.2]; simp [Video2.eosCount]⟩

theorem Video2.capsFirst_step (env : Video2.Env) (video : Video2.VideoCapture)
    (data : Video2.GoblinData) (t : Video2.Thread) (tr : List Video2.Effect)
    (h : Video2.CapsFirst video t tr) :
    Video2.CapsFirst video (Video2.threadStep env video data t).thread
      (tr ++ (Video2.threadStep env video data t).effects) := by
  generalize ho : Video2.threadStep env video data t = o
  rcases h with ⟨htr, hpc | hpc⟩ | ⟨rest, htr, hpc⟩
  · simp only [Video2.threadStep, hpc] at ho
    (repeat' split at ho) <;> subst ho <;> simp [Video2.CapsFirst, htr]
  · simp only [Video2.threadStep, hpc] at ho
    subst ho
    simp [Video2.CapsFirst, htr, hpc]
  · right
    refine ⟨rest ++ o.effects, by rw [htr]; rfl, ?_⟩
    cases hpc1 : t.pc <;> (try exact absurd hpc1 hpc) <;>
      simp only [Video2.threadStep, hpc1] at ho <;> (repeat' split at ho) <;>
      subst ho <;> simp [hpc1]

theorem Video2.inv_run (env : Video2.Env) (video : Video2.VideoCapture)
    (data : Video2.GoblinData) (es : List Video2.Event) :
    Video2.Inv env video.frames (Video2.run env video es (Video2.Sys.init data video)).thread
      (Video2.run env video es (Video2.Sys.init data video)).trace := by
  refine Video2.thread_invariant env video (Video2.Inv env video.frames)
    (Video2.inv_step env video video.frames) es _ ?_
  simp [Video2.Inv, Video2.Sys.init, Video2.pushedBuffers, Video2.Pc.beforeExit,
    Video2.eosCount]

theorem Video2.capsFirst_run (env : Video2.Env) (video : Video2.VideoCapture)
    (data : Video2.GoblinData) (es : List Video2.Event) :
    Video2.CapsFirst video (Video2.run env video es (Video2.Sys.init data video)).thread
      (Video2.run env video es (Video2.Sys.init data video)).trace := by
  refine Video2.thread_invariant env video (Video2.CapsFirst video)
    (Video2.capsFirst_step env video) es _ ?_
  left
  exact ⟨rfl, Or.inl rfl⟩

/-- The buffer of an iteration has the `cols * rows * 3` bytes it is allocated with,
whatever the frame holds. -/
theorem Video2.frameBuffer_length (env : Video2.Env) (k : Nat) (frame : Video2.Frame) :
    (Video2.frameBuffer env k frame).data.length = frame.cols * frame.rows * 3 := by
  simp only [Video2.frameBuffer, memcpy_length, alloc_length]

/-- The bytes of the buffer of an iteration are those of a frame of 3 bytes per pixel. -/
theorem Video2.frameBuffer_data (env : Video2.Env) (k : Nat) (frame : Video2.Frame)
    (hw : frame.wellFormed = true) : (Video2.frameBuffer env k frame).data = frame.data := by
  have hlen : frame.data.length = frame.cols * frame.rows * 3 := by
    simpa [Video2.Frame.wellFormed] using hw
  have h := memcpy_full frame.data
  rw [hlen] at h
  simp only [Video2.frameBuffer, h]

/-! ## The caps are assigned before the start (C24) -/

theorem capsBeforeStart_append (p : Prog) (tr effs : List Effect)
    (h : CapsBeforeStart p tr) (hno : ∀ e ∈ effs, e.isStart = false) :
    CapsBeforeStart p (tr ++ effs) := by
  intro pre e post heq he
  rcases List.append_eq_append_iff.mp heq with ⟨a, rfl, ha⟩ | ⟨c, hc1, hc2⟩
  · have hmem : e ∈ effs := by rw [ha]; simp
    rw [hno e hmem] at he
    exact absurd he (by decide)
  · cases c with
    | nil =>
      have hmem : e ∈ effs := by
        rw [List.nil_append] at hc2
        rw [← hc2]
        exact List.mem_cons_self e post
      rw [hno e hmem] at he
      exact absurd he (by decide)
    | cons x c1 =>
      rw [List.cons_append] at hc2
      obtain ⟨rfl, -⟩ := List.cons.inj hc2
      exact h pre e c1 hc1 he

theorem capsBeforeStart_start (p : Prog) (tr : List Effect) (x : Effect)
    (h : CapsBeforeStart p tr)
    (hready : ∀ m1, hasRelay p m1 = true → 1 ≤ capsCount m1 tr) :
    CapsBeforeStart p (tr ++ [x]) := by
  intro pre e post heq he
  rcases List.append_eq_append_iff.mp heq with ⟨a, rfl, ha⟩ | ⟨c, hc1, hc2⟩
  · cases a with
    | nil => simpa using hready
    | cons y a1 =>
      rw [List.cons_append] at ha
      have := congrArg List.length ha
      simp at this
  · cases c with
    | nil =>
      rw [List.append_nil] at hc1
      rw [← hc1]
      exact hready
    | cons y c1 =>
      rw [List.cons_append] at hc2
      obtain ⟨rfl, -⟩ := List.cons.inj hc2
      exact h pre e c1 hc1 he

/-- A step of a relay thread that is not at the start call has no start among its
effects. -/
theorem relayStep_no_start (p : Prog) (env : Env) (m : Media) (d : GoblinData) (r : Relay)
    (h : r.pc ≠ .setState) : ∀ e ∈ (relayStep p env m d r).effects, e.isStart = false := by
  by_cases hpr : r.pc = .process
  · rw [relayStep_process _ _ _ _ _ hpr]
    have hps : ∀ e ∈ (processSample p env m r).1, e.isStart = false := by
      unfold processSample
      cases r.sample with
      | none => simp [Effect.isStart]
      | some sample =>
        cases m <;> simp only <;> (repeat' split) <;> simp [Effect.isStart]
    split <;> exact hps
  · generalize ho : relayStep p env m d r = o
    cases hpc : r.pc <;> (try exact absurd hpc h) <;> (try exact absurd hpc hpr) <;>
      simp only [relayStep, hpc] at ho <;> (repeat' split at ho) <;>
      subst ho <;> simp [Effect.isStart]

/-- The flag that guards the first-sample block of a relay becomes true only by that
relay's own store, at `storeInit` (av1) or `storeStarted` (audio1, video3). -/
theorem relayStep_gate_set (p : Prog) (env : Env) (m : Media) (hr : hasRelay p m = true)
    (d : GoblinData) (r : Relay) (hg : gateFlag p m d = false)
    (hg1 : gateFlag p m (relayStep p env m d r).data = true) :
    r.pc = .storeInit ∨ r.pc = .storeStarted := by
  generalize ho : relayStep p env m d r = o at hg1
  cases hpc : r.pc <;> (try rw [relayStep_process _ _ _ _ _ hpc] at ho) <;>
    (try simp only [relayStep, hpc] at ho) <;> (repeat' split at ho) <;>
    subst ho <;>
    first
      | exact Or.inl rfl
      | exact Or.inr rfl
      | (rw [hg] at hg1; exact absurd hg1 (by decide))
      | (exfalso; cases p <;> cases m <;>
          simp_all [gateFlag, GoblinData.flagInit, hasRelay])

/-- Every event keeps: a relay whose guard flag is true has assigned its caps.  Used in a
state in which `CapsInv` holds. -/
theorem gateCaps_step (p : Prog) (env : Env) (m : Media) (hr : hasRelay p m = true)
    (e : Event) (s : Sys)
    (hc : CapsInv p (gateFlag p m s.data) (s.relay m).pc (pullCount m s.trace)
      (capsCount m s.trace))
    (h : gateFlag p m s.data = true → 1 ≤ capsCount m s.trace) :
    gateFlag p m (step p env e s).data = true → 1 ≤ capsCount m (step p env e s).trace := by
  unfold step
  split
  · exact h
  · cases e with
    | relay m1 =>
      simp only
      split
      · rename_i hr1
        rw [Sys.apply_data, Sys.apply_trace, capsCount_append]
        by_cases hm : m1 = m
        · subst hm
          intro hg1
          cases hg : gateFlag p m1 s.data
          · rcases relayStep_gate_set p env m1 hr s.data (s.relay m1) hg hg1 with hpc | hpc
            · rw [hpc] at hc
              have := hc.2.2.2
              omega
            · rw [hpc] at hc
              have := hc.1
              omega
          · have := h hg
            omega
        · rw [gateFlag_relayStep_other p env m m1 _ _ hr hr1 hm]
          intro hg
          have := h hg
          omega
      · exact h
    | startFeed source =>
      simp only
      split
      · rename_i d1 hd
        obtain ⟨-, h2, h3, h4⟩ := startFeed_frame _ _ _ _ hd
        simp only [gateFlag_frame p m _ _ h2 h3 h4]
        exact h
      · exact h
    | stopFeed source =>
      simp only
      split
      · rename_i d1 hd
        obtain ⟨-, h2, h3, h4⟩ := stopFeed_frame _ _ _ _ hd
        simp only [gateFlag_frame p m _ _ h2 h3 h4]
        exact h
      · exact h

theorem gateCaps_run (p : Prog) (env : Env) (m : Media) (hr : hasRelay p m = true)
    (srcA srcV : List (Option GstSample)) (es : List Event) :
    gateFlag p m (run p env es (Sys.init srcA srcV)).data = true →
      1 ≤ capsCount m (run p env es (Sys.init srcA srcV)).trace := by
  induction es using List.reverseRecOn with
  | nil => cases p <;> cases m <;> simp [run, Sys.init, gateFlag, GoblinData.init,
      GoblinData.flagInit]
  | append_singleton es e ih =>
    rw [run_append, run_cons, run_nil]
    exact gateCaps_step p env m hr e _ (capsInv_run p env m hr srcA srcV es) ih

/-- In every reachable state in which a relay thread is at the start call, every relay of
the program has assigned its caps. -/
theorem caps_ready_at_setState (p : Prog) (env : Env) (m : Media) (hr : hasRelay p m = true)
    (srcA srcV : List (Option GstSample)) (es : List Event)
    (hpc : ((run p env es (Sys.init srcA srcV)).relay m).pc = .setState) :
    ∀ m1, hasRelay p m1 = true → 1 ≤ capsCount m1 (run p env es (Sys.init srcA srcV)).trace := by
  intro m1 hr1
  cases p
  case av1 =>
    have hg := gateCaps_run .av1 env m1 hr1 srcA srcV es
    have h := av1Inv_run env es srcA srcV
    unfold Av1Inv at h
    generalize run .av1 env es (Sys.init srcA srcV) = s at h hpc hg
    apply hg
    have hboth : s.data.flagInitA = true ∧ s.data.flagInitV = true := by
      cases m
      · have hpcA : s.relayA.pc = .setState := hpc
        exact ⟨h.self.saw_initA (by rw [hpcA]; rfl), h.self.saw_initV (by rw [hpcA]; rfl)⟩
      · have hpcV : s.relayV.pc = .setState := hpc
        exact ⟨h.other.saw_initA (by rw [hpcV]; rfl), h.other.saw_initV (by rw [hpcV]; rfl)⟩
    cases m1
    · exact hboth.1
    · exact hboth.2
  all_goals
    have hm : m1 = m := by cases m <;> cases m1 <;> simp_all [hasRelay]
    subst hm
    have h := capsInv_run _ env m1 hr srcA srcV es
    rw [hpc] at h
    have := h.1
    omega

/-- Every event keeps `CapsBeforeStart`, in a reachable state. -/
theorem capsBeforeStart_run (p : Prog) (env : Env) (srcA srcV : List (Option GstSample))
    (es : List Event) : CapsBeforeStart p (run p env es (Sys.init srcA srcV)).trace := by
  induction es using List.reverseRecOn with
  | nil =>
    intro pre e post heq
    simp [run, Sys.init] at heq
  | append_singleton es e ih =>
    rw [run_append, run_cons, run_nil]
    generalize hs : run p env es (Sys.init srcA srcV) = s at ih
    unfold step
    split
    · exact ih
    · cases e with
      | relay m =>
        simp only
        split
        · rename_i hr
          rw [Sys.apply_trace]
          by_cases hpc : (s.relay m).pc = .setState
          · have hready := caps_ready_at_setState p env m hr srcA srcV es (by rw [hs]; exact hpc)
            rw [hs] at hready
            have heff : (relayStep p env m s.data (s.relay m)).effects =
                [.setStatePlaying m env.startRet] := by
              simp only [relayStep, hpc]
              split <;> rfl
            rw [heff]
            exact capsBeforeStart_start p _ _ ih hready
          · exact capsBeforeStart_append p _ _ ih
              (relayStep_no_start p env m s.data (s.relay m) hpc)
        · exact ih
      | startFeed source =>
        simp only
        split <;> exact ih
      | stopFeed source =>
        simp only
        split <;> exact ih

/-- C24: in every program that starts a pipeline fed by an appsrc, the caps are assigned
before the pipeline is started.  In every run of audio1, video3 and av1, at every start
call in the trace every relay of the program (one in audio1 and video3, both in av1) has
already assigned caps to its appsrc; and in every run of video2 the trace before a start
call begins with the assignment of the caps built from the video. -/
theorem caps_assigned_before_start (p : Prog) (env : Env)
    (srcA srcV : List (Option GstSample)) (es : List Event) (venv : Video2.Env)
    (video : Video2.VideoCapture) (data0 : Video2.GoblinData) (ves : List Video2.Event) :
    (∀ (pre post : List Effect) (m : Media) (ret : GstStateChangeReturn),
      (run p env es (Sys.init srcA srcV)).trace = pre ++ Effect.setStatePlaying m ret :: post →
      ∀ m1, hasRelay p m1 = true → 1 ≤ capsCount m1 pre) ∧
    (∀ (pre post : List Video2.Effect) (ret : GstStateChangeReturn),
      (Video2.run venv video ves (Video2.Sys.init data0 video)).trace =
        pre ++ Video2.Effect.setStatePlaying ret :: post →
      ∃ rest, pre = Video2.Effect.setCaps (Video2.capsVideo video) :: rest) := by
  constructor
  · intro pre post m ret heq
    exact capsBeforeStart_run p env srcA srcV es pre _ post heq rfl
  · intro pre post ret heq
    rcases Video2.capsFirst_run venv video data0 ves with ⟨htr, -⟩ | ⟨rest, htr, -⟩
    · rw [htr] at heq
      have := congrArg List.length heq
      simp at this
      omega
    · rw [htr] at heq
      cases pre with
      | nil =>
        rw [List.nil_append] at heq
        obtain ⟨h1, -⟩ := List.cons.inj heq
        exact absurd h1 (by simp)
      | cons x pre1 =>
        rw [List.cons_append] at heq
        obtain ⟨h1, -⟩ := List.cons.inj heq
        exact ⟨pre1, by rw [h1]⟩

/-- The run of av1 in which the video relay starts the playback pipeline: before the start
call both relays have assigned their caps. -/
theorem caps_assigned_before_start_witness :
    1 ≤ capsCount .A [.isEos .A false, .pullSample .A (some (sampleA 0)),
        .setCaps .A capsAudio,
        .bufferMap .A true, .bufferUnmap .A, .bufferRead .A, .bufferRead .A,
        .pushBuffer .A (audioBufferOut (sampleA 0).buffer) .OK, .sampleUnref .A,
        .isEos .V false, .pullSample .V (some (sampleV 0)), .setCaps .V capsVideo] ∧
    1 ≤ capsCount .V [.isEos .A false, .pullSample .A (some (sampleA 0)),
        .setCaps .A capsAudio,
        .bufferMap .A true, .bufferUnmap .A, .bufferRead .A, .bufferRead .A,
        .pushBuffer .A (audioBufferOut (sampleA 0).buffer) .OK, .sampleUnref .A,
        .isEos .V false, .pullSample .V (some (sampleV 0)), .setCaps .V capsVideo] :=
  have h := (caps_assigned_before_start .av1 envOk [some (sampleA 0)] [some (sampleV 0)]
    (steps .A 10 ++ steps .V 13) Video2.envOk Video2.videoTwoFrames Video2.dataMain []).1
    [.isEos .A false, .pullSample .A (some (sampleA 0)), .setCaps .A capsAudio,
      .bufferMap .A true, .bufferUnmap .A, .bufferRead .A, .bufferRead .A,
      .pushBuffer .A (audioBufferOut (sampleA 0).buffer) .OK, .sampleUnref .A,
      .isEos .V false, .pullSample .V (some (sampleV 0)), .setCaps .V capsVideo]
    [] .V .SUCCESS (by decide)
  ⟨h .A rfl, h .V rfl⟩

/-! ## The frame loop of video2 (C25) -/

/-- C25: the frame loop of video2 (`codeThreadSrcV`).  An iteration that finds `flagRunV`
false sleeps once and goes back to the test: it reads no frame, pushes nothing and leaves
`frameCount` as it is.  An iteration that finds it true and reads a non-empty frame
(whose size and the next `frameCount` fit `int`) pushes exactly one buffer, of the
`cols * rows * 3` bytes it is allocated with, stamped with `frameCount`, and increments
`frameCount` by one.  The first empty frame takes the thread out of the loop
without a push, to the one end-of-stream call and the return.  So in every state of every
run in which nothing has failed: `frameCount` is the number of buffers pushed, the `k`-th
pushed buffer (from 0) is the buffer of the `k`-th frame, of `cols * rows * 3` bytes
and stamped with `k`, no end-of-stream call is made inside the loop, and exactly one has been made at return. -/
theorem video2_frame_loop (env : Video2.Env) (video : Video2.VideoCapture)
    (data : Video2.GoblinData) (t : Video2.Thread) (data0 : Video2.GoblinData)
    (es : List Video2.Event) :
    (t.pc = .ifRun → data.flagRunV = false →
      Video2.threadStep env video data t = ⟨{ t with pc := .sleep }, [], false⟩ ∧
      ∀ data1 : Video2.GoblinData,
        Video2.threadStep env video data1 { t with pc := .sleep } =
          ⟨{ t with pc := .ifRun }, [.sleep], false⟩) ∧
    (t.pc = .ifRun → data.flagRunV = true →
      Video2.threadStep env video data t = ⟨{ t with pc := .readFrame }, [], false⟩) ∧
    (∀ (frame : Video2.Frame) (rest : List Video2.Frame),
      t.pc = .readFrame → t.frames = frame :: rest → frame.empty = false →
      fitsInt (frame.cols * frame.rows * 3) = true → fitsInt (t.frameCount + 1) = true →
      Video2.threadStep env video data t =
        ⟨{ t with pc := .ifRun, frames := rest, frameCount := t.frameCount + 1 },
          [.videoRead frame,
            .pushBuffer (Video2.frameBuffer env t.frameCount frame)
              (env.pushRet t.frameCount)], false⟩ ∧
      (Video2.frameBuffer env t.frameCount frame).pts = env.stamp t.frameCount ∧
      (Video2.frameBuffer env t.frameCount frame).data.length =
        frame.cols * frame.rows * 3) ∧
    (t.pc = .readFrame → (t.frames = [] ∨ ∃ frame rest, t.frames = frame :: rest ∧
        frame.empty = true) →
      (Video2.threadStep env video data t).thread.pc = .endOfStream ∧
      (Video2.threadStep env video data t).thread.frameCount = t.frameCount ∧
      Video2.pushedBuffers (Video2.threadStep env video data t).effects = [] ∧
      (Video2.threadStep env video data t).threw = false ∧
      ∀ (data1 data2 : Video2.GoblinData) (t1 : Video2.Thread), t1.pc = .endOfStream →
        Video2.threadStep env video data1 t1 = ⟨{ t1 with pc := .done }, [.endOfStream], false⟩ ∧
        Video2.threadStep env video data2 { t1 with pc := .done } =
          ⟨{ t1 with pc := .done }, [], false⟩) ∧
    ((Video2.run env video es (Video2.Sys.init data0 video)).thread.pc ≠ .failed →
      (Video2.pushedBuffers (Video2.run env video es (Video2.Sys.init data0 video)).trace).length =
        (Video2.run env video es (Video2.Sys.init data0 video)).thread.frameCount ∧
      (∀ k b,
        (Video2.pushedBuffers
          (Video2.run env video es (Video2.Sys.init data0 video)).trace)[k]? = some b →
        b.pts = env.stamp k ∧
        ∃ frame, video.frames[k]? = some frame ∧ frame.empty = false ∧
          b = Video2.frameBuffer env k frame ∧
          b.data.length = frame.cols * frame.rows * 3) ∧
      ((Video2.run env video es (Video2.Sys.init data0 video)).thread.pc.beforeExit = true →
        Video2.eosCount (Video2.run env video es (Video2.Sys.init data0 video)).trace = 0) ∧
      ((Video2.run env video es (Video2.Sys.init data0 video)).thread.pc = .done →
        Video2.eosCount (Video2.run env video es (Video2.Sys.init data0 video)).trace = 1)) := by
  refine ⟨?_, ?_, ?_, ?_, ?_⟩
  · intro hpc hrun
    exact ⟨by simp [Video2.threadStep, hpc, hrun], fun data1 => by simp [Video2.threadStep]⟩
  · intro hpc hrun
    simp [Video2.threadStep, hpc, hrun]
  · intro frame rest hpc hfr hne hfit1 hfit2
    refine ⟨by simp [Video2.threadStep, hpc, hfr, hne, hfit1, hfit2], rfl, ?_⟩
    exact Video2.frameBuffer_length env t.frameCount frame
  · intro hpc hfr
    refine ⟨?_, ?_, ?_, ?_, fun data1 data2 t1 h1 => ?_⟩
    · rcases hfr with hfr | ⟨frame, rest, hfr, hemp⟩ <;> simp [Video2.threadStep, hpc, hfr, *]
    · rcases hfr with hfr | ⟨frame, rest, hfr, hemp⟩ <;> simp [Video2.threadStep, hpc, hfr, *]
    · rcases hfr with hfr | ⟨frame, rest, hfr, hemp⟩ <;>
        simp [Video2.threadStep, hpc, hfr, Video2.pushedBuffers, *]
    · rcases hfr with hfr | ⟨frame, rest, hfr, hemp⟩ <;> simp [Video2.threadStep, hpc, hfr, *]
    · exact ⟨by simp [Video2.threadStep, h1], by simp [Video2.threadStep]⟩
  · intro hnf
    obtain ⟨h1, h2, h3, -, h5⟩ := Video2.inv_run env video data0 es hnf
    refine ⟨h1, fun k b hb => ?_, fun hbe => (h3 hbe).2, h5⟩
    obtain ⟨frame, hf1, hf2, hf3⟩ := h2 k b hb
    exact ⟨by rw [hf3]; rfl, frame, hf1, hf2, hf3,
      by rw [hf3]; exact Video2.frameBuffer_length env k frame⟩

/-- The thread of video2 on a video of two frames, run to its return: two buffers pushed,
of 3 bytes each and stamped 0 and 1 s, `frameCount` 2, one end-of-stream call. -/
theorem video2_frame_loop_witness :
    (Video2.pushedBuffers (Video2.run Video2.envOk Video2.videoTwoFrames
        Video2.scheduleTwoFrames
        (Video2.Sys.init Video2.dataMain Video2.videoTwoFrames)).trace).map
      (fun b => (b.data.length, b.pts)) = [(3, 0), (3, 1000000000)] ∧
    (Video2.pushedBuffers (Video2.run Video2.envOk Video2.videoTwoFrames
        Video2.scheduleTwoFrames
        (Video2.Sys.init Video2.dataMain Video2.videoTwoFrames)).trace).length =
      (Video2.run Video2.envOk Video2.videoTwoFrames Video2.scheduleTwoFrames
        (Video2.Sys.init Video2.dataMain Video2.videoTwoFrames)).thread.frameCount ∧
    Video2.eosCount (Video2.run Video2.envOk Video2.videoTwoFrames Video2.scheduleTwoFrames
        (Video2.Sys.init Video2.dataMain Video2.videoTwoFrames)).trace = 1 :=
  have h := (video2_frame_loop Video2.envOk Video2.videoTwoFrames Video2.dataMain
    ⟨.ifRun, [], 0⟩ Video2.dataMain Video2.scheduleTwoFrames).2.2.2.2 (by decide)
  ⟨by decide, h.1, h.2.2.2 (by decide)⟩

/-! ## The idle-wait sleeps (C26) -/

/-- C26: in every relay of audio1, video3 and av1 the idle-wait does not busy-spin.  A step
inside the idle-wait (`whileGate`, `whileRun`, `sleep`) writes no flag, pulls nothing,
pushes nothing and throws nothing; the loop body is exactly one 10 ms sleep, after which
the gate flags are read again; the two loads of the condition have no effect.  A whole
turn of the loop, with the gate flag true and the run flag false, takes the thread from
the condition back to the condition with one sleep as its only effect. -/
theorem idle_wait_sleeps (p : Prog) (env : Env) (m : Media) (d : GoblinData) (r : Relay)
    (s : Sys) :
    (r.pc.inWait = true →
      (relayStep p env m d r).data = d ∧ (relayStep p env m d r).threw = false ∧
      (relayStep p env m d r).relay.source = r.source ∧
      (relayStep p env m d r).relay.sample = r.sample ∧
      (relayStep p env m d r).relay.pushed = r.pushed ∧
      (r.pc = .sleep → (relayStep p env m d r).effects = [.sleep m] ∧
        (relayStep p env m d r).relay.pc = .whileGate) ∧
      (r.pc = .whileGate → (relayStep p env m d r).effects = [] ∧
        (relayStep p env m d r).relay.pc = if gateFlag p m d then .whileRun else .isEos) ∧
      (r.pc = .whileRun → (relayStep p env m d r).effects = [] ∧
        (relayStep p env m d r).relay.pc = if d.flagRun m then .isEos else .sleep)) ∧
    (hasRelay p m = true → s.terminated = false → (s.relay m).pc = .whileGate →
      gateFlag p m s.data = true → s.data.flagRun m = false →
      (run p env (steps m 3) s).data = s.data ∧
      (run p env (steps m 3) s).relay m = s.relay m ∧
      (run p env (steps m 3) s).trace = s.trace ++ [.sleep m] ∧
      (run p env (steps m 3) s).terminated = false) := by
  constructor
  · intro hw
    cases hpc : r.pc <;> rw [hpc] at hw <;> simp only [Pc.inWait, reduceCtorEq] at hw <;>
      simp only [relayStep, hpc] <;> (try split) <;> simp
  · intro hr ht hpc hg hrun
    have e1 := step_relay_own p env m hr s ht
    have h1t : (step p env (.relay m) s).terminated = false := by
      rw [e1, Sys.apply_terminated]; simp [relayStep, hpc, hg]
    have h1d : (step p env (.relay m) s).data = s.data := by
      rw [e1, Sys.apply_data]; simp [relayStep, hpc, hg]
    have h1r : (step p env (.relay m) s).relay m = { s.relay m with pc := .whileRun } := by
      rw [e1, Sys.apply_relay_same]; simp [relayStep, hpc, hg]
    have h1tr : (step p env (.relay m) s).trace = s.trace := by
      rw [e1, Sys.apply_trace]; simp [relayStep, hpc, hg]
    have e2 := step_relay_own p env m hr _ h1t
    have h2t : (step p env (.relay m) (step p env (.relay m) s)).terminated = false := by
      rw [e2, Sys.apply_terminated]; simp [relayStep, h1r, h1d, hrun]
    have h2d : (step p env (.relay m) (step p env (.relay m) s)).data = s.data := by
      rw [e2, Sys.apply_data]; simp [relayStep, h1r, h1d, hrun]
    have h2r : (step p env (.relay m) (step p env (.relay m) s)).relay m =
        { s.relay m with pc := .sleep } := by
      rw [e2, Sys.apply_relay_same]; simp [relayStep, h1r, h1d, hrun]
    have h2tr : (step p env (.relay m) (step p env (.relay m) s)).trace = s.trace := by
      rw [e2, Sys.apply_trace]; simp [relayStep, h1r, h1d, hrun, h1tr]
    have e3 := step_relay_own p env m hr _ h2t
    rw [run_steps_succ, run_steps_succ, run_steps_succ, run_steps_zero, e3,
      Sys.apply_terminated, Sys.apply_data, Sys.apply_trace, Sys.apply_relay_same]
    simp only [relayStep, h2r, h2d, h2tr, true_and, and_true]
    rw [← hpc]

/-- The relay of audio1 after its first iteration, the run flag not set: a turn of the
idle-wait is one sleep. -/
theorem idle_wait_sleeps_witness :
    (run .audio1 envOk (steps .A 3) (run .audio1 envOk (steps .A 8)
      (Sys.init [some (sampleA 0), some (sampleA 1)] []))).trace =
    (run .audio1 envOk (steps .A 8)
      (Sys.init [some (sampleA 0), some (sampleA 1)] [])).trace ++ [.sleep .A] :=
  ((idle_wait_sleeps .audio1 envOk .A GoblinData.init (Relay.init [])
    (run .audio1 envOk (steps .A 8) (Sys.init [some (sampleA 0), some (sampleA 1)] []))).2
    (by decide) (by decide) (by decide) (by decide) (by decide)).2.2.1

/-! ## The rectangle lies inside the frame; the transform is an involution (C27, C28) -/

/-- C27: for every frame width `imW` and height `imH`, the rectangle
`Rect(imW/3, imH/3, imW/3, imH/3)` lies inside the frame: `imW/3 + imW/3 <= imW` and
`imH/3 + imH/3 <= imH`; every pixel `(x, y)` of the rectangle has `x < imW` and `y < imH`,
and its three bytes lie inside a frame of `imW * imH * 3` bytes; the rectangle is empty
when `imW < 3` or `imH < 3`. -/
theorem middle_rect_inside (imW imH : Nat) :
    imW / 3 + imW / 3 ≤ imW ∧ imH / 3 + imH / 3 ≤ imH ∧
    (∀ x y : Nat, inRect imW imH x y = true →
      x < imW ∧ y < imH ∧ ∀ c : Nat, c < 3 → (y * imW + x) * 3 + c < imW * imH * 3) ∧
    (imW < 3 ∨ imH < 3 → ∀ x y : Nat, inRect imW imH x y = false) := by
  refine ⟨by omega, by omega, fun x y h => ?_, fun hsmall x y => ?_⟩
  · rw [inRect_iff] at h
    have hx : x < imW := by omega
    have hy : y < imH := by omega
    refine ⟨hx, hy, fun c hc => ?_⟩
    have h1 : y * imW + x < imH * imW := by
      calc y * imW + x < y * imW + imW := by omega
        _ = (y + 1) * imW := by ring
        _ ≤ imH * imW := Nat.mul_le_mul_right imW hy
    have h2 : imH * imW = imW * imH := Nat.mul_comm _ _
    omega
  · cases hr : inRect imW imH x y
    · rfl
    · rw [inRect_iff] at hr
      omega

/-- A 4 x 5 frame: the pixel `(1, 1)` of the rectangle is inside the frame. -/
theorem middle_rect_inside_witness : inRect 4 5 1 1 = true ∧ 1 < 4 ∧ 1 < 5 :=
  have h := (middle_rect_inside 4 5).2.2.1 1 1 (by decide)
  ⟨by decide, h.1, h.2.1⟩

/-- C28: the video transform of video3 and av1 is an involution on frames of a fixed size:
for every `imW`, `imH` and every frame of `imW * imH * 3` bytes (values below 256), the
transform of the transformed frame is the frame; so is the negation of the middle
rectangle on its own. -/
theorem video_transform_involution (imW imH : Nat) (bufferIn : GstBuffer)
    (hlen : bufferIn.data.length = imW * imH * 3) (hbytes : ∀ b ∈ bufferIn.data, b < 256) :
    (videoBufferOut imW imH
      { bufferIn with data := (videoBufferOut imW imH bufferIn).data }).data =
        bufferIn.data ∧
    negateMiddle imW imH (negateMiddle imW imH bufferIn.data) = bufferIn.data := by
  have hd := videoBufferOut_data imW imH bufferIn hlen
  have hinv := negateMiddle_involutive imW imH bufferIn.data hbytes
  refine ⟨?_, hinv⟩
  rw [videoBufferOut_data imW imH _ (by simp only; rw [hd, negateMiddle_length, hlen])]
  simp only
  rw [hd, hinv]

/-- The 3 x 3 frame of bytes 7, transformed twice. -/
theorem video_transform_involution_witness :
    (videoBufferOut 3 3
      { (sampleV 7).buffer with data := (videoBufferOut 3 3 (sampleV 7).buffer).data }).data =
        (sampleV 7).buffer.data :=
  (video_transform_involution 3 3 (sampleV 7).buffer (by decide) (by decide)).1

/-! ## No use of the buffer after the release (C29) -/

/-- C29 fails in video3: the video relay of video3 with one frame.  In its first iteration
the sample is released right after `gst_sample_get_buffer`, and the buffer is mapped,
read and unmapped after that; and so in every iteration of that loop.  In the other loops
(the audio relays of audio1 and av1, which release the sample last, and the video relay
of av1, which does not release it) no access to the buffer follows the release. -/
theorem video3_uses_buffer_after_release :
    ((run .video3 envOk (steps .V 9) (Sys.init [] [some (sampleV 0)])).trace =
      [.isEos .V false, .pullSample .V (some (sampleV 0)), .setCaps .V capsVideo,
        .setStatePlaying .V .SUCCESS, .sampleUnref .V, .bufferMap .V true, .bufferRead .V,
        .bufferUnmap .V, .pushBuffer .V (bufferOut .V (sampleV 0)) .OK] ∧
      useAfterRelease (run .video3 envOk (steps .V 9)
        (Sys.init [] [some (sampleV 0)])).trace = true) ∧
    (∀ (env : Env) (r : Relay), r.sample ≠ none →
      useAfterRelease (processSample .video3 env .V r).1 = true) ∧
    (∀ (p : Prog) (env : Env) (m : Media) (r : Relay), ¬ (p = .video3 ∧ m = .V) →
      useAfterRelease (processSample p env m r).1 = false) := by
  refine ⟨⟨by decide, by decide⟩, fun env r hs => ?_, fun p env m r hne => ?_⟩
  · unfold processSample
    cases hsm : r.sample with
    | none => exact absurd hsm hs
    | some sample =>
      simp only
      (repeat' split) <;> simp_all [useAfterRelease, Effect.isUnref, Effect.usesBuffer]
  · unfold processSample
    cases r.sample with
    | none => simp [useAfterRelease, Effect.isUnref, Effect.usesBuffer]
    | some sample =>
      cases m <;> cases p <;> simp only <;> (repeat' split) <;>
        simp_all [useAfterRelease, Effect.isUnref, Effect.usesBuffer]

/-- The audio relay of audio1 holding a sample: the release is the last effect of the
iteration. -/
theorem video3_uses_buffer_after_release_witness :
    useAfterRelease (processSample .audio1 envOk .A
      ⟨.process, [], some (sampleA 0), 0, 0, 0⟩).1 = false :=
  video3_uses_buffer_after_release.2.2 .audio1 envOk .A
    ⟨.process, [], some (sampleA 0), 0, 0, 0⟩ (by decide)

/-! ## One source without a sample (C30) -/

theorem flagInit_frame (m : Media) (d d1 : GoblinData) (hA : d1.flagInitA = d.flagInitA)
    (hV : d1.flagInitV = d.flagInitV) : d1.flagInit m = d.flagInit m := by
  cases m <;> simpa [GoblinData.flagInit]

/-- The step of the relay without a sample, in a state of `NoSampleInv`. -/
theorem noSampleInv_relayStep (env : Env) (m : Media) (src0 : List (Option GstSample))
    (hsrc : src0.head?.join = none) (s : Sys) (h : NoSampleInv m src0 s) :
    (relayStep .av1 env m s.data (s.relay m)).data = s.data ∧
    (relayStep .av1 env m s.data (s.relay m)).threw = false ∧
    (relayStep .av1 env m s.data (s.relay m)).relay.pc.exitRank + 1 ≤
      (s.relay m).pc.exitRank + (if (s.relay m).pc = .done then 1 else 0) ∧
    (s.data.flagInit m = false ∧
      match (relayStep .av1 env m s.data (s.relay m)).relay.pc with
      | .whileGate => (relayStep .av1 env m s.data (s.relay m)).relay.source = src0 ∧
          relayTrace m s.trace ++ (relayStep .av1 env m s.data (s.relay m)).effects = []
      | .isEos => (relayStep .av1 env m s.data (s.relay m)).relay.source = src0 ∧
          relayTrace m s.trace ++ (relayStep .av1 env m s.data (s.relay m)).effects = []
      | .pullSample =>
        (relayStep .av1 env m s.data (s.relay m)).relay.source = src0 ∧ src0 ≠ [] ∧
          relayTrace m s.trace ++ (relayStep .av1 env m s.data (s.relay m)).effects =
            [.isEos m false]
      | .endOfStream =>
        relayTrace m s.trace ++ (relayStep .av1 env m s.data (s.relay m)).effects =
          noSampleTrace m src0
      | .done =>
        relayTrace m s.trace ++ (relayStep .av1 env m s.data (s.relay m)).effects =
          noSampleTrace m src0 ++ [.endOfStream m]
      | _ => False) := by
  obtain ⟨hfl, hpcinv⟩ := h
  have hg : gateFlag .av1 m s.data = false := hfl
  generalize ho : relayStep .av1 env m s.data (s.relay m) = o
  cases hpc : (s.relay m).pc <;> rw [hpc] at hpcinv <;> simp only at hpcinv <;>
    simp only [relayStep, hpc, hg, Bool.false_eq_true, if_false] at ho
  case whileGate =>
    subst ho
    exact ⟨rfl, rfl, by simp [Pc.exitRank], hfl, hpcinv.1, by simp [hpcinv.2]⟩
  case isEos =>
    obtain ⟨hs, htr⟩ := hpcinv
    split at ho <;> subst ho
    · rename_i hemp
      refine ⟨rfl, rfl, by simp [Pc.exitRank], hfl, ?_⟩
      rw [hs] at hemp
      simp [htr, noSampleTrace, hemp]
    · rename_i hemp
      rw [hs] at hemp
      refine ⟨rfl, rfl, by simp [Pc.exitRank], hfl, hs, ?_, by simp [htr]⟩
      intro hnil
      rw [hnil] at hemp
      simp at hemp
  case pullSample =>
    obtain ⟨hs, hne, htr⟩ := hpcinv
    have hemp : src0.isEmpty = false := by
      cases src0 with
      | nil => exact absurd rfl hne
      | cons a l => rfl
    split at ho <;> subst ho
    · rename_i hnil
      rw [hs] at hnil
      exact absurd hnil hne
    · exact ⟨rfl, rfl, by simp [Pc.exitRank], hfl, by simp [htr, noSampleTrace, hemp]⟩
    · rename_i smp rest hsome
      rw [hs] at hsome
      rw [hsome] at hsrc
      simp at hsrc
  case endOfStream =>
    subst ho
    exact ⟨rfl, rfl, by simp [Pc.exitRank], hfl, by simp [hpcinv]⟩
  case done =>
    subst ho
    refine ⟨rfl, rfl, by simp [Pc.exitRank, hpc], hfl, ?_⟩
    simp only [hpc, List.append_nil]
    exact hpcinv

/-- Every event of av1 keeps `NoSampleInv`. -/
theorem noSampleInv_step (env : Env) (m : Media) (src0 : List (Option GstSample))
    (hsrc : src0.head?.join = none) (e : Event) (s : Sys) (h : NoSampleInv m src0 s) :
    NoSampleInv m src0 (step .av1 env e s) := by
  unfold step
  split
  · exact h
  · cases e with
    | relay m1 =>
      simp only
      split
      · by_cases hm : m1 = m
        · subst hm
          obtain ⟨h1, -, -, h4⟩ := noSampleInv_relayStep env m1 src0 hsrc s h
          unfold NoSampleInv
          rw [Sys.apply_data, Sys.apply_relay_same, Sys.apply_trace, relayTrace_append,
            relayTrace_own m1 _ (relayStep_media .av1 env m1 s.data (s.relay m1)), h1]
          exact h4
        · have hmed := relayStep_media .av1 env m1 s.data (s.relay m1)
          unfold NoSampleInv at h ⊢
          rw [Sys.apply_data, Sys.apply_relay_other _ _ _ _ (Ne.symm hm), Sys.apply_trace,
            relayTrace_append, relayTrace_other m m1 _ hmed hm, List.append_nil,
            flagInit_relayStep_other .av1 env m m1 _ _ hm]
          exact h
      · exact h
    | startFeed source =>
      simp only
      split
      · rename_i d1 hd
        obtain ⟨-, -, h3, h4⟩ := startFeed_frame _ _ _ _ hd
        unfold NoSampleInv at h ⊢
        have hf : d1.flagInit m = s.data.flagInit m := flagInit_frame m _ _ h3 h4
        cases m <;> simpa only [Sys.relay, hf] using h
      · unfold NoSampleInv at h ⊢
        cases m <;> simpa only [Sys.relay] using h
    | stopFeed source =>
      simp only
      split
      · rename_i d1 hd
        obtain ⟨-, -, h3, h4⟩ := stopFeed_frame _ _ _ _ hd
        unfold NoSampleInv at h ⊢
        have hf : d1.flagInit m = s.data.flagInit m := flagInit_frame m _ _ h3 h4
        cases m <;> simpa only [Sys.relay, hf] using h
      · unfold NoSampleInv at h ⊢
        cases m <;> simpa only [Sys.relay] using h

theorem noSampleInv_run (env : Env) (m : Media) (srcA srcV : List (Option GstSample))
    (hsrc : ((Sys.init srcA srcV).relay m).source.head?.join = none) (es : List Event) :
    NoSampleInv m ((Sys.init srcA srcV).relay m).source (run .av1 env es (Sys.init srcA srcV)) := by
  refine run_invariant .av1 env (NoSampleInv m _) (noSampleInv_step env m _ hsrc) es _ ?_
  cases m <;> simp [NoSampleInv, Sys.init, Sys.relay, Relay.init, GoblinData.init,
    GoblinData.flagInit, relayTrace]

/-- The relay without a sample reaches its return within `exitRank` of its own steps. -/
theorem noSample_progress (env : Env) (m : Media) (src0 : List (Option GstSample))
    (hsrc : src0.head?.join = none) (n : Nat) :
    ∀ s : Sys, NoSampleInv m src0 s → s.terminated = false → (s.relay m).pc.exitRank ≤ n →
      ∃ k, k ≤ n ∧ ((run .av1 env (steps m k) s).relay m).pc = .done ∧
        (run .av1 env (steps m k) s).terminated = false ∧
        NoSampleInv m src0 (run .av1 env (steps m k) s) := by
  induction n with
  | zero =>
    intro s h ht hrank
    refine ⟨0, Nat.le_refl 0, ?_, ht, h⟩
    have hinv := h.2
    rw [run_steps_zero]
    cases hpc : (s.relay m).pc <;> rw [hpc] at hinv hrank <;>
      simp only [Pc.exitRank] at hrank <;> first | rfl | omega | exact absurd hinv id
  | succ n ih =>
    intro s h ht hrank
    by_cases hdone : (s.relay m).pc = .done
    · exact ⟨0, Nat.zero_le _, by rw [run_steps_zero]; exact hdone, ht, h⟩
    · obtain ⟨-, h2, h3, -⟩ := noSampleInv_relayStep env m src0 hsrc s h
      rw [if_neg hdone] at h3
      have hs1 := step_relay_own .av1 env m (by cases m <;> rfl) s ht
      have ht1 : (step .av1 env (.relay m) s).terminated = false := by
        rw [hs1, Sys.apply_terminated]; exact h2
      have hr1 : ((step .av1 env (.relay m) s).relay m).pc.exitRank ≤ n := by
        rw [hs1, Sys.apply_relay_same]; omega
      obtain ⟨k, hk, hres⟩ := ih _ (noSampleInv_step env m src0 hsrc (.relay m) s h) ht1 hr1
      exact ⟨k + 1, by omega, by rw [run_steps_succ]; exact hres⟩

theorem neverFedInv_run (p : Prog) (env : Env) (m : Media) (hr : hasRelay p m = true)
    (srcA srcV : List (Option GstSample)) (es : List Event)
    (hno : ∀ e ∈ es, startsFeed p m e = false) :
    NeverFedInv p m (run p env es (Sys.init srcA srcV)) := by
  have h0 : NeverFedInv p m (Sys.init srcA srcV) := by
    have hc := capsInv_run p env m hr srcA srcV []
    refine ⟨?_, hc, ?_, ?_⟩
    · cases m <;> rfl
    · intro _; rfl
    · intro _
      cases m <;> simp [Sys.init, Sys.relay, Relay.init, pushCount, pushedBuffers,
        Pc.pushBudget, Pc.canPush]
  exact run_invariant_on p env (NeverFedInv p m) (fun e => startsFeed p m e = false)
    (fun e s hq hi => neverFedInv_step p env m hr e s hq hi) es hno _ h0

theorem assignedCaps_relayTrace (m : Media) (tr : List Effect) :
    assignedCaps m (relayTrace m tr) = assignedCaps m tr := by
  induction tr with
  | nil => rfl
  | cons e t ih =>
    unfold relayTrace at ih ⊢
    rw [List.filter_cons]
    by_cases hm : e.media = m
    · rw [if_pos (by simpa using hm)]
      cases e <;> simp only [assignedCaps, ih]
    · rw [if_neg (by simpa using hm)]
      cases e <;> simp only [assignedCaps, ih]
      rw [if_neg (by simpa [Effect.media] using hm)]

theorem capsCount_relayTrace (m : Media) (tr : List Effect) :
    capsCount m (relayTrace m tr) = capsCount m tr := by
  rw [capsCount_eq_length, capsCount_eq_length, assignedCaps_relayTrace]

/-- C30: in av1, let the source of the relay of media type `m` reach end-of-stream or
return a null sample before it yields any sample.  Then in every run the start of the
playback pipeline is never called, `flagElfStarted` and the format flag of `m` stay
false, and that relay assigns no caps and pushes nothing; unless the process has
terminated, it still signals end-of-stream: within four of its own steps it has
returned, and its effects are the end-of-stream test (and the null pull) followed by the
one `gst_app_src_end_of_stream` call.  The other relay, once its format flag is set,
passes its idle-wait only with its run flag true, and that flag is set only by
`startFeed`: in a run without a `startFeed` for it the flag is false and it pushes at most
one buffer. -/
theorem av1_no_start_without_sample (env : Env) (m : Media)
    (srcA srcV : List (Option GstSample)) (es : List Event) (d : GoblinData) (r : Relay)
    (hsrc : ((Sys.init srcA srcV).relay m).source.head?.join = none) :
    (startCount (run .av1 env es (Sys.init srcA srcV)).trace = 0 ∧
      (run .av1 env es (Sys.init srcA srcV)).data.flagElfStarted = false ∧
      (run .av1 env es (Sys.init srcA srcV)).data.flagInit m = false ∧
      capsCount m (run .av1 env es (Sys.init srcA srcV)).trace = 0 ∧
      pushCount m (run .av1 env es (Sys.init srcA srcV)).trace = 0) ∧
    ((run .av1 env es (Sys.init srcA srcV)).terminated = false →
      ∃ k, k ≤ 4 ∧
        ((run .av1 env (steps m k) (run .av1 env es (Sys.init srcA srcV))).relay m).pc = .done ∧
        relayTrace m (run .av1 env (steps m k) (run .av1 env es (Sys.init srcA srcV))).trace =
          noSampleTrace m ((Sys.init srcA srcV).relay m).source ++ [.endOfStream m]) ∧
    (d.flagInit m.other = true →
      (r.pc = .whileGate → (relayStep .av1 env m.other d r).relay.pc = .whileRun) ∧
      (r.pc = .whileRun →
        ((relayStep .av1 env m.other d r).relay.pc = .isEos ↔ d.flagRun m.other = true))) ∧
    ((∀ e ∈ es, startsFeed .av1 m.other e = false) →
      (run .av1 env es (Sys.init srcA srcV)).data.flagRun m.other = false ∧
      pushCount m.other (run .av1 env es (Sys.init srcA srcV)).trace ≤ 1) := by
  have hinv := noSampleInv_run env m srcA srcV hsrc es
  have hav := av1Inv_run env es srcA srcV
  have hcaps := capsInv_run .av1 env m (by cases m <;> rfl) srcA srcV es
  unfold Av1Inv at hav
  have hfl := hinv.1
  have hnotboth : ¬ ((run .av1 env es (Sys.init srcA srcV)).data.flagInitA = true ∧
      (run .av1 env es (Sys.init srcA srcV)).data.flagInitV = true) := by
    intro hb
    cases m
    · rw [show (run .av1 env es (Sys.init srcA srcV)).data.flagInit .A =
        (run .av1 env es (Sys.init srcA srcV)).data.flagInitA from rfl, hb.1] at hfl
      exact absurd hfl (by decide)
    · rw [show (run .av1 env es (Sys.init srcA srcV)).data.flagInit .V =
        (run .av1 env es (Sys.init srcA srcV)).data.flagInitV from rfl, hb.2] at hfl
      exact absurd hfl (by decide)
  have hstart : startCount (run .av1 env es (Sys.init srcA srcV)).trace = 0 := by
    by_contra hne
    exact hnotboth (hav.count_init (by omega))
  have hstarted : (run .av1 env es (Sys.init srcA srcV)).data.flagElfStarted = false := by
    cases hst : (run .av1 env es (Sys.init srcA srcV)).data.flagElfStarted
    · rfl
    · exact absurd (hav.started_init hst) hnotboth
  have hpush : pushCount m (run .av1 env es (Sys.init srcA srcV)).trace = 0 := by
    cases m
    · exact hav.self.no_push_before_init hfl
    · exact hav.other.no_push_before_init hfl
  have hcc : capsCount m (run .av1 env es (Sys.init srcA srcV)).trace = 0 := by
    have hpcs := hinv.2
    have hg : gateFlag .av1 m (run .av1 env es (Sys.init srcA srcV)).data = false := hfl
    rw [hg] at hcaps
    have htr : ∀ rt : List Effect,
        relayTrace m (run .av1 env es (Sys.init srcA srcV)).trace = rt →
        capsCount m rt = 0 → capsCount m (run .av1 env es (Sys.init srcA srcV)).trace = 0 := by
      intro rt h1 h2
      rw [← capsCount_relayTrace, h1]
      exact h2
    unfold CapsInv at hcaps
    cases hpc : ((run .av1 env es (Sys.init srcA srcV)).relay m).pc <;>
      rw [hpc] at hcaps hpcs <;> simp only [Bool.false_eq_true, if_false] at hcaps hpcs <;>
      first
        | exact hcaps.2
        | exact absurd hpcs id
        | (apply htr _ hpcs
           cases m <;> unfold noSampleTrace <;> split <;> simp [capsCount])
  refine ⟨⟨hstart, hstarted, hfl, hcc, hpush⟩, fun ht => ?_, fun hfi => ?_, fun hno => ?_⟩
  · obtain ⟨k, hk, hdone, -, hinv2⟩ := noSample_progress env m _ hsrc 4 _ hinv ht (by
      cases hpc : ((run .av1 env es (Sys.init srcA srcV)).relay m).pc <;> simp [Pc.exitRank])
    refine ⟨k, hk, hdone, ?_⟩
    have h2 := hinv2.2
    rw [hdone] at h2
    exact h2
  · have hg : gateFlag .av1 m.other d = true := hfi
    constructor
    · intro hpc
      simp [relayStep, hpc, hg]
    · intro hpc
      cases hrun : d.flagRun m.other <;> simp [relayStep, hpc, hrun]
  · have hnf := neverFedInv_run .av1 env m.other (by cases m <;> rfl) srcA srcV es hno
    exact ⟨hnf.1, neverFed_pushCount .av1 env m.other (by cases m <;> rfl) srcA srcV es hno⟩

/-- The run of av1 in which the audio source is at end-of-stream from the start and the
video relay takes its first iteration: the audio relay returns after its end-of-stream
call, and the pipeline has not been started. -/
theorem av1_no_start_without_sample_witness :
    startCount (run .av1 envOk (steps .V 10 ++ steps .A 3)
      (Sys.init [] [some (sampleV 0), some (sampleV 1)])).trace = 0 ∧
    (run .av1 envOk (steps .V 10 ++ steps .A 3)
      (Sys.init [] [some (sampleV 0), some (sampleV 1)])).data.flagElfStarted = false :=
  have h := (av1_no_start_without_sample envOk .A [] [some (sampleV 0), some (sampleV 1)]
    (steps .V 10 ++ steps .A 3) GoblinData.init (Relay.init []) rfl).1
  ⟨h.1, h.2.1⟩

end GstApp
